import Mathlib

/-!
# Drill-down navigation and spiral layout (ttdirender/element.go)

A shallow embedding of the `ElementRenderer` of
`trcgorillaz/ttdivisualizer/ttdirender/element.go`.

* Go pointers to graph elements are addresses (`Ptr`); address `0` is the nil
  pointer.  The fields of an element that the renderer only reads live in
  `Graph`; the fields it writes (state flags, attached meshes, colour) live in
  `WorldApp`, keyed by the element address.
* A Go run-time panic is `Err.fault`.  Recursive functions take a recursion
  budget and report `Err.fuel` when it is used up.
* Floating-point arithmetic is not interpreted: every function takes the
  arithmetic as a parameter (`FloatOps`), so each theorem holds for whatever the
  float32/float64 operations compute.
* A Go `range` over a map yields the keys in an unspecified order; the one such
  loop (`InitRenderLoop`, line 180) takes the order as the parameter `order`.
* Entries of the selection stack and values of the position cache are stored
  by value: the code only ever stores addresses of fresh, non-nil objects
  there.
-/

namespace Tierceron

/-- The ways a call can fail to return normally. -/
inductive Err where
  /-- a Go run-time panic: nil dereference, index out of range, nil-map write -/
  | fault
  /-- the recursion budget of the model ran out -/
  | fuel
  deriving DecidableEq, Repr

/-- Address of a `*g3nmash.G3nDetailedElement`; `0` is the nil pointer. -/
abbrev Ptr := Nat

/-- Identity of a `core.INode` (a mesh); the nil interface is `Option.none`. -/
abbrev Handle := Nat

/-- The float32/float64 operations the renderer uses, over one carrier `R`.
`binetRe` and `binetIm` are the real and imaginary part of `binetFormula`, a
function of the package that is defined outside `element.go`. -/
structure FloatOps (R : Type) where
  zero32 : R
  zero64 : R
  tenth64 : R
  tenth32 : R
  negTenth32 : R
  sub64 : R → R → R
  sub32 : R → R → R
  add32 : R → R → R
  neg64 : R → R
  neg32 : R → R
  to32 : R → R
  to64 : R → R
  binetRe : R → R
  binetIm : R → R

/-- A `math32.Vector3`. -/
structure Vector3 (R : Type) where
  X : R
  Y : R
  Z : R
  deriving DecidableEq, Repr

/-- A `math32.Color` value: a named colour or the components given to
`Color.Set`, in thousandths. -/
inductive Color where
  | named (name : String)
  | rgb (r g b : Nat)
  deriving DecidableEq, Repr

/-- The two opacities `RenderElement` passes to `SetColor`: `1.0` and `0.15`. -/
inductive Opacity where
  | full
  | dimmed
  deriving DecidableEq, Repr

/-- The fields of an element (`GetDetailedElement()`, `GetDisplayName`,
`GetChildElementIds`, `GetParentElementIds`, `IsAbstract`) that the renderer
reads and never writes. -/
structure MashupDetailedElement where
  Id : Int
  Name : String
  Alias : String
  Genre : String
  Data : String
  Parentids : List Int
  Childids : List Int
  Abstract : Bool
  deriving DecidableEq, Repr

/-- The part of `g3nworld.WorldApp` that the renderer only reads: the elements
behind each address, the `ConcreteElements` map and the `ClickedElements`
slice. -/
structure Graph where
  detailedElement : Ptr → Option MashupDetailedElement
  ConcreteElements : Int → Option Ptr
  ClickedElements : List Ptr

/-- The part of the world the renderer writes: per element the `Hidden` and
`Clicked` state bits, the named meshes and the last colour set; the scene; the
meshes created so far and the shared `g3ndpalette.DARK_BLUE` colour object.
Log output and the package variable `maxTime` (read by `Collaborate` only) are
left out. -/
structure WorldApp (R : Type) where
  Hidden : Ptr → Bool
  Clicked : Ptr → Bool
  meshComposite : Ptr → String → Option Handle
  color : Ptr → Option (Color × Opacity)
  scene : List Handle
  Position : Handle → Vector3 R
  LoaderID : Handle → String
  material : Handle → Option Color
  nextHandle : Handle
  DARK_BLUE : Color

/-- One entry of the selection stack (`ClickedG3nDetailElement`). -/
structure ClickedG3nDetailElement (R : Type) where
  clickedElement : Ptr
  center : Vector3 R
  deriving DecidableEq, Repr

/-- The renderer (`ElementRenderer`).  `LocationCache` is `none` for the nil
map; an entry later in the list is shadowed by an earlier one with the same
key. -/
structure ElementRenderer (R : Type) where
  iOffset : Int
  counter : R
  totalElements : Int
  LocationCache : Option (List (Int × Vector3 R))
  clickedElements : List (ClickedG3nDetailElement R)

variable {R : Type}

/-! ## Graph access -/

/-- Dereference of an element pointer: a fault at nil or at an address that
holds no element. -/
def Graph.deref (g : Graph) (p : Ptr) : Except Err MashupDetailedElement :=
  if p = 0 then .error .fault
  else match g.detailedElement p with
    | some n => .ok n
    | none => .error .fault

/-- The Go expression `worldApp.ConcreteElements[id]`: nil for a missing key. -/
def Graph.concrete (g : Graph) (id : Int) : Ptr :=
  (g.ConcreteElements id).getD 0

/-- The Go expression `worldApp.ClickedElements[len(worldApp.ClickedElements)-1]`:
index out of range on the empty slice. -/
def Graph.lastClicked (g : Graph) : Except Err Ptr :=
  match g.ClickedElements.getLast? with
  | some p => .ok p
  | none => .error .fault

/-! ## Map and stack primitives -/

/-- Read of a Go map held as an association list. -/
def cacheGet (m : List (Int × Vector3 R)) (k : Int) : Option (Vector3 R) :=
  match m with
  | [] => none
  | (k1, v) :: rest => if k1 = k then some v else cacheGet rest k

/-- The Go expression `er.LocationCache[id]`; a nil map reads as empty. -/
def ElementRenderer.cacheLookup (er : ElementRenderer R) (k : Int) : Option (Vector3 R) :=
  match er.LocationCache with
  | some m => cacheGet m k
  | none => none

/-- The Go statement `er.LocationCache[k] = v`; a fault on the nil map. -/
def ElementRenderer.cacheStore (er : ElementRenderer R) (k : Int) (v : Vector3 R) :
    Except Err (ElementRenderer R) :=
  match er.LocationCache with
  | some m => .ok { er with LocationCache := some ((k, v) :: m) }
  | none => .error .fault

/-- Source `isEmpty`. -/
def ElementRenderer.isEmpty (er : ElementRenderer R) : Bool :=
  er.clickedElements.length == 0

/-- Source `length`. -/
def ElementRenderer.length (er : ElementRenderer R) : Nat :=
  er.clickedElements.length

/-- Source `push`: appends the pair to `er.clickedElements`. -/
def ElementRenderer.push (er : ElementRenderer R) (g3nDetailedElement : Ptr)
    (centerLocation : Vector3 R) : ElementRenderer R :=
  { er with clickedElements :=
      er.clickedElements ++ [{ clickedElement := g3nDetailedElement, center := centerLocation }] }

/-- Source `pop`: removes and returns the last entry; index out of range on the
empty stack. -/
def ElementRenderer.pop (er : ElementRenderer R) :
    Except Err (ClickedG3nDetailElement R × ElementRenderer R) :=
  match er.clickedElements.getLast? with
  | some e => .ok (e, { er with clickedElements := er.clickedElements.dropLast })
  | none => .error .fault

/-- Source `top`: the last entry; index out of range on the empty stack. -/
def ElementRenderer.top (er : ElementRenderer R) : Except Err (ClickedG3nDetailElement R) :=
  match er.clickedElements.getLast? with
  | some e => .ok e
  | none => .error .fault

/-! ## The element and render-surface interface -/

/-- The state bits of `mashupsdk` the renderer touches. -/
inductive DisplayElementState where
  | Hidden
  | Clicked
  deriving DecidableEq, Repr

/-- Modelled from the spec: the element method `ApplyState` of the graph
collaborator, "set/clear state flag {Hidden, Selected} on a node".  A call on
a nil element faults. -/
def ApplyState (g : Graph) (w : WorldApp R) (p : Ptr) (x : DisplayElementState)
    (isSet : Bool) : Except Err (WorldApp R) :=
  match g.deref p with
  | .error e => .error e
  | .ok _ =>
    match x with
    | .Hidden => .ok { w with Hidden := fun q => if q = p then isSet else w.Hidden q }
    | .Clicked => .ok { w with Clicked := fun q => if q = p then isSet else w.Clicked q }

/-- Modelled from the spec: the element method `SetNamedMesh`, "attach a
render handle on a node". -/
def SetNamedMesh (w : WorldApp R) (p : Ptr) (name : String) (h : Handle) : WorldApp R :=
  { w with meshComposite := fun q s =>
      if q = p ∧ s = name then some h else w.meshComposite q s }

/-- Modelled from the spec: the element method `SetColor`; the colour value and
the opacity are recorded on the element. -/
def SetColor (w : WorldApp R) (p : Ptr) (c : Color) (o : Opacity) : WorldApp R :=
  { w with color := fun q => if q = p then some (c, o) else w.color q }

/-- Modelled from the spec: `upsert(handle)` of the render surface,
"(re)submits an existing representation for display; idempotent". -/
def UpsertToScene (w : WorldApp R) (h : Handle) : WorldApp R :=
  if h ∈ w.scene then w else { w with scene := w.scene ++ [h] }

/-- Modelled from the spec: `remove(handle)` of the render surface, "detaches
a representation"; the element keeps the handle it was given. -/
def RemoveFromScene (w : WorldApp R) (h : Handle) : WorldApp R :=
  { w with scene := w.scene.filter (fun x => x != h) }

/-- The colour both `NewSolidAtPosition` and the else-branch of `RenderElement`
compute from the alias.  `color` starts as the pointer `g3ndpalette.DARK_BLUE`,
so `color.Set` overwrites the shared palette object; `math32.NewColor("olive")`
is a fresh object.  Returns the world with the palette updated and the colour
value that `color` holds. -/
def aliasColor (w : WorldApp R) (al : String) : WorldApp R × Color :=
  if al = "Argosy" then ({ w with DARK_BLUE := .rgb 0 349 643 }, .rgb 0 349 643)
  else if al = "DataFlowGroup" then ({ w with DARK_BLUE := .rgb 1000 224 0 }, .rgb 1000 224 0)
  else if al = "DataFlow" then (w, .named "olive")
  else (w, w.DARK_BLUE)

/-- Source `NewSolidAtPosition`: a new sphere mesh with the alias colour, the
display name as loader id and position `vpos`; `SetPositionVec` dereferences
`vpos`, so a nil position faults.  Returns the world and the new mesh. -/
def NewSolidAtPosition (g : Graph) (w : WorldApp R) (g3n : Ptr) (vpos : Option (Vector3 R)) :
    Except Err (WorldApp R × Handle) :=
  match g.deref g3n with
  | .error e => .error e
  | .ok n =>
    let wc := aliasColor w n.Alias
    match vpos with
    | none => .error .fault
    | some v =>
      let h := wc.1.nextHandle
      .ok ({ wc.1 with
              Position := fun x => if x = h then v else wc.1.Position x
              LoaderID := fun x => if x = h then n.Name else wc.1.LoaderID x
              material := fun x => if x = h then some wc.2 else wc.1.material x
              nextHandle := h + 1 }, h)

/-- Source `NewInternalMeshAtPosition`: always the nil node. -/
def NewInternalMeshAtPosition (_g3n : Ptr) (_vpos : Option (Vector3 R)) : Option Handle :=
  none

/-! ## Spiral positions and the position cache -/

/-- Source `NextCoordinate`.  Returns the renderer and the position (nil is
`none`); the element pointer is returned unchanged by the source and is left
out.  `GetDisplayId()` and `GetDetailedElement().Id` both read the field `Id`. -/
def NextCoordinate (fl : FloatOps R) (g : Graph) (er : ElementRenderer R) (g3n : Ptr)
    (totalElements : Int) : Except Err (ElementRenderer R × Option (Vector3 R)) :=
  let er1 := { er with totalElements := totalElements }
  if er1.iOffset ≥ 2 then
    match g.deref g3n with
    | .error e => .error e
    | .ok n => .ok (er1, er1.cacheLookup n.Id)
  else if er1.iOffset = 0 then
    match g.deref g3n with
    | .error e => .error e
    | .ok n =>
      let origin : Vector3 R := ⟨fl.zero32, fl.zero32, fl.zero32⟩
      .ok ({ er1 with iOffset := 1, counter := fl.zero64,
                      LocationCache := some [(n.Id, origin)] }, some origin)
  else
    let c := fl.sub64 er1.counter fl.tenth64
    let er2 := { er1 with counter := c }
    let v : Vector3 R := ⟨fl.to32 (fl.neg64 (fl.binetRe c)), fl.to32 (fl.binetIm c),
                          fl.to32 (fl.neg64 c)⟩
    match g.deref g3n with
    | .error e => .error e
    | .ok n =>
      match er2.cacheStore n.Id v with
      | .error e => .error e
      | .ok er3 => .ok (er3, some v)

/-- Source `calculateLocation`: the spiral point for `counter`, moved by
`center`. -/
def calculateLocation (fl : FloatOps R) (center : Vector3 R) (counter : R) : Vector3 R :=
  let c := fl.to64 counter
  ⟨fl.add32 (fl.to32 (fl.neg64 (fl.binetRe c))) center.X,
   fl.add32 (fl.to32 (fl.binetIm c)) center.Y,
   fl.add32 (fl.neg32 counter) center.Z⟩

/-- The inner loop of `calcLocnStarter` over the parents of the element with
key `id`; returns the renderer and the running counter. -/
def calcLocnParents (fl : FloatOps R) (id : Int) :
    List Int → ElementRenderer R → R → Except Err (ElementRenderer R × R)
  | [], er, counter => .ok (er, counter)
  | parent :: rest, er, counter =>
    if parent > 0 then
      match er.cacheLookup parent with
      | some center =>
        match er.cacheStore id (calculateLocation fl center counter) with
        | .error e => .error e
        | .ok er1 => calcLocnParents fl id rest er1 (fl.sub32 counter fl.tenth32)
      | none => calcLocnParents fl id rest er counter
    else calcLocnParents fl id rest er counter

/-- Source `calcLocnStarter`: for every id, in order, and every parent of that
element, in order, whose position is cached. -/
def calcLocnStarter (fl : FloatOps R) (g : Graph) :
    List Int → ElementRenderer R → R → Except Err (ElementRenderer R)
  | [], er, _ => .ok er
  | id :: rest, er, counter =>
    match g.deref (g.concrete id) with
    | .error e => .error e
    | .ok element =>
      match calcLocnParents fl id element.Parentids er counter with
      | .error e => .error e
      | .ok (er1, counter1) => calcLocnStarter fl g rest er1 counter1

/-- The child loop of `initLocnCache`: recurses (through `recur`) into every
child that is not Solid. -/
def initLocnChildren (g : Graph) (recur : Ptr → ElementRenderer R → Except Err (ElementRenderer R)) :
    List Int → ElementRenderer R → Except Err (ElementRenderer R)
  | [], er => .ok er
  | childID :: rest, er =>
    match g.deref (g.concrete childID) with
    | .error e => .error e
    | .ok child =>
      if child.Genre ≠ "Solid" then
        match recur (g.concrete childID) er with
        | .error e => .error e
        | .ok er1 => initLocnChildren g recur rest er1
      else initLocnChildren g recur rest er

/-- Source `initLocnCache`, with a recursion budget. -/
def initLocnCache (fl : FloatOps R) (g : Graph) :
    Nat → Ptr → ElementRenderer R → Except Err (ElementRenderer R)
  | 0, _, _ => .error .fuel
  | fuel + 1, element, er =>
    match g.deref element with
    | .error e => .error e
    | .ok n =>
      if n.Childids.length ≠ 0 then
        match (if n.Genre ≠ "Solid" then calcLocnStarter fl g n.Childids er fl.negTenth32
               else .ok er) with
        | .error e => .error e
        | .ok er1 => initLocnChildren g (initLocnCache fl g fuel) n.Childids er1
      else .ok er

/-! ## Navigation -/

/-- Source `isChildElement`: whether the last clicked element is (pointer-equal
to) the element behind one of the child ids of `prevElement`. -/
def isChildElement (g : Graph) (prevElement : Ptr) : Except Err Bool :=
  match g.lastClicked with
  | .error e => .error e
  | .ok clickedElement =>
    match g.deref prevElement with
    | .error e => .error e
    | .ok prev => .ok (prev.Childids.any (fun childID => clickedElement == g.concrete childID))

/-- A loop that runs `body` on each id in order, threading the world. -/
def forIds (body : Int → WorldApp R → Except Err (WorldApp R)) :
    List Int → WorldApp R → Except Err (WorldApp R)
  | [], w => .ok w
  | cId :: rest, w =>
    match body cId w with
    | .error e => .error e
    | .ok w1 => forIds body rest w1

/-- Source `RemoveAll`, with a recursion budget: a missing id is skipped; the
mesh of a present, non-abstract, non-Solid element is removed from the scene;
then every child id is visited. -/
def RemoveAll (g : Graph) : Nat → Int → WorldApp R → Except Err (WorldApp R)
  | 0, _, _ => .error .fuel
  | fuel + 1, childId, w =>
    match g.ConcreteElements childId with
    | none => .ok w
    | some child =>
      match g.deref child with
      | .error e => .error e
      | .ok n =>
        let w1 :=
          if !n.Abstract && n.Genre ≠ "Solid" then
            match w.meshComposite child n.Name with
            | some childMesh => RemoveFromScene w childMesh
            | none => w
          else w
        if n.Childids.length > 0 then forIds (RemoveAll g fuel) n.Childids w1
        else .ok w1

/-- The body of the child loop of `deselectElements` for one child id. -/
def deselectChild (g : Graph) (depth : Nat) (element : Ptr) (childID : Int) (w : WorldApp R) :
    Except Err (WorldApp R) :=
  match isChildElement g element with
  | .error e => .error e
  | .ok isChild =>
    if isChild then .ok w
    else
      match g.lastClicked with
      | .error e => .error e
      | .ok clickedElement =>
        if element ≠ clickedElement then
          match ApplyState g w (g.concrete childID) .Hidden true with
          | .error e => .error e
          | .ok w1 => RemoveAll g depth childID w1
        else .ok w

/-- Source `deselectElements`, with a recursion budget `fuel` for its own
recursion and `depth` for the calls of `RemoveAll`. -/
def deselectElements (g : Graph) (depth : Nat) :
    Nat → Ptr → WorldApp R → Except Err (WorldApp R × Ptr)
  | 0, _, _ => .error .fuel
  | fuel + 1, element, w =>
    match g.deref element with
    | .error e => .error e
    | .ok n =>
      match forIds (deselectChild g depth element) n.Childids w with
      | .error e => .error e
      | .ok w1 =>
        match n.Parentids with
        | [] => .ok (w1, element)
        | parent0 :: _ =>
          match g.lastClicked with
          | .error e => .error e
          | .ok clickedElement =>
            match g.deref clickedElement with
            | .error e => .error e
            | .ok clicked =>
              match clicked.Parentids with
              | [] => deselectElements g depth fuel (g.concrete parent0) w1
              | clickedParent0 :: _ =>
                if parent0 = clickedParent0 then .ok (w1, element)
                else deselectElements g depth fuel (g.concrete parent0) w1

/-- The keys of a Go map held as an association list. -/
def cacheKeys (m : Option (List (Int × Vector3 R))) : List Int :=
  match m with
  | some l => (l.map Prod.fst).dedup
  | none => []

/-- The cache population loop of `InitRenderLoop` over the keys of the copied
cache, in the order given. -/
def initCacheLoop (fl : FloatOps R) (g : Graph) (fuel : Nat) :
    List Int → ElementRenderer R → Except Err (ElementRenderer R)
  | [], er => .ok er
  | key :: rest, er =>
    match g.deref (g.concrete key) with
    | .error e => .error e
    | .ok element =>
      if element.Genre ≠ "Solid" then
        match initLocnCache fl g fuel (g.concrete key) er with
        | .error e => .error e
        | .ok er1 => initCacheLoop fl g fuel rest er1
      else initCacheLoop fl g fuel rest er

/-- Lines 175-187 of `InitRenderLoop`: populate the cache unless the phase is
already 2, then set the phase to 2.  `order` is the order in which the Go
`range` statement yields the keys of the copy. -/
def initCachePhase (fl : FloatOps R) (g : Graph) (order : List Int) (fuel : Nat)
    (er : ElementRenderer R) : Except Err (ElementRenderer R) :=
  if er.iOffset ≠ 2 then
    match initCacheLoop fl g fuel order er with
    | .error e => .error e
    | .ok er1 => .ok { er1 with iOffset := 2 }
  else .ok er

/-- The condition of line 190 of `InitRenderLoop`, evaluated left to right with
short-circuit: the clicked element is no child of the stack top, the stack top
is not Solid, and the clicked element is not Space.  The test
`prevElement != nil` in between always holds (stack entries are never nil). -/
def popCondition (g : Graph) (prevElement : Ptr) : Except Err Bool :=
  match isChildElement g prevElement with
  | .error e => .error e
  | .ok isChild =>
    if isChild then .ok false
    else
      match g.deref prevElement with
      | .error e => .error e
      | .ok prev =>
        if prev.Genre ≠ "Solid" then
          match g.lastClicked with
          | .error e => .error e
          | .ok clickedElement =>
            match g.deref clickedElement with
            | .error e => .error e
            | .ok clicked => .ok (decide (clicked.Genre ≠ "Space"))
        else .ok false

/-- The body of the loop of lines 192-197 of `InitRenderLoop` for one child
id of the popped element. -/
def hideChild (g : Graph) (depth : Nat) (prevElement : Ptr) (childID : Int) (w : WorldApp R) :
    Except Err (WorldApp R) :=
  match isChildElement g prevElement with
  | .error e => .error e
  | .ok isChild =>
    if isChild then .ok w
    else
      match ApplyState g w (g.concrete childID) .Hidden true with
      | .error e => .error e
      | .ok w1 => RemoveAll g depth childID w1

/-- Lines 188-200 of `InitRenderLoop`: when the stack is not empty and the pop
condition holds, pop the top, hide and remove its children, and deselect. -/
def popPhase (g : Graph) (fuel : Nat) (er : ElementRenderer R) (w : WorldApp R) :
    Except Err (ElementRenderer R × WorldApp R) :=
  if !er.isEmpty then
    match er.top with
    | .error e => .error e
    | .ok prevElement =>
      match popCondition g prevElement.clickedElement with
      | .error e => .error e
      | .ok false => .ok (er, w)
      | .ok true =>
        match er.pop with
        | .error e => .error e
        | .ok (_, er1) =>
          match g.deref prevElement.clickedElement with
          | .error e => .error e
          | .ok prev =>
            match forIds (hideChild g fuel prevElement.clickedElement) prev.Childids w with
            | .error e => .error e
            | .ok w1 =>
              match deselectElements g fuel fuel prevElement.clickedElement w1 with
              | .error e => .error e
              | .ok (w2, _) => .ok (er1, w2)
  else .ok (er, w)

/-- The body of the loop of lines 208-214 of `InitRenderLoop` for one child
id of the clicked element. -/
def showChild (g : Graph) (childID : Int) (w : WorldApp R) : Except Err (WorldApp R) :=
  match g.deref (g.concrete childID) with
  | .error e => .error e
  | .ok childElement =>
    if childElement.Genre ≠ "Solid" then
      match ApplyState g w (g.concrete childID) .Hidden false with
      | .error e => .error e
      | .ok w1 => ApplyState g w1 (g.concrete childID) .Clicked true
    else .ok w

/-- Lines 201-215 of `InitRenderLoop`: push the clicked element with the
position of its mesh unless it is Solid or Space, and show its children.
`mesh.Position()` on the nil mesh faults. -/
def pushPhase (g : Graph) (er : ElementRenderer R) (w : WorldApp R) :
    Except Err (ElementRenderer R × WorldApp R) :=
  match g.lastClicked with
  | .error e => .error e
  | .ok clickedElement =>
    match g.deref clickedElement with
    | .error e => .error e
    | .ok clicked =>
      if clicked.Genre ≠ "Solid" ∧ clicked.Genre ≠ "Space" then
        match w.meshComposite clickedElement clicked.Name with
        | none => .error .fault
        | some mesh =>
          match forIds (showChild g) clicked.Childids w with
          | .error e => .error e
          | .ok w1 => .ok (er.push clickedElement (w.Position mesh), w1)
      else .ok (er, w)

/-- Source `InitRenderLoop`. -/
def InitRenderLoop (fl : FloatOps R) (g : Graph) (order : List Int) (fuel : Nat)
    (er : ElementRenderer R) (w : WorldApp R) :
    Except Err (ElementRenderer R × WorldApp R × Bool) :=
  match initCachePhase fl g order fuel er with
  | .error e => .error e
  | .ok er1 =>
    match popPhase g fuel er1 w with
    | .error e => .error e
    | .ok (er2, w2) =>
      match pushPhase g er2 w2 with
      | .error e => .error e
      | .ok (er3, w3) => .ok (er3, w3, true)

/-! ## Redraw -/

/-- The body of the loop of lines 236-251 of `RenderElement` for one child id
of the focused element. -/
def renderChild (fl : FloatOps R) (g : Graph) (childId : Int)
    (s : ElementRenderer R × WorldApp R) : Except Err (ElementRenderer R × WorldApp R) :=
  match g.deref (g.concrete childId) with
  | .error e => .error e
  | .ok element =>
    if element.Genre ≠ "Solid" ∧ element.Alias ≠ "DataFlowStatistic" then
      match s.2.meshComposite (g.concrete childId) element.Name with
      | none =>
        match NextCoordinate fl g s.1 (g.concrete childId) s.1.totalElements with
        | .error e => .error e
        | .ok (er1, nextPos) =>
          match NewSolidAtPosition g s.2 (g.concrete childId) nextPos with
          | .error e => .error e
          | .ok (w1, solidMesh) =>
            .ok (er1, SetNamedMesh (UpsertToScene w1 solidMesh) (g.concrete childId)
                        element.Name solidMesh)
      | some mesh => .ok (s.1, UpsertToScene s.2 mesh)
    else .ok s

/-- The loop of lines 236-251 of `RenderElement`. -/
def renderChildren (fl : FloatOps R) (g : Graph) :
    List Int → ElementRenderer R × WorldApp R → Except Err (ElementRenderer R × WorldApp R)
  | [], s => .ok s
  | childId :: rest, s =>
    match renderChild fl g childId s with
    | .error e => .error e
    | .ok s1 => renderChildren fl g rest s1

/-- The loop of lines 264-271 of `RenderElement`: on the first child id whose
element is `g3n` the colour is set at full opacity and the function returns
true; before that every other child id sets the colour at opacity 0.15.  The
result is the world and whether the loop returned (with true). -/
def colorLoop (g : Graph) (g3n : Ptr) (color : Color) :
    List Int → WorldApp R → WorldApp R × Option Bool
  | [], w => (w, none)
  | childID :: rest, w =>
    if g3n = g.concrete childID then (SetColor w g3n color .full, some true)
    else colorLoop g g3n color rest (SetColor w g3n color .dimmed)

/-- Source `RenderElement`. -/
def RenderElement (fl : FloatOps R) (g : Graph) (er : ElementRenderer R) (w : WorldApp R)
    (g3n : Ptr) : Except Err (ElementRenderer R × WorldApp R × Bool) :=
  match g.lastClicked with
  | .error e => .error e
  | .ok clickedElement =>
    match g.deref g3n with
    | .error e => .error e
    | .ok n =>
      if g3n = clickedElement ∧ (w.meshComposite g3n n.Name).isSome then
        match renderChildren fl g n.Childids (er, SetColor w g3n (.named "darkred") .full) with
        | .error e => .error e
        | .ok (er1, w1) => .ok (er1, w1, true)
      else
        let wc := aliasColor w n.Alias
        match g.deref clickedElement with
        | .error e => .error e
        | .ok clicked =>
          match colorLoop g g3n wc.2 clicked.Childids wc.1 with
          | (w1, some r) => .ok (er, w1, r)
          | (w1, none) => .ok (er, w1, true)

/-! ## Properties used in the statements -/

/-- The renderer `er1` differs from `er` at most in its position cache. -/
def ElementRenderer.cacheOnly (er er1 : ElementRenderer R) : Prop :=
  er1.iOffset = er.iOffset ∧ er1.counter = er.counter ∧
  er1.totalElements = er.totalElements ∧ er1.clickedElements = er.clickedElements

/-- The world `w1` differs from `w` at most in the `Hidden` bits and in the
scene. -/
def WorldApp.hiddenSceneOnly (w w1 : WorldApp R) : Prop :=
  w1.Clicked = w.Clicked ∧ w1.meshComposite = w.meshComposite ∧ w1.color = w.color ∧
  w1.Position = w.Position ∧ w1.LoaderID = w.LoaderID ∧ w1.material = w.material ∧
  w1.nextHandle = w.nextHandle ∧ w1.DARK_BLUE = w.DARK_BLUE

/-- Whether a call of `InitRenderLoop` on the given stack pops the top entry:
the stack is not empty and the condition of line 190 holds for its top. -/
def popsTop (g : Graph) (stack : List (ClickedG3nDetailElement R)) : Bool :=
  match stack.getLast? with
  | some top =>
    match popCondition g top.clickedElement with
    | .ok true => true
    | _ => false
  | none => false

/-- An element that `InitRenderLoop` pushes when clicked: neither Solid nor
Space (line 202). -/
def MashupDetailedElement.focusable (n : MashupDetailedElement) : Bool :=
  decide (n.Genre ≠ "Solid" ∧ n.Genre ≠ "Space")

/-- A host run: before each call of `InitRenderLoop` the host sets
`ClickedElements`; each step carries that slice and the order in which the
cache snapshot is ranged over.  The result lists, for each call, the
`ClickedElements` slice, the stack before the call and the stack after it. -/
def runInitRenderLoop (fl : FloatOps R) (g : Graph) (fuel : Nat) :
    List (List Ptr × List Int) → ElementRenderer R → WorldApp R →
      Except Err (List (List Ptr × List (ClickedG3nDetailElement R) ×
        List (ClickedG3nDetailElement R)))
  | [], _, _ => .ok []
  | (clicked, order) :: rest, er, w =>
    match InitRenderLoop fl { g with ClickedElements := clicked } order fuel er w with
    | .error e => .error e
    | .ok (er1, w1, _) =>
      match runInitRenderLoop fl g fuel rest er1 w1 with
      | .error e => .error e
      | .ok later => .ok ((clicked, er.clickedElements, er1.clickedElements) :: later)

/-- The renderer after `Layout` of the single element root: phase 1, root at
the origin, empty selection stack. -/
def demoStart : ElementRenderer Int where
  iOffset := 1
  counter := 0
  totalElements := 1
  LocationCache := some [(1, ⟨0, 0, 0⟩)]
  clickedElements := []

/-- Whether the element at `t` is a proper ancestor of the element at `p` on
the chain of first parent ids (at most `fuel` steps up). -/
def onParentChain (g : Graph) : Nat → Ptr → Ptr → Bool
  | 0, _, _ => false
  | fuel + 1, t, p =>
    match g.deref p with
    | .ok n =>
      match n.Parentids with
      | [] => false
      | parent0 :: _ => g.concrete parent0 == t || onParentChain g fuel t (g.concrete parent0)
    | .error _ => false

/-- The element at address `q` is reachable from the id `id` through child
ids: it is the element registered under `id`, or it is reachable from a child
id of that element. -/
inductive Reach (g : Graph) : Int → Ptr → Prop where
  | self {id : Int} {q : Ptr} : g.ConcreteElements id = some q → Reach g id q
  | child {id c : Int} {p q : Ptr} {n : MashupDetailedElement} :
      g.ConcreteElements id = some p → g.deref p = .ok n → c ∈ n.Childids →
      Reach g c q → Reach g id q

/-- The world `w1` is `w` with some meshes taken out of the scene. -/
def WorldApp.sceneReduced (w w1 : WorldApp R) : Prop :=
  w.hiddenSceneOnly w1 ∧ w1.Hidden = w.Hidden ∧ ∀ h, h ∈ w1.scene → h ∈ w.scene

/-- The first step of `RemoveAll` on a present element (lines 279-283): the
mesh under the display name leaves the scene unless the element is abstract or
Solid. -/
def removeOwnMesh (w : WorldApp R) (child : Ptr) (n : MashupDetailedElement) : WorldApp R :=
  if !n.Abstract && n.Genre ≠ "Solid" then
    match w.meshComposite child n.Name with
    | some childMesh => RemoveFromScene w childMesh
    | none => w
  else w

/-- The id `k` is listed among the child ids of some element of the graph. -/
def Graph.isChildId (g : Graph) (k : Int) : Prop :=
  ∃ p n, g.deref p = .ok n ∧ k ∈ n.Childids

/-- A child that `RenderElement` gives a mesh: not Solid and not a
`DataFlowStatistic` (line 238). -/
def MashupDetailedElement.eligible (n : MashupDetailedElement) : Prop :=
  n.Genre ≠ "Solid" ∧ n.Alias ≠ "DataFlowStatistic"

/-- The world `w1` has every attached handle and every scene member of `w`. -/
def WorldApp.grown (w w1 : WorldApp R) : Prop :=
  (∀ q name h, w.meshComposite q name = some h → w1.meshComposite q name = some h) ∧
  (∀ h, h ∈ w.scene → h ∈ w1.scene) ∧ w.nextHandle ≤ w1.nextHandle

/-- A well-formed finite graph: every registered pointer holds an element;
every child id of an element is registered, at an element of smaller `rank`
(no cycle through child ids); the first parent id of an element is
registered, at an element of smaller `depth` (no cycle through first parent
ids). -/
structure Graph.WellFormed (g : Graph) (rank depth : Ptr → Nat) : Prop where
  registered : ∀ id p, g.ConcreteElements id = some p → ∃ n, g.deref p = .ok n
  children : ∀ p n, g.deref p = .ok n → ∀ c ∈ n.Childids,
    ∃ q, g.ConcreteElements c = some q ∧ rank q < rank p
  parent : ∀ p n, g.deref p = .ok n → ∀ a, n.Parentids.head? = some a →
    ∃ q, g.ConcreteElements a = some q ∧ depth q < depth p

/-! ## Concrete scenes used to evaluate the model -/

/-- Exact arithmetic in units of one tenth with a constant spiral function: an
interpretation of `FloatOps` on which the model can be run. -/
def tenths : FloatOps Int where
  zero32 := 0
  zero64 := 0
  tenth64 := 1
  tenth32 := 1
  negTenth32 := -1
  sub64 := fun a b => a - b
  sub32 := fun a b => a - b
  add32 := fun a b => a + b
  neg64 := fun a => -a
  neg32 := fun a => -a
  to32 := fun a => a
  to64 := fun a => a
  binetRe := fun _ => 0
  binetIm := fun _ => 0

/-- A single-parent tree: root (1) with children a (2) and b (3); a has the
child c (4); c has the Solid child s (5); b has the Space child v (6). -/
def demoElement : Ptr → Option MashupDetailedElement
  | 1 => some ⟨1, "root", "Argosy", "Container", "", [], [2, 3], false⟩
  | 2 => some ⟨2, "a", "DataFlowGroup", "Container", "", [1], [4], false⟩
  | 3 => some ⟨3, "b", "DataFlowGroup", "Container", "", [1], [6], false⟩
  | 4 => some ⟨4, "c", "DataFlow", "Container", "", [2], [5], false⟩
  | 5 => some ⟨5, "s", "", "Solid", "", [4], [], false⟩
  | 6 => some ⟨6, "v", "", "Space", "", [3], [], false⟩
  | _ => none

/-- The tree of `demoElement` with every element registered under its id and
the given clicked elements. -/
def demoGraph (clicked : List Ptr) : Graph where
  detailedElement := demoElement
  ConcreteElements := fun id => if 1 ≤ id ∧ id ≤ 6 then some id.toNat else none
  ClickedElements := clicked

/-- A rank on the ids of `demoElement` that decreases from an element to its
children. -/
def demoRank (id : Int) : Nat := (7 - id).toNat

/-- A rank on the addresses of `demoElement` that decreases from an element to
its children. -/
def demoPtrRank (p : Ptr) : Nat := 7 - p

/-- A depth on the addresses of `demoElement` that decreases from an element
to its parent. -/
def demoDepth (p : Ptr) : Nat := min p 7

/-- A world in which the elements with address in `meshed` have a mesh under
their display name (handle = address), all of them in the scene, and the
elements with address in `hidden` are hidden. -/
def demoWorld (meshed hidden : List Ptr) : WorldApp Int where
  Hidden := fun p => decide (p ∈ hidden)
  Clicked := fun _ => false
  meshComposite := fun p name =>
    match demoElement p with
    | some n => if p ∈ meshed ∧ name = n.Name then some p else none
    | none => none
  color := fun _ => none
  scene := meshed
  Position := fun h => ⟨h, 0, 0⟩
  LoaderID := fun _ => ""
  material := fun _ => none
  nextHandle := 100
  DARK_BLUE := .named "darkblue"

/-- The renderer before the first `NextCoordinate` call. -/
def demoFresh : ElementRenderer Int where
  iOffset := 0
  counter := 0
  totalElements := 0
  LocationCache := none
  clickedElements := []

/-- The renderer after `NextCoordinate` for root, b and a, in this order, as
`Layout` of the batch root, b, a calls it: phase 1, counter -0.2. -/
def demoLaidOut : ElementRenderer Int where
  iOffset := 1
  counter := -2
  totalElements := 3
  LocationCache := some [(2, ⟨0, 0, 2⟩), (3, ⟨0, 0, 1⟩), (1, ⟨0, 0, 0⟩)]
  clickedElements := []

/-- A renderer in phase 2 with the given cache and stack. -/
def demoRenderer (cache : List (Int × Vector3 Int))
    (stack : List (ClickedG3nDetailElement Int)) : ElementRenderer Int where
  iOffset := 2
  counter := 0
  totalElements := 0
  LocationCache := some cache
  clickedElements := stack

/-- A graph with ids that resolve to no element: root (1) lists the child ids
9 and 2, and o (3) names the parent id 8; only 1, 2 and 3 are registered. -/
def gapElement : Ptr → Option MashupDetailedElement
  | 1 => some ⟨1, "root", "Argosy", "Container", "", [], [9, 2], false⟩
  | 2 => some ⟨2, "a", "DataFlowGroup", "Container", "", [1], [], false⟩
  | 3 => some ⟨3, "o", "DataFlowGroup", "Container", "", [8], [], false⟩
  | _ => none

/-- The graph of `gapElement` with the given clicked elements. -/
def gapGraph (clicked : List Ptr) : Graph where
  detailedElement := gapElement
  ConcreteElements := fun id => if id = 1 ∨ id = 2 ∨ id = 3 then some id.toNat else none
  ClickedElements := clicked

/-- A finite graph in which ids may resolve to no element: a child id that is
registered is registered at an element of smaller `rank` (no cycle through
child ids), and a first parent id that is registered, at an element of smaller
`depth` (no cycle through first parent ids). -/
structure Graph.Ranked (g : Graph) (rank depth : Ptr → Nat) : Prop where
  children : ∀ p n, g.deref p = .ok n → ∀ c ∈ n.Childids, ∀ q,
    g.ConcreteElements c = some q → rank q < rank p
  parent : ∀ p n, g.deref p = .ok n → ∀ a, n.Parentids.head? = some a → ∀ q,
    g.ConcreteElements a = some q → depth q < depth p

/-! ## Vault.Unseal (vaulthelper/system/Vault.go) -/

/-- The fields of `api.SealStatusResponse` that `Unseal` reads. -/
structure SealStatusResponse where
  Progress : Int
  T : Int
  Sealed : Bool
  deriving DecidableEq, Repr

/-- What `v.client.Sys().Unseal(shard)` returns: a status pointer (nil is
`none`) and an error (nil is `none`). -/
structure UnsealReply (ε : Type) where
  status : Option SealStatusResponse
  err : Option ε

/-- The loop of `Vault.Unseal` over the shards: `status` is the last status
received; an error returns `(0, 0, false, err)` at once.  The vault server is
the state `srv`, and `sysUnseal` is one request to it. -/
def unsealLoop {σ ε : Type} (sysUnseal : σ → String → UnsealReply ε × σ) :
    List String → Option SealStatusResponse → σ →
      Except Err ((Int × Int × Bool × Option ε) × σ)
  | [], status, srv =>
    match status with
    | none => .error .fault
    | some st => .ok ((st.Progress, st.T, st.Sealed, none), srv)
  | shard :: rest, _, srv =>
    match sysUnseal srv shard with
    | (reply, srv1) =>
      match reply.err with
      | some e => .ok ((0, 0, false, some e), srv1)
      | none => unsealLoop sysUnseal rest reply.status srv1

/-- Source `Vault.Unseal`: sends every shard of `v.shards`, in order; returns
`status.Progress, status.T, status.Sealed, nil` for the last status.  With no
shard (or a nil last status) the dereference of `status` faults. -/
def Vault.Unseal {σ ε : Type} (sysUnseal : σ → String → UnsealReply ε × σ)
    (shards : List String) (srv : σ) : Except Err ((Int × Int × Bool × Option ε) × σ) :=
  unsealLoop sysUnseal shards none srv

/-- A vault server with key threshold 1 that counts the requests it has
received: every unseal request succeeds and reports the vault as unsealed. -/
def demoVault (srv : Nat) (_shard : String) : UnsealReply String × Nat :=
  (⟨some ⟨0, 1, false⟩, none⟩, srv + 1)

/-! ## getPathEnd (webapi/server/server.go) -/

/-- The Go call `strings.Split(path, "/")` on a string held as the list of its
characters: the segments between the separators, in order; the empty string
gives one empty segment.  (The byte of the separator never occurs inside a
multi-byte character, so characters and bytes split alike.) -/
def splitSlash : List Char → List (List Char)
  | [] => [[]]
  | c :: cs =>
    if c = '/' then [] :: splitSlash cs
    else
      match splitSlash cs with
      | seg :: rest => (c :: seg) :: rest
      | [] => [[c]]

/-- The loop and the return of `getPathEnd` (lines 220-223), on the slice read
from its end: empty segments are dropped from the end, the last segment left is
returned; the index `len(strs)-1` is out of range once the slice is empty. -/
def lastNonEmpty : List (List Char) → Except Err (List Char)
  | [] => .error .fault
  | seg :: fromEnd => if seg = [] then lastNonEmpty fromEnd else .ok seg

/-- Source `getPathEnd`. -/
def getPathEnd (path : List Char) : Except Err (List Char) :=
  lastNonEmpty (splitSlash path).reverse

/-! ## The first-parent chain -/

/-- The element behind the first parent id of the element at `p`; `none` when
the element has no parent id. -/
def firstParent (g : Graph) (p : Ptr) : Option Ptr :=
  match g.deref p with
  | .ok n => n.Parentids.head?.map g.concrete
  | .error _ => none

/-- The element `k` steps up the first-parent chain of `p`. -/
def nthParent (g : Graph) : Nat → Ptr → Option Ptr
  | 0, p => some p
  | k + 1, p => (firstParent g p).bind (nthParent g k)

/-- The test of line 130 of `deselectElements`: the element has no parent id,
or the last clicked element has one and the two first parent ids are equal. -/
def stopsAt (g : Graph) (element : Ptr) : Bool :=
  match g.deref element with
  | .ok n =>
    match n.Parentids with
    | [] => true
    | parent0 :: _ =>
      match g.lastClicked with
      | .ok clickedElement =>
        match g.deref clickedElement with
        | .ok clicked =>
          match clicked.Parentids with
          | [] => false
          | clickedParent0 :: _ => decide (parent0 = clickedParent0)
        | .error _ => false
      | .error _ => false
  | .error _ => false

/-! ## Single-parent trees and anchored spirals -/

/-- The element registered under an id, when the id is registered at an
address that holds an element. -/
def Graph.node (g : Graph) (id : Int) : Option MashupDetailedElement :=
  match g.ConcreteElements id with
  | some p =>
    match g.deref p with
    | .ok n => some n
    | .error _ => none
  | none => none

/-- A finite single-parent tree with positive ids: every child id of a
registered element is registered, has that element as its only parent, a
smaller `rank` and a larger `depth`; child lists have no duplicates; ids are
positive. -/
structure Graph.SingleParentTree (g : Graph) (rank depth : Int → Nat) : Prop where
  children : ∀ x n, g.node x = some n → ∀ c ∈ n.Childids,
    ∃ m, g.node c = some m ∧ m.Parentids = [x] ∧ rank c < rank x ∧ depth x < depth c
  nodup : ∀ x n, g.node x = some n → n.Childids.Nodup
  positive : ∀ x n, g.node x = some n → 0 < x

/-- The counter `calcLocnStarter` holds after `i` assignments when it started
with `c0`: each assignment subtracts 0.1 (float32). -/
def spiralFrom (fl : FloatOps R) (c0 : R) : Nat → R
  | 0 => c0
  | i + 1 => fl.sub32 (spiralFrom fl c0 i) fl.tenth32

/-- The counters of the children of one parent: `c_0 = -0.1` and
`c_(i+1) = c_i - 0.1`. -/
def spiralCounter (fl : FloatOps R) (i : Nat) : R :=
  spiralFrom fl fl.negTenth32 i

/-- The element with id `m` is cached and each of its children is cached at
the anchored spiral position of its index: the `i`-th child at
`calculateLocation(LocationCache[m], c_i)`. -/
def settledAt (fl : FloatOps R) (g : Graph) (er : ElementRenderer R) (m : Int) : Prop :=
  ∃ n center, g.node m = some n ∧ er.cacheLookup m = some center ∧
    ∀ i c, n.Childids[i]? = some c →
      er.cacheLookup c = some (calculateLocation fl center (spiralCounter fl i))

/-- The ids reachable from `x` through child ids of elements that are not
Solid (`x` itself included): the elements `initLocnCache` of `x` visits. -/
inductive Region (g : Graph) (x : Int) : Int → Prop where
  | root : Region g x x
  | step {m c : Int} {n cn : MashupDetailedElement} :
      Region g x m → g.node m = some n → c ∈ n.Childids → g.node c = some cn →
      cn.Genre ≠ "Solid" → Region g x c

/-- The id `k` is a child id of an element that `initLocnCache` of `x`
visits. -/
def Written (g : Graph) (x k : Int) : Prop :=
  ∃ m n, Region g x m ∧ g.node m = some n ∧ k ∈ n.Childids

/-- A depth on the ids of `demoElement` that grows from an element to its
children. -/
def demoIdDepth (id : Int) : Nat := id.toNat

/-! ## Layout -/

/-- The parts of `LayoutBase` that are defined outside `element.go`.
`collaborate` is the hand-off of lines 303-309 for the first element of the
batch (`GetRenderer`, then `Collaborate`, whose type assertion can fault); it
writes to the collaborating renderer only.  `related` is the effect of lines
324-338 on the world for one element and its current and previous position:
the meshes for the children of genre Related (`NewRelatedMeshAtPosition` of
the embedded `GenericRenderer`) and Space.  Neither can reach the fields of
the `ElementRenderer`. -/
structure LayoutEnv (R : Type) where
  collaborate : Ptr → Except Err Unit
  related : WorldApp R → Ptr → Option (Vector3 R) → Option (Vector3 R) →
    Except Err (WorldApp R)

/-- The body of the loop of lines 312-341 of `LayoutBase` for one element; the
state carries `nextPos`. -/
def layoutElement (fl : FloatOps R) (g : Graph) (env : LayoutEnv R) (totalElements : Int)
    (el : Ptr) (s : ElementRenderer R × WorldApp R × Option (Vector3 R)) :
    Except Err (ElementRenderer R × WorldApp R × Option (Vector3 R)) :=
  match g.deref el with
  | .error e => .error e
  | .ok n =>
    if !s.2.1.Hidden el then
      match NextCoordinate fl g s.1 el totalElements with
      | .error e => .error e
      | .ok (er1, nextPos) =>
        match NewSolidAtPosition g s.2.1 el nextPos with
        | .error e => .error e
        | .ok (w1, solidMesh) =>
          match env.related (SetNamedMesh (UpsertToScene w1 solidMesh) el n.Name solidMesh)
              el nextPos s.2.2 with
          | .error e => .error e
          | .ok w2 => .ok (er1, w2, nextPos)
    else .ok s

/-- The loop of lines 312-341 of `LayoutBase`. -/
def layoutLoop (fl : FloatOps R) (g : Graph) (env : LayoutEnv R) (totalElements : Int) :
    List Ptr → ElementRenderer R × WorldApp R × Option (Vector3 R) →
      Except Err (ElementRenderer R × WorldApp R × Option (Vector3 R))
  | [], s => .ok s
  | el :: rest, s =>
    match layoutElement fl g env totalElements el s with
    | .error e => .error e
    | .ok s1 => layoutLoop fl g env totalElements rest s1

/-- Lines 302-310 of `LayoutBase`: for a non-empty batch the first element is
dereferenced and the collaboration hand-off runs. -/
def collaboratePhase (g : Graph) (env : LayoutEnv R) (g3nRenderableElements : List Ptr) :
    Except Err Unit :=
  match g3nRenderableElements with
  | [] => .ok ()
  | first :: _ =>
    match g.deref first with
    | .error e => .error e
    | .ok _ => env.collaborate first

/-- Source `LayoutBase`, called with the renderer itself as `g3Renderer`. -/
def LayoutBase (fl : FloatOps R) (g : Graph) (env : LayoutEnv R) (er : ElementRenderer R)
    (w : WorldApp R) (g3nRenderableElements : List Ptr) :
    Except Err (ElementRenderer R × WorldApp R) :=
  match collaboratePhase g env g3nRenderableElements with
  | .error e => .error e
  | .ok _ =>
    match layoutLoop fl g env g3nRenderableElements.length g3nRenderableElements
        (er, w, none) with
    | .error e => .error e
    | .ok s => .ok (s.1, s.2.1)

/-- Source `Layout`. -/
def Layout (fl : FloatOps R) (g : Graph) (env : LayoutEnv R) (er : ElementRenderer R)
    (w : WorldApp R) (g3nRenderableElements : List Ptr) :
    Except Err (ElementRenderer R × WorldApp R) :=
  LayoutBase fl g env er w g3nRenderableElements

/-- `Layout` of the batch followed by `InitRenderLoop` with the given order of
the cache keys. -/
def layoutThenInit (fl : FloatOps R) (g : Graph) (env : LayoutEnv R) (fuel : Nat)
    (er : ElementRenderer R) (w : WorldApp R) (batch : List Ptr) (order : List Int) :
    Except Err (ElementRenderer R × WorldApp R × Bool) :=
  match Layout fl g env er w batch with
  | .error e => .error e
  | .ok (er1, w1) => InitRenderLoop fl g order fuel er1 w1

/-- No companion renderer and no Related or Space meshes. -/
def plainEnv : LayoutEnv Int where
  collaborate := fun _ => .ok ()
  related := fun w _ _ _ => .ok w

/-- A graph in which c (3) has the two parents p (1) and q (2); q also has
the child d (4), listed before c. -/
def dagElement : Ptr → Option MashupDetailedElement
  | 1 => some ⟨1, "p", "Argosy", "Container", "", [], [3], false⟩
  | 2 => some ⟨2, "q", "Argosy", "Container", "", [], [4, 3], false⟩
  | 3 => some ⟨3, "c", "DataFlow", "Container", "", [1, 2], [], false⟩
  | 4 => some ⟨4, "d", "DataFlow", "Container", "", [2], [], false⟩
  | _ => none

/-- The graph of `dagElement` with the given clicked elements. -/
def dagGraph (clicked : List Ptr) : Graph where
  detailedElement := dagElement
  ConcreteElements := fun id => if 1 ≤ id ∧ id ≤ 4 then some id.toNat else none
  ClickedElements := clicked

/-- A finite single-parent tree: every child id of a registered element is
registered, has that element as its only parent, a smaller `rank` and a larger
`depth`.  Ids of any sign and repeated child ids are allowed. -/
structure Graph.SingleParent (g : Graph) (rank depth : Int → Nat) : Prop where
  children : ∀ x n, g.node x = some n → ∀ c ∈ n.Childids,
    ∃ m, g.node c = some m ∧ m.Parentids = [x] ∧ rank c < rank x ∧ depth x < depth c

/-- The position that the loop of `calcLocnStarter` over `ids`, started with
`counter`, leaves under the key `k` when every id is assigned from `center`:
the assignment at the last occurrence of `k`; `none` when `k` is not listed. -/
def lastSlot (fl : FloatOps R) (center : Vector3 R) : List Int → R → Int → Option (Vector3 R)
  | [], _, _ => none
  | id :: rest, counter, k =>
    match lastSlot fl center rest (fl.sub32 counter fl.tenth32) k with
    | some v => some v
    | none => if id = k then some (calculateLocation fl center counter) else none

/-- The children of the element with id `m` hold what `calcLocnStarter` assigns
them from the cached position of `m`, whenever `m` is positive and cached
(line 142). -/
def anchoredAt (fl : FloatOps R) (g : Graph) (er : ElementRenderer R) (m : Int) : Prop :=
  ∃ n, g.node m = some n ∧
    (0 < m → ∀ center, er.cacheLookup m = some center →
      ∀ c ∈ n.Childids, er.cacheLookup c = lastSlot fl center n.Childids fl.negTenth32 c)

/-- The id `k` is a child id of an element that `initLocnCache` of `x` visits
and that is positive and cached in `er`: the keys a visit assigns. -/
def WrittenFrom (g : Graph) (er : ElementRenderer R) (x k : Int) : Prop :=
  ∃ m n, Region g x m ∧ g.node m = some n ∧ k ∈ n.Childids ∧ 0 < m ∧
    (er.cacheLookup m).isSome = true

/-- The state of the cache once the keys in `keys` have been visited by the
population loop of `InitRenderLoop`, started from `er0`: every element in the
region of a visited key that is not Solid anchors its children, and a key that
no visit assigns holds what it held in `er0`. -/
def populated (fl : FloatOps R) (g : Graph) (keys : List Int) (er0 er : ElementRenderer R) :
    Prop :=
  (∀ x ∈ keys, ∀ nx, g.node x = some nx → nx.Genre ≠ "Solid" →
    ∀ m, Region g x m → anchoredAt fl g er m) ∧
  (∀ k, (∀ x ∈ keys, ∀ nx, g.node x = some nx → nx.Genre ≠ "Solid" → ¬ WrittenFrom g er x k) →
    er.cacheLookup k = er0.cacheLookup k)

/-! ## Frame of the cache population -/

theorem cacheOnly_refl (er : ElementRenderer R) : er.cacheOnly er :=
  ⟨rfl, rfl, rfl, rfl⟩

theorem cacheOnly_trans {a b c : ElementRenderer R} (h1 : a.cacheOnly b) (h2 : b.cacheOnly c) :
    a.cacheOnly c :=
  ⟨h2.1.trans h1.1, h2.2.1.trans h1.2.1, h2.2.2.1.trans h1.2.2.1, h2.2.2.2.trans h1.2.2.2⟩

theorem cacheStore_cacheOnly {er er1 : ElementRenderer R} {k : Int} {v : Vector3 R}
    (h : er.cacheStore k v = .ok er1) : er.cacheOnly er1 := by
  unfold ElementRenderer.cacheStore at h
  split at h
  · cases h; exact ⟨rfl, rfl, rfl, rfl⟩
  · cases h

theorem calcLocnParents_cacheOnly (fl : FloatOps R) (id : Int) (ps : List Int) :
    ∀ (er er1 : ElementRenderer R) (c c1 : R),
      calcLocnParents fl id ps er c = .ok (er1, c1) → er.cacheOnly er1 := by
  induction ps with
  | nil =>
    intro er er1 c c1 h
    simp only [calcLocnParents] at h
    cases h; exact cacheOnly_refl _
  | cons parent rest ih =>
    intro er er1 c c1 h
    unfold calcLocnParents at h
    split at h
    · split at h
      · split at h
        · cases h
        · rename_i er2 hst
          exact cacheOnly_trans (cacheStore_cacheOnly hst) (ih _ _ _ _ h)
      · exact ih _ _ _ _ h
    · exact ih _ _ _ _ h

theorem calcLocnStarter_cacheOnly (fl : FloatOps R) (g : Graph) (ids : List Int) :
    ∀ (er er1 : ElementRenderer R) (c : R),
      calcLocnStarter fl g ids er c = .ok er1 → er.cacheOnly er1 := by
  induction ids with
  | nil =>
    intro er er1 c h
    simp only [calcLocnStarter] at h
    cases h; exact cacheOnly_refl _
  | cons id rest ih =>
    intro er er1 c h
    unfold calcLocnStarter at h
    split at h
    · cases h
    · split at h
      · cases h
      · rename_i er2 c2 hp
        exact cacheOnly_trans (calcLocnParents_cacheOnly fl _ _ _ _ _ _ hp) (ih _ _ _ h)

theorem initLocnChildren_cacheOnly (g : Graph)
    (recur : Ptr → ElementRenderer R → Except Err (ElementRenderer R))
    (hrec : ∀ p er er1, recur p er = .ok er1 → er.cacheOnly er1) (ids : List Int) :
    ∀ (er er1 : ElementRenderer R),
      initLocnChildren g recur ids er = .ok er1 → er.cacheOnly er1 := by
  induction ids with
  | nil =>
    intro er er1 h
    simp only [initLocnChildren] at h
    cases h; exact cacheOnly_refl _
  | cons id rest ih =>
    intro er er1 h
    unfold initLocnChildren at h
    split at h
    · cases h
    · split at h
      · split at h
        · cases h
        · rename_i er2 hr
          exact cacheOnly_trans (hrec _ _ _ hr) (ih _ _ h)
      · exact ih _ _ h

theorem initLocnCache_cacheOnly (fl : FloatOps R) (g : Graph) (fuel : Nat) :
    ∀ (p : Ptr) (er er1 : ElementRenderer R),
      initLocnCache fl g fuel p er = .ok er1 → er.cacheOnly er1 := by
  induction fuel with
  | zero => intro p er er1 h; simp [initLocnCache] at h
  | succ fuel ih =>
    intro p er er1 h
    unfold initLocnCache at h
    split at h
    · cases h
    · split at h
      · split at h
        · cases h
        · rename_i er2 hs
          have h2 := initLocnChildren_cacheOnly g _ ih _ _ _ h
          refine cacheOnly_trans ?_ h2
          split at hs
          · exact calcLocnStarter_cacheOnly fl g _ _ _ _ hs
          · cases hs; exact cacheOnly_refl _
      · cases h; exact cacheOnly_refl _

theorem initCacheLoop_cacheOnly (fl : FloatOps R) (g : Graph) (fuel : Nat) (order : List Int) :
    ∀ (er er1 : ElementRenderer R),
      initCacheLoop fl g fuel order er = .ok er1 → er.cacheOnly er1 := by
  induction order with
  | nil =>
    intro er er1 h
    simp only [initCacheLoop] at h
    cases h; exact cacheOnly_refl _
  | cons key rest ih =>
    intro er er1 h
    unfold initCacheLoop at h
    split at h
    · cases h
    · split at h
      · split at h
        · cases h
        · rename_i er2 hr
          exact cacheOnly_trans (initLocnCache_cacheOnly fl g fuel _ _ _ hr) (ih _ _ h)
      · exact ih _ _ h

/-- The cache phase of `InitRenderLoop` leaves the selection stack alone. -/
theorem initCachePhase_stack (fl : FloatOps R) (g : Graph) (order : List Int) (fuel : Nat)
    (er er1 : ElementRenderer R) (h : initCachePhase fl g order fuel er = .ok er1) :
    er1.clickedElements = er.clickedElements := by
  unfold initCachePhase at h
  split at h
  · split at h
    · cases h
    · rename_i er2 hl
      cases h
      exact (initCacheLoop_cacheOnly fl g fuel order _ _ hl).2.2.2
  · cases h; rfl

/-! ## Frame of the pop phase -/

theorem hiddenSceneOnly_refl (w : WorldApp R) : w.hiddenSceneOnly w :=
  ⟨rfl, rfl, rfl, rfl, rfl, rfl, rfl, rfl⟩

theorem hiddenSceneOnly_trans {a b c : WorldApp R} (h1 : a.hiddenSceneOnly b)
    (h2 : b.hiddenSceneOnly c) : a.hiddenSceneOnly c := by
  obtain ⟨a1, a2, a3, a4, a5, a6, a7, a8⟩ := h1
  obtain ⟨b1, b2, b3, b4, b5, b6, b7, b8⟩ := h2
  exact ⟨b1.trans a1, b2.trans a2, b3.trans a3, b4.trans a4, b5.trans a5, b6.trans a6,
    b7.trans a7, b8.trans a8⟩

theorem forIds_preserves (P : WorldApp R → WorldApp R → Prop) (hrefl : ∀ w, P w w)
    (htrans : ∀ a b c, P a b → P b c → P a c)
    (body : Int → WorldApp R → Except Err (WorldApp R))
    (hbody : ∀ c w w1, body c w = .ok w1 → P w w1) (ids : List Int) :
    ∀ (w w1 : WorldApp R), forIds body ids w = .ok w1 → P w w1 := by
  induction ids with
  | nil =>
    intro w w1 h
    simp only [forIds] at h
    cases h; exact hrefl _
  | cons c rest ih =>
    intro w w1 h
    unfold forIds at h
    split at h
    · cases h
    · rename_i w2 hb
      exact htrans _ _ _ (hbody _ _ _ hb) (ih _ _ h)

theorem ApplyState_Hidden_frame {g : Graph} {w w1 : WorldApp R} {p : Ptr} {b : Bool}
    (h : ApplyState g w p .Hidden b = .ok w1) : w.hiddenSceneOnly w1 := by
  unfold ApplyState at h
  split at h
  · cases h
  · simp only at h
    cases h; exact ⟨rfl, rfl, rfl, rfl, rfl, rfl, rfl, rfl⟩

theorem RemoveFromScene_frame (w : WorldApp R) (h : Handle) :
    w.hiddenSceneOnly (RemoveFromScene w h) :=
  ⟨rfl, rfl, rfl, rfl, rfl, rfl, rfl, rfl⟩

theorem RemoveAll_frame (g : Graph) (fuel : Nat) :
    ∀ (id : Int) (w w1 : WorldApp R), RemoveAll g fuel id w = .ok w1 → w.hiddenSceneOnly w1 := by
  induction fuel with
  | zero => intro id w w1 h; simp [RemoveAll] at h
  | succ fuel ih =>
    intro id w w1 h
    unfold RemoveAll at h
    split at h
    · cases h; exact hiddenSceneOnly_refl _
    · split at h
      · cases h
      · rename_i _ child hce _ n hn
        have hw1 : w.hiddenSceneOnly
            (if (!n.Abstract && decide (n.Genre ≠ "Solid")) = true then
              match w.meshComposite child n.Name with
              | some childMesh => RemoveFromScene w childMesh
              | none => w
            else w) := by
          split
          · split
            · exact RemoveFromScene_frame _ _
            · exact hiddenSceneOnly_refl _
          · exact hiddenSceneOnly_refl _
        simp only at h
        split at h
        · exact hiddenSceneOnly_trans hw1
            (forIds_preserves _ hiddenSceneOnly_refl
              (fun _ _ _ => hiddenSceneOnly_trans) _ ih _ _ _ h)
        · cases h; exact hw1

theorem hideChild_frame (g : Graph) (depth : Nat) (prev : Ptr) (c : Int) (w w1 : WorldApp R)
    (h : hideChild g depth prev c w = .ok w1) : w.hiddenSceneOnly w1 := by
  unfold hideChild at h
  split at h
  · cases h
  · split at h
    · cases h; exact hiddenSceneOnly_refl _
    · split at h
      · cases h
      · rename_i w2 ha
        exact hiddenSceneOnly_trans (ApplyState_Hidden_frame ha) (RemoveAll_frame g _ _ _ _ h)

theorem deselectChild_frame (g : Graph) (depth : Nat) (el : Ptr) (c : Int) (w w1 : WorldApp R)
    (h : deselectChild g depth el c w = .ok w1) : w.hiddenSceneOnly w1 := by
  unfold deselectChild at h
  split at h
  · cases h
  · split at h
    · cases h; exact hiddenSceneOnly_refl _
    · split at h
      · cases h
      · split at h
        · split at h
          · cases h
          · rename_i w2 ha
            exact hiddenSceneOnly_trans (ApplyState_Hidden_frame ha)
              (RemoveAll_frame g _ _ _ _ h)
        · cases h; exact hiddenSceneOnly_refl _

theorem deselectElements_frame (g : Graph) (depth fuel : Nat) :
    ∀ (el r : Ptr) (w w1 : WorldApp R),
      deselectElements g depth fuel el w = .ok (w1, r) → w.hiddenSceneOnly w1 := by
  induction fuel with
  | zero => intro el r w w1 h; simp [deselectElements] at h
  | succ fuel ih =>
    intro el r w w1 h
    unfold deselectElements at h
    split at h
    · cases h
    · split at h
      · cases h
      · rename_i w2 hf
        have h2 : w.hiddenSceneOnly w2 :=
          forIds_preserves _ hiddenSceneOnly_refl (fun _ _ _ => hiddenSceneOnly_trans) _
            (deselectChild_frame g depth el) _ _ _ hf
        split at h
        · cases h; exact h2
        · split at h
          · cases h
          · split at h
            · cases h
            · split at h
              · exact hiddenSceneOnly_trans h2 (ih _ _ _ _ h)
              · split at h
                · cases h; exact h2
                · exact hiddenSceneOnly_trans h2 (ih _ _ _ _ h)

/-- What the pop phase does to the renderer and to the world: nothing on the
empty stack or when the pop condition fails; otherwise the top entry is
dropped.  The world changes in `Hidden` bits and scene only. -/
theorem popPhase_effect (g : Graph) (fuel : Nat) (er er1 : ElementRenderer R)
    (w w1 : WorldApp R) (h : popPhase g fuel er w = .ok (er1, w1)) :
    w.hiddenSceneOnly w1 ∧
    ((er.clickedElements = [] ∧ er1 = er) ∨
     ∃ top, er.clickedElements.getLast? = some top ∧
       ((popCondition g top.clickedElement = .ok false ∧ er1 = er) ∨
        (popCondition g top.clickedElement = .ok true ∧
          er1 = { er with clickedElements := er.clickedElements.dropLast }))) := by
  unfold popPhase at h
  split at h
  · rename_i hne
    split at h
    · cases h
    · rename_i prev htop
      have hlast : er.clickedElements.getLast? = some prev := by
        unfold ElementRenderer.top at htop
        split at htop
        · rename_i e he
          cases htop; exact he
        · cases htop
      split at h
      · cases h
      · rename_i hc
        cases h
        exact ⟨hiddenSceneOnly_refl _, Or.inr ⟨prev, hlast, Or.inl ⟨hc, rfl⟩⟩⟩
      · rename_i hc
        split at h
        · cases h
        · rename_i e er2 hpop
          split at h
          · cases h
          · split at h
            · cases h
            · rename_i w2 hf
              split at h
              · cases h
              · rename_i w3 r hd
                cases h
                refine ⟨hiddenSceneOnly_trans
                  (forIds_preserves _ hiddenSceneOnly_refl (fun _ _ _ => hiddenSceneOnly_trans) _
                    (hideChild_frame g fuel _) _ _ _ hf)
                  (deselectElements_frame g fuel fuel _ _ _ _ hd), Or.inr ⟨prev, hlast, Or.inr ⟨hc, ?_⟩⟩⟩
                unfold ElementRenderer.pop at hpop
                split at hpop
                · cases hpop; rfl
                · cases hpop
  · rename_i hne
    cases h
    refine ⟨hiddenSceneOnly_refl _, Or.inl ⟨?_, rfl⟩⟩
    simpa [ElementRenderer.isEmpty] using hne

/-! ## The push phase -/

theorem showChild_effect (g : Graph) (c : Int) (w w1 : WorldApp R)
    (h : showChild g c w = .ok w1) :
    ∃ n, g.deref (g.concrete c) = .ok n ∧
      ((n.Genre ≠ "Solid" ∧ w1.Hidden (g.concrete c) = false ∧ w1.Clicked (g.concrete c) = true)
        ∨ (n.Genre = "Solid" ∧ w1 = w)) ∧
      (∀ q, w.Hidden q = false → w1.Hidden q = false) ∧
      (∀ q, w.Clicked q = true → w1.Clicked q = true) ∧
      w1.meshComposite = w.meshComposite ∧ w1.Position = w.Position ∧ w1.scene = w.scene := by
  unfold showChild at h
  split at h
  · cases h
  · rename_i _ n hn
    refine ⟨n, hn, ?_⟩
    split at h
    · rename_i hg
      split at h
      · cases h
      · rename_i _ w2 h2
        unfold ApplyState at h h2
        rw [hn] at h h2
        simp only at h h2
        cases h2; cases h
        refine ⟨Or.inl ⟨hg, by simp, by simp⟩, ?_, ?_, rfl, rfl, rfl⟩
        · intro q hq
          by_cases hqc : q = g.concrete c <;> simp [hqc, hq]
        · intro q hq
          by_cases hqc : q = g.concrete c <;> simp [hqc, hq]
    · rename_i hg
      cases h
      exact ⟨Or.inr ⟨by simpa using hg, rfl⟩, fun _ hq => hq, fun _ hq => hq, rfl, rfl, rfl⟩

/-- After the loop of lines 208-214 every child id in the list whose element
is not Solid has `Hidden` cleared and `Clicked` set. -/
theorem showChildren_flags (g : Graph) (ids : List Int) :
    ∀ (w w1 : WorldApp R), forIds (showChild g) ids w = .ok w1 →
      (∀ c ∈ ids, ∃ n, g.deref (g.concrete c) = .ok n ∧
        (n.Genre ≠ "Solid" →
          w1.Hidden (g.concrete c) = false ∧ w1.Clicked (g.concrete c) = true)) ∧
      (∀ q, w.Hidden q = false → w1.Hidden q = false) ∧
      (∀ q, w.Clicked q = true → w1.Clicked q = true) ∧
      w1.meshComposite = w.meshComposite ∧ w1.Position = w.Position ∧ w1.scene = w.scene := by
  induction ids with
  | nil =>
    intro w w1 h
    simp only [forIds] at h
    cases h
    exact ⟨by simp, fun _ hq => hq, fun _ hq => hq, rfl, rfl, rfl⟩
  | cons c rest ih =>
    intro w w1 h
    unfold forIds at h
    split at h
    · cases h
    · rename_i _ w2 hb
      obtain ⟨n, hn, hcase, hH, hC, hm, hp, hs⟩ := showChild_effect g c w w2 hb
      obtain ⟨hall, hH2, hC2, hm2, hp2, hs2⟩ := ih w2 w1 h
      refine ⟨?_, fun q hq => hH2 q (hH q hq), fun q hq => hC2 q (hC q hq),
        hm2.trans hm, hp2.trans hp, hs2.trans hs⟩
      intro c1 hc1
      rcases List.mem_cons.1 hc1 with rfl | hmem
      · refine ⟨n, hn, fun hg => ?_⟩
        rcases hcase with ⟨_, h1, h2⟩ | ⟨hsolid, _⟩
        · exact ⟨hH2 _ h1, hC2 _ h2⟩
        · exact absurd hsolid hg
      · exact hall c1 hmem

/-- What the push phase does: for a clicked element that is neither Solid nor
Space the pair of the element and the position of its mesh is pushed and the
child loop runs; otherwise nothing changes. -/
theorem pushPhase_effect (g : Graph) (er er1 : ElementRenderer R) (w w1 : WorldApp R)
    (h : pushPhase g er w = .ok (er1, w1)) :
    ∃ p n, g.lastClicked = .ok p ∧ g.deref p = .ok n ∧
      ((n.focusable = true ∧ ∃ mesh, w.meshComposite p n.Name = some mesh ∧
          er1 = er.push p (w.Position mesh) ∧ forIds (showChild g) n.Childids w = .ok w1) ∨
       (n.focusable = false ∧ er1 = er ∧ w1 = w)) := by
  unfold pushPhase at h
  split at h
  · cases h
  · rename_i _ p hp
    split at h
    · cases h
    · rename_i _ n hn
      refine ⟨p, n, hp, hn, ?_⟩
      split at h
      · rename_i hg
        split at h
        · cases h
        · rename_i _ mesh hmesh
          split at h
          · cases h
          · rename_i _ w2 hf
            cases h
            exact Or.inl ⟨by simpa [MashupDetailedElement.focusable] using hg,
              mesh, hmesh, rfl, hf⟩
      · rename_i hg
        cases h
        refine Or.inr ⟨?_, rfl, rfl⟩
        simp only [MashupDetailedElement.focusable, decide_eq_false_iff_not]
        exact hg

/-! ## InitRenderLoop as a whole -/

/-- The effect of one returning call of `InitRenderLoop` on the selection
stack and on the children of the clicked element. -/
theorem InitRenderLoop_effect (fl : FloatOps R) (g : Graph) (order : List Int) (fuel : Nat)
    (er er1 : ElementRenderer R) (w w1 : WorldApp R) (b : Bool)
    (h : InitRenderLoop fl g order fuel er w = .ok (er1, w1, b)) :
    ∃ p n, g.lastClicked = .ok p ∧ g.deref p = .ok n ∧
      (∀ top, er.clickedElements.getLast? = some top →
        ∃ c, popCondition g top.clickedElement = .ok c) ∧
      ((n.focusable = true ∧ ∃ mesh, w.meshComposite p n.Name = some mesh ∧
          er1.clickedElements =
            (if popsTop g er.clickedElements then er.clickedElements.dropLast else er.clickedElements) ++
              [{ clickedElement := p, center := w.Position mesh }] ∧
          ∀ c ∈ n.Childids, ∃ m, g.deref (g.concrete c) = .ok m ∧
            (m.Genre ≠ "Solid" →
              w1.Hidden (g.concrete c) = false ∧ w1.Clicked (g.concrete c) = true)) ∨
       (n.focusable = false ∧
          er1.clickedElements =
            (if popsTop g er.clickedElements then er.clickedElements.dropLast else er.clickedElements))) := by
  unfold InitRenderLoop at h
  split at h
  · cases h
  · rename_i _ era hcache
    split at h
    · cases h
    · rename_i _ erb wb hpop
      split at h
      · cases h
      · rename_i _ erc wc hpush
        cases h
        have hst := initCachePhase_stack fl g order fuel er era hcache
        obtain ⟨hframe, hpopeff⟩ := popPhase_effect g fuel era erb w wb hpop
        have hstack : erb.clickedElements =
            (if popsTop g er.clickedElements then er.clickedElements.dropLast else er.clickedElements) := by
          unfold popsTop
          rcases hpopeff with ⟨hnil, rfl⟩ | ⟨top, htop, hcase⟩
          · rw [← hst, hnil]; simp
          · rw [← hst, htop]
            rcases hcase with ⟨hc, rfl⟩ | ⟨hc, rfl⟩
            · simp [hc]
            · simp [hc]
        have hcond : ∀ top, er.clickedElements.getLast? = some top →
            ∃ c, popCondition g top.clickedElement = .ok c := by
          intro top htop
          rw [← hst] at htop
          rcases hpopeff with ⟨hnil, _⟩ | ⟨top1, htop1, hcase⟩
          · rw [hnil] at htop; cases htop
          · rw [htop] at htop1; cases htop1
            rcases hcase with ⟨hc, _⟩ | ⟨hc, _⟩
            · exact ⟨_, hc⟩
            · exact ⟨_, hc⟩
        obtain ⟨p, n, hp, hn, hcase⟩ := pushPhase_effect g erb er1 wb w1 hpush
        refine ⟨p, n, hp, hn, hcond, ?_⟩
        rcases hcase with ⟨hf, mesh, hmesh, rfl, hloop⟩ | ⟨hf, rfl, rfl⟩
        · refine Or.inl ⟨hf, mesh, ?_, ?_, ?_⟩
          · rw [← hframe.2.1]; exact hmesh
          · simp only [ElementRenderer.push]
            rw [hstack, hframe.2.2.2.1]
          · exact (showChildren_flags g _ _ _ hloop).1
        · exact Or.inr ⟨hf, hstack⟩

/-! ## The selection stack across calls -/

/-- C2 (counterexample): starting from the empty stack, a click on root pushes
root; a following click on the Solid element s, which is no child of root, pops
root and pushes nothing, so the stack is empty again. -/
theorem InitRenderLoop_stack_emptied_again :
    runInitRenderLoop tenths (demoGraph []) 10 [([1], [1]), ([1, 5], [])] demoStart
        (demoWorld [1] []) =
      .ok [([1], [], [⟨1, ⟨1, 0, 0⟩⟩]), ([1, 5], [⟨1, ⟨1, 0, 0⟩⟩], [])] :=
  rfl

/-- One returning call on a non-empty stack leaves the stack non-empty with the
same bottom entry whenever the stack held at least two entries or the pop
condition of line 190 does not hold for its top. -/
theorem InitRenderLoop_bottom_step (fl : FloatOps R) (g : Graph) (order : List Int)
    (fuel : Nat) (er : ElementRenderer R) (w : WorldApp R)
    (r : ElementRenderer R × WorldApp R × Bool)
    (h : InitRenderLoop fl g order fuel er w = .ok r)
    (hne : er.clickedElements ≠ [])
    (hkeep : 2 ≤ er.clickedElements.length ∨ popsTop g er.clickedElements = false) :
    r.1.clickedElements ≠ [] ∧ r.1.clickedElements.head? = er.clickedElements.head? := by
  obtain ⟨er1, w1, b⟩ := r
  obtain ⟨p, n, _, _, _, hcase⟩ := InitRenderLoop_effect fl g order fuel er er1 w w1 b h
  have hbase : (if popsTop g er.clickedElements then er.clickedElements.dropLast else er.clickedElements) ≠ [] ∧
      (if popsTop g er.clickedElements then er.clickedElements.dropLast else er.clickedElements).head? =
        er.clickedElements.head? := by
    split
    · rename_i hp
      rcases hkeep with h2 | hf
      · cases hs : er.clickedElements with
        | nil => exact absurd hs hne
        | cons a l =>
          cases l with
          | nil => rw [hs] at h2; simp at h2
          | cons a2 l2 => simp [List.dropLast]
      · rw [hf] at hp; cases hp
    · exact ⟨hne, rfl⟩
  rcases hcase with ⟨_, mesh, _, hst, _⟩ | ⟨_, hst⟩
  · simp only [hst]
    refine ⟨by simp, ?_⟩
    rw [List.head?_append_of_ne_nil _ hbase.1]
    exact hbase.2
  · simp only [hst]
    exact hbase

/-- C2 (amended): a returning call of `InitRenderLoop` that starts on a
non-empty stack, from any renderer and world (so every such call of every
sequence of calls).  The stack after it is the stack before it, without its top
entry exactly when the pop condition of line 190 holds for the top, followed by
the entry pushed for the clicked element: the pair of the clicked element and
the position of its mesh when it is neither Solid nor Space, nothing otherwise.
When the stack held at least two entries or the condition does not hold, the
stack after the call is non-empty with the same bottom entry.  A sole entry for
which the condition holds is popped: the stack after the call holds the pushed
entry only. -/
theorem InitRenderLoop_stack_after_call (fl : FloatOps R) (g : Graph) (order : List Int)
    (fuel : Nat) (er : ElementRenderer R) (w : WorldApp R)
    (r : ElementRenderer R × WorldApp R × Bool)
    (h : InitRenderLoop fl g order fuel er w = .ok r)
    (hne : er.clickedElements ≠ []) :
    ∃ p n pushed, g.lastClicked = .ok p ∧ g.deref p = .ok n ∧
      (n.focusable = true →
        ∃ mesh, w.meshComposite p n.Name = some mesh ∧
          pushed = [{ clickedElement := p, center := w.Position mesh }]) ∧
      (n.focusable = false → pushed = []) ∧
      r.1.clickedElements =
        (if popsTop g er.clickedElements then er.clickedElements.dropLast
         else er.clickedElements) ++ pushed ∧
      ((2 ≤ er.clickedElements.length ∨ popsTop g er.clickedElements = false) →
        r.1.clickedElements ≠ [] ∧ r.1.clickedElements.head? = er.clickedElements.head?) ∧
      (er.clickedElements.length = 1 → popsTop g er.clickedElements = true →
        r.1.clickedElements = pushed) := by
  have hstep := InitRenderLoop_bottom_step fl g order fuel er w r h hne
  obtain ⟨er1, w1, b⟩ := r
  obtain ⟨p, n, hp, hn, _, hcase⟩ := InitRenderLoop_effect fl g order fuel er er1 w w1 b h
  have hsole : ∀ pushed : List (ClickedG3nDetailElement R),
      er.clickedElements.length = 1 → popsTop g er.clickedElements = true →
      (if popsTop g er.clickedElements then er.clickedElements.dropLast
       else er.clickedElements) ++ pushed = pushed := by
    intro pushed hlen hpop
    rw [hpop]
    cases hs : er.clickedElements with
    | nil => rw [hs] at hlen; cases hlen
    | cons a l =>
      cases l with
      | nil => simp
      | cons a2 l2 => rw [hs] at hlen; simp at hlen
  rcases hcase with ⟨hf, mesh, hmesh, hst, _⟩ | ⟨hf, hst⟩
  · refine ⟨p, n, [{ clickedElement := p, center := w.Position mesh }], hp, hn,
      fun _ => ⟨mesh, hmesh, rfl⟩, fun hf2 => ?_, hst, hstep, ?_⟩
    · rw [hf] at hf2
      cases hf2
    · intro hlen hpop
      show er1.clickedElements = _
      rw [hst]
      exact hsole _ hlen hpop
  · refine ⟨p, n, [], hp, hn, fun hf2 => ?_, fun _ => rfl, ?_, hstep, ?_⟩
    · rw [hf] at hf2
      cases hf2
    · show er1.clickedElements = _
      rw [hst, List.append_nil]
    · intro hlen hpop
      show er1.clickedElements = _
      rw [hst]
      have := hsole [] hlen hpop
      rw [List.append_nil] at this
      exact this

/-- C2 (witness): root is on the stack and its child a is clicked: nothing is
popped, the pair of a is pushed and root stays at the bottom. -/
theorem InitRenderLoop_stack_after_call_witness :
    ∃ r, InitRenderLoop tenths (demoGraph [1, 2]) [] 10 (demoRenderer [] [⟨1, ⟨1, 0, 0⟩⟩])
        (demoWorld [1, 2] []) = .ok r ∧
      r.1.clickedElements = [⟨1, ⟨1, 0, 0⟩⟩, ⟨2, ⟨2, 0, 0⟩⟩] ∧
      ∃ p n pushed, (demoGraph [1, 2]).lastClicked = .ok p ∧ (demoGraph [1, 2]).deref p = .ok n ∧
        (n.focusable = true →
          ∃ mesh, (demoWorld [1, 2] []).meshComposite p n.Name = some mesh ∧
            pushed = [{ clickedElement := p, center := (demoWorld [1, 2] []).Position mesh }]) ∧
        (n.focusable = false → pushed = []) ∧
        r.1.clickedElements =
          (if popsTop (demoGraph [1, 2]) (demoRenderer [] [⟨1, ⟨1, 0, 0⟩⟩]).clickedElements
            then (demoRenderer [] [⟨1, ⟨1, 0, 0⟩⟩]).clickedElements.dropLast
            else (demoRenderer [] [⟨1, ⟨1, 0, 0⟩⟩]).clickedElements) ++ pushed ∧
        ((2 ≤ (demoRenderer [] [⟨1, ⟨1, 0, 0⟩⟩]).clickedElements.length ∨
            popsTop (demoGraph [1, 2]) (demoRenderer [] [⟨1, ⟨1, 0, 0⟩⟩]).clickedElements = false) →
          r.1.clickedElements ≠ [] ∧
            r.1.clickedElements.head? = (demoRenderer [] [⟨1, ⟨1, 0, 0⟩⟩]).clickedElements.head?) ∧
        ((demoRenderer [] [⟨1, ⟨1, 0, 0⟩⟩]).clickedElements.length = 1 →
          popsTop (demoGraph [1, 2]) (demoRenderer [] [⟨1, ⟨1, 0, 0⟩⟩]).clickedElements = true →
          r.1.clickedElements = pushed) :=
  ⟨_, rfl, rfl, InitRenderLoop_stack_after_call tenths (demoGraph [1, 2]) [] 10
    (demoRenderer [] [⟨1, ⟨1, 0, 0⟩⟩]) (demoWorld [1, 2] []) _ rfl (by decide)⟩

/-- One returning call keeps every stack entry focusable (neither Solid nor
Space) and pushes nothing for a clicked element that is Solid or Space. -/
theorem InitRenderLoop_focus_step (fl : FloatOps R) (g : Graph) (clicked : List Ptr)
    (order : List Int) (fuel : Nat) (er er1 : ElementRenderer R) (w w1 : WorldApp R) (b : Bool)
    (h : InitRenderLoop fl { g with ClickedElements := clicked } order fuel er w =
      .ok (er1, w1, b))
    (hinv : ∀ e ∈ er.clickedElements, ∃ n, g.deref e.clickedElement = .ok n ∧
      n.Genre ≠ "Solid" ∧ n.Genre ≠ "Space") :
    (∀ e ∈ er1.clickedElements, ∃ n, g.deref e.clickedElement = .ok n ∧
      n.Genre ≠ "Solid" ∧ n.Genre ≠ "Space") ∧
    (∀ p n, clicked.getLast? = some p → g.deref p = .ok n →
      n.Genre = "Solid" ∨ n.Genre = "Space" →
      er1.clickedElements = er.clickedElements ∨
        er1.clickedElements = er.clickedElements.dropLast) := by
  obtain ⟨p, n, hp, hn, _, hcase⟩ := InitRenderLoop_effect fl _ order fuel er er1 w w1 b h
  have hp1 : clicked.getLast? = some p := by
    unfold Graph.lastClicked at hp
    simp only at hp
    split at hp
    · rename_i _ q hq
      cases hp; exact hq
    · cases hp
  have hn1 : g.deref p = .ok n := hn
  have hbase : ∀ e ∈ (if popsTop { g with ClickedElements := clicked } er.clickedElements
      then er.clickedElements.dropLast else er.clickedElements),
      ∃ n, g.deref e.clickedElement = .ok n ∧ n.Genre ≠ "Solid" ∧ n.Genre ≠ "Space" := by
    intro e he
    split at he
    · exact hinv e (List.mem_of_mem_dropLast he)
    · exact hinv e he
  rcases hcase with ⟨hf, mesh, _, hst, _⟩ | ⟨hf, hst⟩
  · have hfoc : n.Genre ≠ "Solid" ∧ n.Genre ≠ "Space" := by
      simpa [MashupDetailedElement.focusable] using hf
    constructor
    · intro e he
      rw [hst] at he
      rcases List.mem_append.1 he with h1 | h1
      · exact hbase e h1
      · rw [List.mem_singleton] at h1
        subst h1
        exact ⟨n, hn1, hfoc⟩
    · intro p2 n2 hp2 hn2 hg
      rw [hp1] at hp2
      cases hp2
      rw [hn1] at hn2
      cases hn2
      rcases hg with hg | hg
      · exact absurd hg hfoc.1
      · exact absurd hg hfoc.2
  · constructor
    · intro e he
      rw [hst] at he
      exact hbase e he
    · intro _ _ _ _ _
      rw [hst]
      split
      · exact Or.inr rfl
      · exact Or.inl rfl

theorem runInitRenderLoop_focus_inv (fl : FloatOps R) (g : Graph) (fuel : Nat)
    (steps : List (List Ptr × List Int)) :
    ∀ (er : ElementRenderer R) (w : WorldApp R)
      (out : List (List Ptr × List (ClickedG3nDetailElement R) ×
        List (ClickedG3nDetailElement R))),
      (∀ e ∈ er.clickedElements, ∃ n, g.deref e.clickedElement = .ok n ∧
        n.Genre ≠ "Solid" ∧ n.Genre ≠ "Space") →
      runInitRenderLoop fl g fuel steps er w = .ok out →
      ∀ call ∈ out,
        (∀ e ∈ call.2.2, ∃ n, g.deref e.clickedElement = .ok n ∧
          n.Genre ≠ "Solid" ∧ n.Genre ≠ "Space") ∧
        (∀ p n, call.1.getLast? = some p → g.deref p = .ok n →
          n.Genre = "Solid" ∨ n.Genre = "Space" →
          call.2.2 = call.2.1 ∨ call.2.2 = call.2.1.dropLast) := by
  induction steps with
  | nil =>
    intro er w out _ hrun call hcall
    simp only [runInitRenderLoop] at hrun
    cases hrun
    cases hcall
  | cons step rest ih =>
    intro er w out hinv hrun call hcall
    obtain ⟨clicked, order⟩ := step
    unfold runInitRenderLoop at hrun
    split at hrun
    · cases hrun
    · rename_i _ er1 w1 b hcallok
      split at hrun
      · cases hrun
      · rename_i _ later hlater
        cases hrun
        have hstep := InitRenderLoop_focus_step fl g clicked order fuel er er1 w w1 b hcallok hinv
        rcases List.mem_cons.1 hcall with rfl | hmem
        · exact hstep
        · exact ih er1 w1 later hstep.1 hlater call hmem

/-- C7: in every run of `InitRenderLoop` calls that starts from the empty
selection stack, after each call no stack entry is a Solid or Space element,
and a call whose last clicked element is Solid or Space pushes nothing: the
stack after it is the stack before it, with or without its top entry. -/
theorem runInitRenderLoop_focus_never_solid_or_space (fl : FloatOps R) (g : Graph) (fuel : Nat)
    (steps : List (List Ptr × List Int)) (er : ElementRenderer R) (w : WorldApp R)
    (out : List (List Ptr × List (ClickedG3nDetailElement R) ×
      List (ClickedG3nDetailElement R)))
    (hstart : er.clickedElements = [])
    (hrun : runInitRenderLoop fl g fuel steps er w = .ok out)
    (call : List Ptr × List (ClickedG3nDetailElement R) × List (ClickedG3nDetailElement R))
    (hcall : call ∈ out) :
    (∀ e ∈ call.2.2, ∃ n, g.deref e.clickedElement = .ok n ∧
      n.Genre ≠ "Solid" ∧ n.Genre ≠ "Space") ∧
    (∀ p n, call.1.getLast? = some p → g.deref p = .ok n →
      n.Genre = "Solid" ∨ n.Genre = "Space" →
      call.2.2 = call.2.1 ∨ call.2.2 = call.2.1.dropLast) :=
  runInitRenderLoop_focus_inv fl g fuel steps er w out
    (by rw [hstart]; intro e he; cases he) hrun call hcall

/-- C7 (witness): the run root, then Solid s, at its first call. -/
theorem runInitRenderLoop_focus_never_solid_or_space_witness :
    (∀ e ∈ ([⟨1, ⟨1, 0, 0⟩⟩] : List (ClickedG3nDetailElement Int)),
      ∃ n, (demoGraph []).deref e.clickedElement = .ok n ∧
        n.Genre ≠ "Solid" ∧ n.Genre ≠ "Space") ∧
    (∀ p n, ([1] : List Ptr).getLast? = some p → (demoGraph []).deref p = .ok n →
      n.Genre = "Solid" ∨ n.Genre = "Space" →
      ([⟨1, ⟨1, 0, 0⟩⟩] : List (ClickedG3nDetailElement Int)) = [] ∨
        ([⟨1, ⟨1, 0, 0⟩⟩] : List (ClickedG3nDetailElement Int)) = List.dropLast []) :=
  runInitRenderLoop_focus_never_solid_or_space tenths (demoGraph []) 10
    [([1], [1]), ([1, 5], [])] demoStart (demoWorld [1] [])
    [([1], [], [⟨1, ⟨1, 0, 0⟩⟩]), ([1, 5], [⟨1, ⟨1, 0, 0⟩⟩], [])] rfl rfl
    ([1], [], [⟨1, ⟨1, 0, 0⟩⟩]) (List.mem_cons_self _ _)

/-! ## The demo tree is well formed -/

theorem demoGraph_deref (clicked : List Ptr) (p : Ptr) (n : MashupDetailedElement)
    (h : (demoGraph clicked).deref p = .ok n) :
    1 ≤ p ∧ p ≤ 6 ∧ demoElement p = some n := by
  unfold Graph.deref at h
  split at h
  · cases h
  · simp only [demoGraph] at h
    split at h
    · rename_i _ m hm
      cases h
      refine ⟨?_, ?_, hm⟩
      · unfold demoElement at hm
        split at hm <;> simp_all
      · unfold demoElement at hm
        split at hm <;> simp_all
    · cases h

theorem demoGraph_wellFormed (clicked : List Ptr) :
    (demoGraph clicked).WellFormed demoPtrRank demoDepth where
  registered := by
    intro id p h
    simp only [demoGraph] at h
    split at h
    · rename_i hb
      cases h
      obtain ⟨h1, h2⟩ := hb
      interval_cases id <;> exact ⟨_, rfl⟩
    · cases h
  children := by
    intro p n hn c hc
    obtain ⟨h1, h2, hel⟩ := demoGraph_deref clicked p n hn
    interval_cases p <;> cases hel <;> simp at hc <;>
      (try rcases hc with rfl | rfl) <;>
      exact ⟨_, rfl, by decide⟩
  parent := by
    intro p n hn a ha
    obtain ⟨h1, h2, hel⟩ := demoGraph_deref clicked p n hn
    interval_cases p <;> cases hel <;> simp at ha <;> subst ha <;>
      exact ⟨_, rfl, by decide⟩

theorem demo_budget (p : Ptr) : demoPtrRank p < 10 ∧ demoDepth p < 10 := by
  unfold demoPtrRank demoDepth
  omega

/-! ## RemoveAll -/

theorem forIds_returns (body : Int → WorldApp R → Except Err (WorldApp R)) (ids : List Int)
    (hbody : ∀ c ∈ ids, ∀ w, ∃ w1, body c w = .ok w1) :
    ∀ w, ∃ w1, forIds body ids w = .ok w1 := by
  induction ids with
  | nil => intro w; exact ⟨w, rfl⟩
  | cons c rest ih =>
    intro w
    obtain ⟨w2, h2⟩ := hbody c (List.mem_cons_self _ _) w
    obtain ⟨w3, h3⟩ := ih (fun c1 hc1 => hbody c1 (List.mem_cons_of_mem _ hc1)) w2
    exact ⟨w3, by simp only [forIds, h2, h3]⟩

theorem forIds_split (P : WorldApp R → WorldApp R → Prop) (hrefl : ∀ w, P w w)
    (htrans : ∀ a b c, P a b → P b c → P a c)
    (body : Int → WorldApp R → Except Err (WorldApp R))
    (hbody : ∀ c w w1, body c w = .ok w1 → P w w1) (ids : List Int) :
    ∀ (w w1 : WorldApp R), forIds body ids w = .ok w1 → ∀ c ∈ ids,
      ∃ wa wb, P w wa ∧ body c wa = .ok wb ∧ P wb w1 := by
  induction ids with
  | nil => intro w w1 _ c hc; cases hc
  | cons c0 rest ih =>
    intro w w1 h c hc
    unfold forIds at h
    split at h
    · cases h
    · rename_i _ w2 hb
      rcases List.mem_cons.1 hc with rfl | hmem
      · exact ⟨w, w2, hrefl _, hb, forIds_preserves P hrefl htrans body hbody rest _ _ h⟩
      · obtain ⟨wa, wb, h1, h2, h3⟩ := ih w2 w1 h c hmem
        exact ⟨wa, wb, htrans _ _ _ (hbody _ _ _ hb) h1, h2, h3⟩

theorem sceneReduced_refl (w : WorldApp R) : w.sceneReduced w :=
  ⟨hiddenSceneOnly_refl w, rfl, fun _ h => h⟩

theorem sceneReduced_trans (a b c : WorldApp R) (h1 : a.sceneReduced b)
    (h2 : b.sceneReduced c) : a.sceneReduced c :=
  ⟨hiddenSceneOnly_trans h1.1 h2.1, h2.2.1.trans h1.2.1, fun h hh => h1.2.2 h (h2.2.2 h hh)⟩

theorem RemoveFromScene_sceneReduced (w : WorldApp R) (h : Handle) :
    w.sceneReduced (RemoveFromScene w h) :=
  ⟨RemoveFromScene_frame w h, rfl, fun _ hx => (List.mem_filter.1 hx).1⟩

theorem RemoveFromScene_not_mem (w : WorldApp R) (h : Handle) :
    h ∉ (RemoveFromScene w h).scene := by
  simp [RemoveFromScene]

theorem removeOwnMesh_sceneReduced (w : WorldApp R) (child : Ptr) (n : MashupDetailedElement) :
    w.sceneReduced (removeOwnMesh w child n) := by
  unfold removeOwnMesh
  split
  · split
    · exact RemoveFromScene_sceneReduced _ _
    · exact sceneReduced_refl _
  · exact sceneReduced_refl _

theorem RemoveAll_unfold (g : Graph) (fuel : Nat) (id : Int) (w : WorldApp R) (child : Ptr)
    (n : MashupDetailedElement) (hc : g.ConcreteElements id = some child)
    (hn : g.deref child = .ok n) :
    RemoveAll g (fuel + 1) id w =
      if n.Childids.length > 0 then
        forIds (RemoveAll g fuel) n.Childids (removeOwnMesh w child n)
      else .ok (removeOwnMesh w child n) := by
  rw [RemoveAll]
  simp only [hc, hn]
  rfl

theorem RemoveAll_sceneReduced (g : Graph) (fuel : Nat) :
    ∀ (id : Int) (w w1 : WorldApp R), RemoveAll g fuel id w = .ok w1 → w.sceneReduced w1 := by
  induction fuel with
  | zero => intro id w w1 h; simp [RemoveAll] at h
  | succ fuel ih =>
    intro id w w1 h
    cases hc : g.ConcreteElements id with
    | none =>
      rw [RemoveAll] at h
      simp only [hc] at h
      cases h; exact sceneReduced_refl _
    | some child =>
      cases hn : g.deref child with
      | error e =>
        rw [RemoveAll] at h
        simp only [hc, hn] at h
        cases h
      | ok n =>
        rw [RemoveAll_unfold g fuel id w child n hc hn] at h
        split at h
        · exact sceneReduced_trans _ _ _ (removeOwnMesh_sceneReduced w child n)
            (forIds_preserves _ sceneReduced_refl sceneReduced_trans _ ih _ _ _ h)
        · cases h; exact removeOwnMesh_sceneReduced w child n

/-- After `RemoveAll` the mesh of every non-abstract, non-Solid element
reachable from the id is out of the scene. -/
theorem RemoveAll_removes (g : Graph) (fuel : Nat) :
    ∀ (id : Int) (w w1 : WorldApp R), RemoveAll g fuel id w = .ok w1 →
      ∀ (q : Ptr) (n : MashupDetailedElement) (h : Handle), Reach g id q →
        g.deref q = .ok n → n.Abstract = false → n.Genre ≠ "Solid" →
        w.meshComposite q n.Name = some h → h ∉ w1.scene := by
  induction fuel with
  | zero => intro id w w1 h; simp [RemoveAll] at h
  | succ fuel ih =>
    intro id w w1 hrun q n h hreach hn hab hsolid hmesh
    cases hreach with
    | self hc =>
      rw [RemoveAll_unfold g fuel id w q n hc hn] at hrun
      have hown : h ∉ (removeOwnMesh w q n).scene := by
        simp [removeOwnMesh, hab, hsolid, hmesh, RemoveFromScene]
      split at hrun
      · have hred := forIds_preserves _ sceneReduced_refl sceneReduced_trans _
          (RemoveAll_sceneReduced g fuel) _ _ _ hrun
        exact fun hin => hown (hred.2.2 h hin)
      · cases hrun; exact hown
    | child hc hp hmem hrest =>
      rename_i c p np
      rw [RemoveAll_unfold g fuel id w p np hc hp] at hrun
      have hpos : np.Childids.length > 0 := List.length_pos_of_mem hmem
      simp only [hpos, if_true] at hrun
      obtain ⟨wa, wb, h1, h2, h3⟩ := forIds_split _ sceneReduced_refl sceneReduced_trans _
        (RemoveAll_sceneReduced g fuel) _ _ _ hrun c hmem
      have hfr : (w.sceneReduced wa) :=
        sceneReduced_trans _ _ _ (removeOwnMesh_sceneReduced w p np) h1
      have hmesh2 : wa.meshComposite q n.Name = some h := by
        rw [hfr.1.2.1]; exact hmesh
      have := ih c wa wb h2 q n h hrest hn hab hsolid hmesh2
      exact fun hin => this (h3.2.2 h hin)

/-- On an acyclic graph whose registered elements resolve, `RemoveAll` returns
once the budget exceeds the rank of the id. -/
theorem RemoveAll_returns (g : Graph) (rank : Int → Nat)
    (hvalid : ∀ id p, g.ConcreteElements id = some p → ∃ n, g.deref p = .ok n)
    (hacyclic : ∀ id p n, g.ConcreteElements id = some p → g.deref p = .ok n →
      ∀ c ∈ n.Childids, rank c < rank id) (fuel : Nat) :
    ∀ (id : Int) (w : WorldApp R), rank id < fuel → ∃ w1, RemoveAll g fuel id w = .ok w1 := by
  induction fuel with
  | zero => intro id w h; omega
  | succ fuel ih =>
    intro id w hlt
    cases hc : g.ConcreteElements id with
    | none =>
      refine ⟨w, ?_⟩
      rw [RemoveAll]
      simp only [hc]
    | some child =>
      obtain ⟨n, hn⟩ := hvalid id child hc
      rw [RemoveAll_unfold g fuel id w child n hc hn]
      split
      · apply forIds_returns
        intro c hcm w2
        exact ih c w2 (by have := hacyclic id child n hc hn c hcm; omega)
      · exact ⟨_, rfl⟩

theorem demoGraph_valid (clicked : List Ptr) (id : Int) (p : Ptr)
    (h : (demoGraph clicked).ConcreteElements id = some p) :
    ∃ n, (demoGraph clicked).deref p = .ok n := by
  simp only [demoGraph] at h
  split at h
  · rename_i hb
    cases h
    obtain ⟨h1, h2⟩ := hb
    interval_cases id <;> exact ⟨_, rfl⟩
  · cases h

theorem demoGraph_acyclic (clicked : List Ptr) (id : Int) (p : Ptr)
    (n : MashupDetailedElement) (h : (demoGraph clicked).ConcreteElements id = some p)
    (hn : (demoGraph clicked).deref p = .ok n) :
    ∀ c ∈ n.Childids, demoRank c < demoRank id := by
  simp only [demoGraph] at h
  split at h
  · rename_i hb
    cases h
    obtain ⟨h1, h2⟩ := hb
    interval_cases id <;> cases hn <;> simp [demoRank]
  · cases h

/-- C3 (counterexample): a and its child c have meshes; after `RemoveAll` of
a, both meshes are out of the scene, but c, reachable from a through a child
id, still has its handle under its display name. -/
theorem RemoveAll_keeps_handle :
    (demoGraph []).deref ((demoGraph []).concrete 2) =
      .ok ⟨2, "a", "DataFlowGroup", "Container", "", [1], [4], false⟩ ∧
    (demoGraph []).deref ((demoGraph []).concrete 4) =
      .ok ⟨4, "c", "DataFlow", "Container", "", [2], [5], false⟩ ∧
    (RemoveAll (demoGraph []) 10 2 (demoWorld [2, 4] [])).map
      (fun w => (w.meshComposite 4 "c", w.scene)) = .ok (some 4, []) :=
  ⟨rfl, rfl, rfl⟩

/-- C3 (amended): on an acyclic graph whose registered elements resolve,
`RemoveAll` of an id returns; afterwards the mesh attached under the display
name of every non-abstract, non-Solid element reachable from the id through
child ids is out of the scene, and every element has the handles it had. -/
theorem RemoveAll_clears_scene_of_subtree (g : Graph) (rank : Int → Nat)
    (hvalid : ∀ id p, g.ConcreteElements id = some p → ∃ n, g.deref p = .ok n)
    (hacyclic : ∀ id p n, g.ConcreteElements id = some p → g.deref p = .ok n →
      ∀ c ∈ n.Childids, rank c < rank id)
    (X : Int) (w : WorldApp R) :
    ∃ w1, RemoveAll g (rank X + 1) X w = .ok w1 ∧
      w1.meshComposite = w.meshComposite ∧
      ∀ (q : Ptr) (n : MashupDetailedElement) (h : Handle), Reach g X q →
        g.deref q = .ok n → n.Abstract = false → n.Genre ≠ "Solid" →
        w.meshComposite q n.Name = some h → h ∉ w1.scene := by
  obtain ⟨w1, h1⟩ := RemoveAll_returns g rank hvalid hacyclic (rank X + 1) X w (by omega)
  exact ⟨w1, h1, (RemoveAll_sceneReduced g _ X w w1 h1).1.2.1,
    RemoveAll_removes g _ X w w1 h1⟩

/-- C3 (witness): `RemoveAll` of a in the demo tree. -/
theorem RemoveAll_clears_scene_of_subtree_witness :
    ∃ w1, RemoveAll (demoGraph []) (demoRank 2 + 1) 2 (demoWorld [2, 4] []) = .ok w1 ∧
      w1.meshComposite = (demoWorld [2, 4] []).meshComposite ∧
      ∀ (q : Ptr) (n : MashupDetailedElement) (h : Handle), Reach (demoGraph []) 2 q →
        (demoGraph []).deref q = .ok n → n.Abstract = false → n.Genre ≠ "Solid" →
        (demoWorld [2, 4] []).meshComposite q n.Name = some h → h ∉ w1.scene :=
  RemoveAll_clears_scene_of_subtree (demoGraph []) demoRank (demoGraph_valid [])
    (demoGraph_acyclic []) 2 (demoWorld [2, 4] [])

/-! ## The position cache -/

/-- C4 (counterexample): in phase 1 (`iOffset = 1`) the cache holds the
position (0, 0, 0.1) for a; a further `NextCoordinate` call for a returns
(0, 0, 0.2), stores it, and moves the counter from -0.1 to -0.2. -/
theorem NextCoordinate_recomputes_in_phase_one :
    (demoGraph []).deref 2 = .ok ⟨2, "a", "DataFlowGroup", "Container", "", [1], [4], false⟩ ∧
    (NextCoordinate tenths (demoGraph [])
        { iOffset := 1, counter := -1, totalElements := 2,
          LocationCache := some [(2, ⟨0, 0, 1⟩), (1, ⟨0, 0, 0⟩)], clickedElements := [] }
        2 2).map (fun r => (r.2, r.1.cacheLookup 2, r.1.counter)) =
      .ok (some ⟨0, 0, 2⟩, some ⟨0, 0, 2⟩, -2) :=
  ⟨rfl, rfl⟩

/-- C4 (amended): once the phase is 2 or more, `NextCoordinate` for an element
whose id has the cached position `pos` returns `pos` and leaves the cache and
the counter as they are. -/
theorem NextCoordinate_cache_stable (fl : FloatOps R) (g : Graph) (er : ElementRenderer R)
    (g3n : Ptr) (n : MashupDetailedElement) (totalElements : Int) (pos : Vector3 R)
    (hphase : er.iOffset ≥ 2) (hn : g.deref g3n = .ok n)
    (hcached : er.cacheLookup n.Id = some pos) :
    ∃ er1, NextCoordinate fl g er g3n totalElements = .ok (er1, some pos) ∧
      er1.cacheLookup n.Id = some pos ∧ er1.LocationCache = er.LocationCache ∧
      er1.counter = er.counter ∧ er1.iOffset = er.iOffset := by
  refine ⟨{ er with totalElements := totalElements }, ?_, hcached, rfl, rfl, rfl⟩
  unfold NextCoordinate
  simp only [hphase, if_true, hn]
  rw [← hcached]
  rfl

/-- C4 (witness): phase 2, a cached at (0, 0, 0.1). -/
theorem NextCoordinate_cache_stable_witness :
    ∃ er1, NextCoordinate tenths (demoGraph []) (demoRenderer [(2, ⟨0, 0, 1⟩)] []) 2 7 =
        .ok (er1, some ⟨0, 0, 1⟩) ∧
      er1.cacheLookup 2 = some ⟨0, 0, 1⟩ ∧
      er1.LocationCache = (demoRenderer [(2, ⟨0, 0, 1⟩)] []).LocationCache ∧
      er1.counter = (demoRenderer [(2, ⟨0, 0, 1⟩)] []).counter ∧
      er1.iOffset = (demoRenderer [(2, ⟨0, 0, 1⟩)] []).iOffset :=
  NextCoordinate_cache_stable tenths (demoGraph []) (demoRenderer [(2, ⟨0, 0, 1⟩)] []) 2
    ⟨2, "a", "DataFlowGroup", "Container", "", [1], [4], false⟩ 7 ⟨0, 0, 1⟩
    (by decide) rfl rfl

/-! ### What the cache population may change -/

section CacheRelation

variable (fl : FloatOps R) (g : Graph) (P : ElementRenderer R → ElementRenderer R → Prop)
  (hrefl : ∀ er, P er er) (htrans : ∀ a b c, P a b → P b c → P a c)
  (hstore : ∀ (er er1 : ElementRenderer R) (id : Int) (v : Vector3 R), g.isChildId id →
    er.cacheStore id v = .ok er1 → P er er1)

include hrefl htrans hstore

theorem calcLocnParents_rel (id : Int) (hid : g.isChildId id) (ps : List Int) :
    ∀ (er er1 : ElementRenderer R) (c c1 : R),
      calcLocnParents fl id ps er c = .ok (er1, c1) → P er er1 := by
  induction ps with
  | nil =>
    intro er er1 c c1 h
    simp only [calcLocnParents] at h
    cases h; exact hrefl _
  | cons parent rest ih =>
    intro er er1 c c1 h
    unfold calcLocnParents at h
    split at h
    · split at h
      · split at h
        · cases h
        · rename_i _ er2 hst
          exact htrans _ _ _ (hstore _ _ _ _ hid hst) (ih _ _ _ _ h)
      · exact ih _ _ _ _ h
    · exact ih _ _ _ _ h

theorem calcLocnStarter_rel (ids : List Int) (hids : ∀ id ∈ ids, g.isChildId id) :
    ∀ (er er1 : ElementRenderer R) (c : R),
      calcLocnStarter fl g ids er c = .ok er1 → P er er1 := by
  induction ids with
  | nil =>
    intro er er1 c h
    simp only [calcLocnStarter] at h
    cases h; exact hrefl _
  | cons id rest ih =>
    intro er er1 c h
    unfold calcLocnStarter at h
    split at h
    · cases h
    · split at h
      · cases h
      · rename_i _ er2 c2 hp
        exact htrans _ _ _
          (calcLocnParents_rel fl g P hrefl htrans hstore id (hids id (List.mem_cons_self _ _))
            _ _ _ _ _ hp)
          (ih (fun i hi => hids i (List.mem_cons_of_mem _ hi)) _ _ _ h)

omit hstore in
theorem initLocnChildren_rel
    (recur : Ptr → ElementRenderer R → Except Err (ElementRenderer R))
    (hrec : ∀ p er er1, recur p er = .ok er1 → P er er1) (ids : List Int) :
    ∀ (er er1 : ElementRenderer R),
      initLocnChildren g recur ids er = .ok er1 → P er er1 := by
  induction ids with
  | nil =>
    intro er er1 h
    simp only [initLocnChildren] at h
    cases h; exact hrefl _
  | cons id rest ih =>
    intro er er1 h
    unfold initLocnChildren at h
    split at h
    · cases h
    · split at h
      · split at h
        · cases h
        · rename_i _ er2 hr
          exact htrans _ _ _ (hrec _ _ _ hr) (ih _ _ h)
      · exact ih _ _ h

theorem initLocnCache_rel (fuel : Nat) :
    ∀ (p : Ptr) (er er1 : ElementRenderer R),
      initLocnCache fl g fuel p er = .ok er1 → P er er1 := by
  induction fuel with
  | zero => intro p er er1 h; simp [initLocnCache] at h
  | succ fuel ih =>
    intro p er er1 h
    unfold initLocnCache at h
    split at h
    · cases h
    · rename_i _ n hn
      split at h
      · split at h
        · cases h
        · rename_i _ er2 hs
          refine htrans _ _ _ ?_ (initLocnChildren_rel g P hrefl htrans _ ih _ _ _ h)
          split at hs
          · exact calcLocnStarter_rel fl g P hrefl htrans hstore _
              (fun id hid => ⟨p, n, hn, hid⟩) _ _ _ hs
          · cases hs; exact hrefl _
      · cases h; exact hrefl _

theorem initCacheLoop_rel (fuel : Nat) (order : List Int) :
    ∀ (er er1 : ElementRenderer R),
      initCacheLoop fl g fuel order er = .ok er1 → P er er1 := by
  induction order with
  | nil =>
    intro er er1 h
    simp only [initCacheLoop] at h
    cases h; exact hrefl _
  | cons key rest ih =>
    intro er er1 h
    unfold initCacheLoop at h
    split at h
    · cases h
    · split at h
      · split at h
        · cases h
        · rename_i _ er2 hr
          exact htrans _ _ _ (initLocnCache_rel fl g P hrefl htrans hstore fuel _ _ _ hr)
            (ih _ _ h)
      · exact ih _ _ h

end CacheRelation

theorem cacheStore_lookup {er er1 : ElementRenderer R} {id : Int} {v : Vector3 R}
    (h : er.cacheStore id v = .ok er1) (k : Int) :
    er1.cacheLookup k = if id = k then some v else er.cacheLookup k := by
  unfold ElementRenderer.cacheStore at h
  split at h
  · rename_i m hm
    cases h
    simp only [ElementRenderer.cacheLookup, hm, cacheGet]
  · cases h

/-- The position cache after a returning `InitRenderLoop` is the cache its
population phase leaves. -/
theorem InitRenderLoop_cache (fl : FloatOps R) (g : Graph) (order : List Int) (fuel : Nat)
    (er : ElementRenderer R) (w : WorldApp R) (r : ElementRenderer R × WorldApp R × Bool)
    (h : InitRenderLoop fl g order fuel er w = .ok r) :
    ∃ era, initCachePhase fl g order fuel er = .ok era ∧
      r.1.LocationCache = era.LocationCache := by
  unfold InitRenderLoop at h
  split at h
  · cases h
  · rename_i _ era hcache
    refine ⟨era, hcache, ?_⟩
    split at h
    · cases h
    · rename_i _ erb wb hpop
      split at h
      · cases h
      · rename_i _ erc wc hpush
        cases h
        have h1 : erb.LocationCache = era.LocationCache := by
          rcases (popPhase_effect g fuel era erb w wb hpop).2 with
            ⟨_, rfl⟩ | ⟨_, _, ⟨_, rfl⟩ | ⟨_, rfl⟩⟩ <;> rfl
        have h2 : erc.LocationCache = erb.LocationCache := by
          obtain ⟨_, _, _, _, hc⟩ := pushPhase_effect g erb erc wb wc hpush
          rcases hc with ⟨_, _, _, rfl, _⟩ | ⟨_, rfl, _⟩ <;> rfl
        exact h2.trans h1

theorem initCachePhase_lookup (fl : FloatOps R) (g : Graph) (order : List Int) (fuel : Nat)
    (er era : ElementRenderer R) (h : initCachePhase fl g order fuel er = .ok era) (k : Int) :
    ((er.cacheLookup k).isSome → (era.cacheLookup k).isSome) ∧
    (er.iOffset = 2 → era.cacheLookup k = er.cacheLookup k) ∧
    (¬ g.isChildId k → era.cacheLookup k = er.cacheLookup k) := by
  unfold initCachePhase at h
  split at h
  · rename_i hne
    split at h
    · cases h
    · rename_i _ er2 hl
      cases h
      refine ⟨?_, fun h2 => absurd h2 hne, ?_⟩
      · exact initCacheLoop_rel fl g
          (fun a b => (a.cacheLookup k).isSome → (b.cacheLookup k).isSome)
          (fun _ hx => hx) (fun _ _ _ h1 h2 hx => h2 (h1 hx))
          (fun a b id v _ hst hx => by
            show (b.cacheLookup k).isSome = true
            rw [cacheStore_lookup hst k]
            split
            · rfl
            · exact hx)
          fuel order er er2 hl
      · intro hk
        exact initCacheLoop_rel fl g
          (fun a b => b.cacheLookup k = a.cacheLookup k)
          (fun _ => rfl) (fun _ _ _ h1 h2 => h2.trans h1)
          (fun a b id v hid hst => by
            show b.cacheLookup k = a.cacheLookup k
            rw [cacheStore_lookup hst k]
            split
            · rename_i hidk
              exact absurd (hidk ▸ hid) hk
            · rfl)
          fuel order er er2 hl
  · cases h
    exact ⟨fun hx => hx, fun _ => rfl, fun _ => rfl⟩

/-- C5 (counterexample): after `NextCoordinate` for root, b and a the cache
holds (0, 0, 0.2) for a; `InitRenderLoop` with root clicked ranges over the
cached keys and leaves (0, 0, 0.1) for a, the position of the first child of
root. -/
theorem InitRenderLoop_overwrites_cached_position :
    ((NextCoordinate tenths (demoGraph []) demoFresh 1 3).bind fun r1 =>
      (NextCoordinate tenths (demoGraph []) r1.1 3 3).bind fun r2 =>
        (NextCoordinate tenths (demoGraph []) r2.1 2 3).map fun r3 =>
          (r3.1.iOffset, r3.1.counter, r3.1.totalElements, r3.1.LocationCache,
            r3.1.clickedElements)) =
      .ok (demoLaidOut.iOffset, demoLaidOut.counter, demoLaidOut.totalElements,
        demoLaidOut.LocationCache, demoLaidOut.clickedElements) ∧
    List.Perm [1, 3, 2] (cacheKeys demoLaidOut.LocationCache) ∧
    demoLaidOut.cacheLookup 2 = some ⟨0, 0, 2⟩ ∧
    (InitRenderLoop tenths (demoGraph [1]) [1, 3, 2] 10 demoLaidOut (demoWorld [1] [])).map
      (fun r => r.1.cacheLookup 2) = .ok (some ⟨0, 0, 1⟩) :=
  ⟨rfl, by decide, rfl, rfl⟩

/-- C5 (amended): an id that has a cache entry before `InitRenderLoop` has one
after a returning call; the entry holds the same vector when the phase is
already 2 on entry (the population is skipped) and when the id is not among
the child ids of any element of the graph. -/
theorem InitRenderLoop_cache_entry (fl : FloatOps R) (g : Graph) (order : List Int)
    (fuel : Nat) (er : ElementRenderer R) (w : WorldApp R)
    (r : ElementRenderer R × WorldApp R × Bool) (k : Int) (v : Vector3 R)
    (h : InitRenderLoop fl g order fuel er w = .ok r)
    (hentry : er.cacheLookup k = some v) :
    (∃ v1, r.1.cacheLookup k = some v1) ∧
    (er.iOffset = 2 → r.1.cacheLookup k = some v) ∧
    (¬ g.isChildId k → r.1.cacheLookup k = some v) := by
  obtain ⟨era, hphase, hcache⟩ := InitRenderLoop_cache fl g order fuel er w r h
  have hlook : r.1.cacheLookup k = era.cacheLookup k := by
    unfold ElementRenderer.cacheLookup
    rw [hcache]
  obtain ⟨h1, h2, h3⟩ := initCachePhase_lookup fl g order fuel er era hphase k
  refine ⟨?_, ?_, ?_⟩
  · rw [hlook]
    exact Option.isSome_iff_exists.1 (h1 (by rw [hentry]; rfl))
  · intro hp
    rw [hlook, h2 hp, hentry]
  · intro hk
    rw [hlook, h3 hk, hentry]

theorem demoGraph_root_not_child (clicked : List Ptr) : ¬ (demoGraph clicked).isChildId 1 := by
  rintro ⟨p, n, hn, hmem⟩
  unfold Graph.deref at hn
  split at hn
  · cases hn
  · simp only [demoGraph] at hn
    split at hn
    · rename_i _ m hm
      cases hn
      unfold demoElement at hm
      split at hm <;> cases hm <;> simp at hmem
    · cases hn

/-- C5 (witness): the entry of root across the call of the counterexample. -/
theorem InitRenderLoop_cache_entry_witness :
    ∃ r, InitRenderLoop tenths (demoGraph [1]) [1, 3, 2] 10 demoLaidOut (demoWorld [1] []) =
        .ok r ∧
      (∃ v1, r.1.cacheLookup 1 = some v1) ∧
      (demoLaidOut.iOffset = 2 → r.1.cacheLookup 1 = some ⟨0, 0, 0⟩) ∧
      (¬ (demoGraph [1]).isChildId 1 → r.1.cacheLookup 1 = some ⟨0, 0, 0⟩) :=
  ⟨_, rfl, InitRenderLoop_cache_entry tenths (demoGraph [1]) [1, 3, 2] 10 demoLaidOut
    (demoWorld [1] []) _ 1 ⟨0, 0, 0⟩ rfl rfl⟩

/-! ## InitRenderLoop returns on a well-formed graph -/

theorem concrete_of_registered {g : Graph} {id : Int} {q : Ptr}
    (h : g.ConcreteElements id = some q) : g.concrete id = q := by
  simp [Graph.concrete, h]

theorem child_resolves {g : Graph} {rank depth : Ptr → Nat} (hwf : g.WellFormed rank depth)
    {p : Ptr} {n : MashupDetailedElement} (hn : g.deref p = .ok n) {c : Int}
    (hc : c ∈ n.Childids) :
    ∃ m, g.deref (g.concrete c) = .ok m ∧ rank (g.concrete c) < rank p ∧
      g.ConcreteElements c = some (g.concrete c) := by
  obtain ⟨q, hq, hr⟩ := hwf.children p n hn c hc
  obtain ⟨m, hm⟩ := hwf.registered c q hq
  rw [concrete_of_registered hq]
  exact ⟨m, hm, hr, hq⟩

theorem calcLocnParents_returns (fl : FloatOps R) (id : Int) (ps : List Int) :
    ∀ (er : ElementRenderer R) (c : R), ∃ r, calcLocnParents fl id ps er c = .ok r := by
  induction ps with
  | nil => intro er c; exact ⟨_, rfl⟩
  | cons parent rest ih =>
    intro er c
    unfold calcLocnParents
    split
    · split
      · rename_i center hlook
        have hsome : ∃ m, er.LocationCache = some m := by
          unfold ElementRenderer.cacheLookup at hlook
          split at hlook
          · exact ⟨_, by assumption⟩
          · cases hlook
        obtain ⟨m, hm⟩ := hsome
        simp only [ElementRenderer.cacheStore, hm]
        exact ih _ _
      · exact ih _ _
    · exact ih _ _

theorem calcLocnStarter_returns (fl : FloatOps R) (g : Graph) (ids : List Int)
    (hids : ∀ id ∈ ids, ∃ n, g.deref (g.concrete id) = .ok n) :
    ∀ (er : ElementRenderer R) (c : R), ∃ er1, calcLocnStarter fl g ids er c = .ok er1 := by
  induction ids with
  | nil => intro er c; exact ⟨_, rfl⟩
  | cons id rest ih =>
    intro er c
    obtain ⟨n, hn⟩ := hids id (List.mem_cons_self _ _)
    obtain ⟨⟨er1, c1⟩, h1⟩ := calcLocnParents_returns fl id n.Parentids er c
    unfold calcLocnStarter
    simp only [hn, h1]
    exact ih (fun i hi => hids i (List.mem_cons_of_mem _ hi)) _ _

theorem initLocnChildren_returns (g : Graph)
    (recur : Ptr → ElementRenderer R → Except Err (ElementRenderer R)) (ids : List Int)
    (hids : ∀ c ∈ ids, (∃ n, g.deref (g.concrete c) = .ok n) ∧
      ∀ er, ∃ er1, recur (g.concrete c) er = .ok er1) :
    ∀ (er : ElementRenderer R), ∃ er1, initLocnChildren g recur ids er = .ok er1 := by
  induction ids with
  | nil => intro er; exact ⟨_, rfl⟩
  | cons c rest ih =>
    intro er
    obtain ⟨⟨n, hn⟩, hrec⟩ := hids c (List.mem_cons_self _ _)
    unfold initLocnChildren
    simp only [hn]
    split
    · obtain ⟨er1, h1⟩ := hrec er
      simp only [h1]
      exact ih (fun i hi => hids i (List.mem_cons_of_mem _ hi)) _
    · exact ih (fun i hi => hids i (List.mem_cons_of_mem _ hi)) _

theorem initLocnCache_returns (fl : FloatOps R) (g : Graph) (rank depth : Ptr → Nat)
    (hwf : g.WellFormed rank depth) (fuel : Nat) :
    ∀ (p : Ptr) (er : ElementRenderer R), rank p < fuel → (∃ n, g.deref p = .ok n) →
      ∃ er1, initLocnCache fl g fuel p er = .ok er1 := by
  induction fuel with
  | zero => intro p er h; omega
  | succ fuel ih =>
    intro p er hlt hp
    obtain ⟨n, hn⟩ := hp
    have hkids : ∀ c ∈ n.Childids, ∃ m, g.deref (g.concrete c) = .ok m :=
      fun c hc => (child_resolves hwf hn hc).imp fun _ h => h.1
    unfold initLocnCache
    simp only [hn]
    split
    · have hfirst : ∃ er1, (if n.Genre ≠ "Solid" then
          calcLocnStarter fl g n.Childids er fl.negTenth32 else .ok er) = .ok er1 := by
        split
        · exact calcLocnStarter_returns fl g _ hkids _ _
        · exact ⟨_, rfl⟩
      obtain ⟨er1, h1⟩ := hfirst
      simp only [h1]
      apply initLocnChildren_returns
      intro c hc
      obtain ⟨m, hm, hr, _⟩ := child_resolves hwf hn hc
      exact ⟨⟨m, hm⟩, fun er2 => ih _ er2 (by omega) ⟨m, hm⟩⟩
    · exact ⟨_, rfl⟩

theorem initCachePhase_returns (fl : FloatOps R) (g : Graph) (rank depth : Ptr → Nat)
    (hwf : g.WellFormed rank depth) (fuel : Nat) (hfuel : ∀ p, rank p < fuel)
    (order : List Int) (horder : ∀ k ∈ order, ∃ p, g.ConcreteElements k = some p)
    (er : ElementRenderer R) : ∃ er1, initCachePhase fl g order fuel er = .ok er1 := by
  have hloop : ∀ er : ElementRenderer R, ∃ er1, initCacheLoop fl g fuel order er = .ok er1 := by
    induction order with
    | nil => intro er; exact ⟨_, rfl⟩
    | cons k rest ih =>
      intro er
      obtain ⟨p, hp⟩ := horder k (List.mem_cons_self _ _)
      obtain ⟨n, hn⟩ := hwf.registered k p hp
      have hrest := ih (fun i hi => horder i (List.mem_cons_of_mem _ hi))
      unfold initCacheLoop
      rw [concrete_of_registered hp]
      simp only [hn]
      split
      · obtain ⟨er1, h1⟩ := initLocnCache_returns fl g rank depth hwf fuel p er (hfuel p) ⟨n, hn⟩
        simp only [h1]
        exact hrest _
      · exact hrest _
  unfold initCachePhase
  split
  · obtain ⟨er1, h1⟩ := hloop er
    simp only [h1]
    exact ⟨_, rfl⟩
  · exact ⟨_, rfl⟩

theorem ApplyState_returns (g : Graph) (w : WorldApp R) (p : Ptr) (x : DisplayElementState)
    (b : Bool) (hp : ∃ n, g.deref p = .ok n) : ∃ w1, ApplyState g w p x b = .ok w1 := by
  obtain ⟨n, hn⟩ := hp
  unfold ApplyState
  simp only [hn]
  cases x <;> exact ⟨_, rfl⟩

theorem isChildElement_returns (g : Graph) (t : Ptr) (hclicked : ∃ p, g.lastClicked = .ok p)
    (ht : ∃ n, g.deref t = .ok n) : ∃ b, isChildElement g t = .ok b := by
  obtain ⟨p, hp⟩ := hclicked
  obtain ⟨n, hn⟩ := ht
  unfold isChildElement
  simp only [hp, hn]
  exact ⟨_, rfl⟩

theorem popCondition_returns (g : Graph) (t : Ptr)
    (hclicked : ∃ p n, g.lastClicked = .ok p ∧ g.deref p = .ok n)
    (ht : ∃ n, g.deref t = .ok n) : ∃ b, popCondition g t = .ok b := by
  obtain ⟨p, n, hp, hn⟩ := hclicked
  obtain ⟨b, hb⟩ := isChildElement_returns g t ⟨p, hp⟩ ht
  obtain ⟨m, hm⟩ := ht
  unfold popCondition
  simp only [hb, hm, hp, hn]
  split
  · exact ⟨_, rfl⟩
  · split <;> exact ⟨_, rfl⟩

theorem RemoveAll_returns_wf (g : Graph) (rank depth : Ptr → Nat)
    (hwf : g.WellFormed rank depth) (fuel : Nat) (hfuel : ∀ p, rank p < fuel)
    (id : Int) (w : WorldApp R) : ∃ w1, RemoveAll g fuel id w = .ok w1 := by
  refine RemoveAll_returns g
    (fun i => match g.ConcreteElements i with
      | some p => rank p
      | none => 0)
    hwf.registered ?_ fuel id w ?_
  · intro i p n hi hn c hc
    obtain ⟨q, hq, hr⟩ := hwf.children p n hn c hc
    simp only [hi, hq]
    exact hr
  · simp only
    split
    · exact hfuel _
    · exact Nat.lt_of_le_of_lt (Nat.zero_le _) (hfuel 0)

theorem hideChild_returns (g : Graph) (rank depth : Ptr → Nat)
    (hwf : g.WellFormed rank depth) (fuel : Nat) (hfuel : ∀ p, rank p < fuel)
    (hclicked : ∃ p, g.lastClicked = .ok p) (t : Ptr) (n : MashupDetailedElement)
    (hn : g.deref t = .ok n) (c : Int) (hc : c ∈ n.Childids) (w : WorldApp R) :
    ∃ w1, hideChild g fuel t c w = .ok w1 := by
  obtain ⟨b, hb⟩ := isChildElement_returns g t hclicked ⟨n, hn⟩
  obtain ⟨m, hm, _, _⟩ := child_resolves hwf hn hc
  unfold hideChild
  simp only [hb]
  split
  · exact ⟨_, rfl⟩
  · obtain ⟨w1, h1⟩ := ApplyState_returns g w (g.concrete c) .Hidden true ⟨m, hm⟩
    simp only [h1]
    exact RemoveAll_returns_wf g rank depth hwf fuel hfuel c w1

theorem deselectChild_returns (g : Graph) (rank depth : Ptr → Nat)
    (hwf : g.WellFormed rank depth) (fuel : Nat) (hfuel : ∀ p, rank p < fuel)
    (hclicked : ∃ p, g.lastClicked = .ok p) (t : Ptr) (n : MashupDetailedElement)
    (hn : g.deref t = .ok n) (c : Int) (hc : c ∈ n.Childids) (w : WorldApp R) :
    ∃ w1, deselectChild g fuel t c w = .ok w1 := by
  obtain ⟨b, hb⟩ := isChildElement_returns g t hclicked ⟨n, hn⟩
  obtain ⟨p, hp⟩ := hclicked
  obtain ⟨m, hm, _, _⟩ := child_resolves hwf hn hc
  unfold deselectChild
  simp only [hb, hp]
  split
  · exact ⟨_, rfl⟩
  · split
    · obtain ⟨w1, h1⟩ := ApplyState_returns g w (g.concrete c) .Hidden true ⟨m, hm⟩
      simp only [h1]
      exact RemoveAll_returns_wf g rank depth hwf fuel hfuel c w1
    · exact ⟨_, rfl⟩

theorem deselectElements_returns (g : Graph) (rank depth : Ptr → Nat)
    (hwf : g.WellFormed rank depth) (depthFuel : Nat) (hfuel : ∀ p, rank p < depthFuel)
    (hclicked : ∃ p n, g.lastClicked = .ok p ∧ g.deref p = .ok n) (fuel : Nat) :
    ∀ (t : Ptr) (w : WorldApp R), depth t < fuel → (∃ n, g.deref t = .ok n) →
      ∃ r, deselectElements g depthFuel fuel t w = .ok r := by
  obtain ⟨p, pn, hp, hpn⟩ := hclicked
  induction fuel with
  | zero => intro t w h; omega
  | succ fuel ih =>
    intro t w hlt ht
    obtain ⟨n, hn⟩ := ht
    obtain ⟨w1, h1⟩ := forIds_returns (deselectChild g depthFuel t) n.Childids
      (fun c hc w2 => deselectChild_returns g rank depth hwf depthFuel hfuel ⟨p, hp⟩ t n hn c hc w2)
      w
    have hup : ∀ a, n.Parentids.head? = some a →
        ∃ r, deselectElements g depthFuel fuel (g.concrete a) w1 = .ok r := by
      intro a ha
      obtain ⟨q, hq, hd⟩ := hwf.parent t n hn a ha
      rw [concrete_of_registered hq]
      exact ih q w1 (by omega) (hwf.registered a q hq)
    unfold deselectElements
    simp only [hn, h1]
    split
    · exact ⟨_, rfl⟩
    · rename_i parent0 rest hpar
      have hhead : n.Parentids.head? = some parent0 := by rw [hpar]; rfl
      simp only [hp, hpn]
      split
      · exact hup parent0 hhead
      · split
        · exact ⟨_, rfl⟩
        · exact hup parent0 hhead

theorem popPhase_returns (g : Graph) (rank depth : Ptr → Nat)
    (hwf : g.WellFormed rank depth) (fuel : Nat)
    (hfuel : ∀ p, rank p < fuel ∧ depth p < fuel)
    (hclicked : ∃ p n, g.lastClicked = .ok p ∧ g.deref p = .ok n)
    (er : ElementRenderer R) (w : WorldApp R)
    (hstack : ∀ top, er.clickedElements.getLast? = some top →
      ∃ t, g.deref top.clickedElement = .ok t) :
    ∃ r, popPhase g fuel er w = .ok r := by
  unfold popPhase
  split
  · cases hlast : er.clickedElements.getLast? with
    | none =>
      rename_i hne
      exfalso
      rw [List.getLast?_eq_none_iff] at hlast
      simp [ElementRenderer.isEmpty, hlast] at hne
    | some top =>
      obtain ⟨t, ht⟩ := hstack top hlast
      obtain ⟨b, hb⟩ := popCondition_returns g top.clickedElement hclicked ⟨t, ht⟩
      simp only [ElementRenderer.top, ElementRenderer.pop, hlast, hb]
      cases b with
      | false => exact ⟨_, rfl⟩
      | true =>
        obtain ⟨p, pn, hp, hpn⟩ := hclicked
        simp only [ht]
        obtain ⟨w1, h1⟩ := forIds_returns (hideChild g fuel top.clickedElement) t.Childids
          (fun c hc w2 => hideChild_returns g rank depth hwf fuel (fun q => (hfuel q).1)
            ⟨p, hp⟩ top.clickedElement t ht c hc w2) w
        simp only [h1]
        obtain ⟨⟨w2, r2⟩, h2⟩ := deselectElements_returns g rank depth hwf fuel
          (fun q => (hfuel q).1) ⟨p, pn, hp, hpn⟩ fuel top.clickedElement w1
          (hfuel _).2 ⟨t, ht⟩
        simp only [h2]
        exact ⟨_, rfl⟩
  · exact ⟨_, rfl⟩

theorem pushPhase_returns (g : Graph) (rank depth : Ptr → Nat)
    (hwf : g.WellFormed rank depth) (er : ElementRenderer R) (w : WorldApp R) (p : Ptr)
    (n : MashupDetailedElement) (hp : g.lastClicked = .ok p) (hn : g.deref p = .ok n)
    (hmesh : n.focusable = true → (w.meshComposite p n.Name).isSome = true) :
    ∃ r, pushPhase g er w = .ok r := by
  unfold pushPhase
  simp only [hp, hn]
  split
  · rename_i hg
    have hf : n.focusable = true := by
      simpa [MashupDetailedElement.focusable] using hg
    obtain ⟨mesh, hm⟩ := Option.isSome_iff_exists.1 (hmesh hf)
    simp only [hm]
    obtain ⟨w1, h1⟩ := forIds_returns (showChild g) n.Childids
      (fun c hc w2 => by
        obtain ⟨m, hcm, _, _⟩ := child_resolves hwf hn hc
        unfold showChild
        simp only [hcm]
        split
        · obtain ⟨w3, h3⟩ := ApplyState_returns g w2 (g.concrete c) .Hidden false ⟨m, hcm⟩
          simp only [h3]
          exact ApplyState_returns g w3 (g.concrete c) .Clicked true ⟨m, hcm⟩
        · exact ⟨_, rfl⟩) w
    simp only [h1]
    exact ⟨_, rfl⟩
  · exact ⟨_, rfl⟩

/-- On a well-formed graph `InitRenderLoop` returns, once the budget exceeds
every rank and depth, when the keys ranged over are registered, the stack top
and the last clicked element resolve, and a clicked element that is neither
Solid nor Space has a mesh under its display name. -/
theorem InitRenderLoop_returns (fl : FloatOps R) (g : Graph) (rank depth : Ptr → Nat)
    (hwf : g.WellFormed rank depth) (fuel : Nat)
    (hfuel : ∀ p, rank p < fuel ∧ depth p < fuel)
    (order : List Int) (horder : ∀ k ∈ order, ∃ p, g.ConcreteElements k = some p)
    (er : ElementRenderer R) (w : WorldApp R)
    (hstack : ∀ top, er.clickedElements.getLast? = some top →
      ∃ t, g.deref top.clickedElement = .ok t)
    (p : Ptr) (n : MashupDetailedElement) (hp : g.lastClicked = .ok p)
    (hn : g.deref p = .ok n)
    (hmesh : n.focusable = true → (w.meshComposite p n.Name).isSome = true) :
    ∃ r, InitRenderLoop fl g order fuel er w = .ok r := by
  obtain ⟨er1, h1⟩ := initCachePhase_returns fl g rank depth hwf fuel (fun q => (hfuel q).1)
    order horder er
  have hst := initCachePhase_stack fl g order fuel er er1 h1
  obtain ⟨⟨er2, w2⟩, h2⟩ := popPhase_returns g rank depth hwf fuel hfuel ⟨p, n, hp, hn⟩ er1 w
    (by rw [hst]; exact hstack)
  have hframe := (popPhase_effect g fuel er1 er2 w w2 h2).1
  obtain ⟨⟨er3, w3⟩, h3⟩ := pushPhase_returns g rank depth hwf er2 w2 p n hp hn
    (by rw [hframe.2.1]; exact hmesh)
  unfold InitRenderLoop
  simp only [h1, h2, h3]
  exact ⟨_, rfl⟩

/-! ## Push and pop of one call -/

/-- C6 (counterexample): c is clicked (neither Solid nor Space) and has the
hidden Solid child s; after `InitRenderLoop` the pair for c is on the stack, but
s is still hidden and not marked clicked. -/
theorem InitRenderLoop_solid_child_stays_hidden :
    (demoGraph [4]).deref 4 = .ok ⟨4, "c", "DataFlow", "Container", "", [2], [5], false⟩ ∧
    (demoGraph [4]).concrete 5 = 5 ∧
    (InitRenderLoop tenths (demoGraph [4]) [] 10 (demoRenderer [] []) (demoWorld [4] [5])).map
        (fun r => (r.1.clickedElements, r.2.1.Hidden 5, r.2.1.Clicked 5)) =
      .ok ([⟨4, ⟨4, 0, 0⟩⟩], true, false) :=
  ⟨rfl, rfl, rfl⟩

/-- C6 (amended): let the last clicked element N be neither Solid nor Space.
On a well-formed graph, with a budget above every rank and depth, registered
keys, a resolving stack top and a mesh for N, `InitRenderLoop` returns.  And
whenever it returns, the pair of N and the position of the mesh N has under its
display name is on top of the stack, above the previous stack (less its top
when that was popped), and every direct child of N that is not Solid has
`Hidden` cleared and `Clicked` set. -/
theorem InitRenderLoop_pushes_clicked (fl : FloatOps R) (g : Graph) (order : List Int)
    (fuel : Nat) (er : ElementRenderer R) (w : WorldApp R) (p : Ptr)
    (n : MashupDetailedElement)
    (hp : g.lastClicked = .ok p) (hn : g.deref p = .ok n)
    (hgenre : n.Genre ≠ "Solid" ∧ n.Genre ≠ "Space") :
    (∀ rank depth : Ptr → Nat, g.WellFormed rank depth →
      (∀ q, rank q < fuel ∧ depth q < fuel) →
      (∀ k ∈ order, ∃ q, g.ConcreteElements k = some q) →
      (∀ top, er.clickedElements.getLast? = some top →
        ∃ t, g.deref top.clickedElement = .ok t) →
      (w.meshComposite p n.Name).isSome = true →
      ∃ r, InitRenderLoop fl g order fuel er w = .ok r) ∧
    ∀ r, InitRenderLoop fl g order fuel er w = .ok r →
      ∃ mesh, w.meshComposite p n.Name = some mesh ∧
        r.1.clickedElements =
          (if popsTop g er.clickedElements then er.clickedElements.dropLast else er.clickedElements) ++
            [{ clickedElement := p, center := w.Position mesh }] ∧
        ∀ c ∈ n.Childids, ∃ m, g.deref (g.concrete c) = .ok m ∧
          (m.Genre ≠ "Solid" →
            r.2.1.Hidden (g.concrete c) = false ∧ r.2.1.Clicked (g.concrete c) = true) := by
  constructor
  · intro rank depth hwf hfuel horder hstack hmesh
    exact InitRenderLoop_returns fl g rank depth hwf fuel hfuel order horder er w hstack p n
      hp hn (fun _ => hmesh)
  · intro r h
    obtain ⟨er1, w1, b⟩ := r
    obtain ⟨p1, n1, hp1, hn1, _, hcase⟩ := InitRenderLoop_effect fl g order fuel er er1 w w1 b h
    rw [hp] at hp1
    cases hp1
    rw [hn] at hn1
    cases hn1
    rcases hcase with ⟨_, mesh, hmesh, hst, hch⟩ | ⟨hf, _⟩
    · exact ⟨mesh, hmesh, hst, hch⟩
    · exfalso
      simp only [MashupDetailedElement.focusable, decide_eq_false_iff_not] at hf
      exact hf hgenre

/-- C6 (witness): a click on a, whose child c is hidden, with root on the
stack. -/
theorem InitRenderLoop_pushes_clicked_witness :
    ∃ r, InitRenderLoop tenths (demoGraph [1, 2]) [] 10
          (demoRenderer [] [⟨1, ⟨1, 0, 0⟩⟩]) (demoWorld [1, 2] [4]) = .ok r ∧
      ∃ mesh, (demoWorld [1, 2] [4]).meshComposite 2 "a" = some mesh ∧
        r.1.clickedElements =
          (if popsTop (demoGraph [1, 2]) [⟨1, ⟨1, 0, 0⟩⟩]
            then List.dropLast [⟨1, ⟨1, 0, 0⟩⟩] else [⟨1, ⟨1, 0, 0⟩⟩]) ++
            [{ clickedElement := 2, center := (demoWorld [1, 2] [4]).Position mesh }] ∧
        ∀ c ∈ [(4 : Int)], ∃ m, (demoGraph [1, 2]).deref ((demoGraph [1, 2]).concrete c) = .ok m ∧
          (m.Genre ≠ "Solid" →
            r.2.1.Hidden ((demoGraph [1, 2]).concrete c) = false ∧
              r.2.1.Clicked ((demoGraph [1, 2]).concrete c) = true) :=
  have key := InitRenderLoop_pushes_clicked tenths (demoGraph [1, 2]) [] 10
    (demoRenderer [] [⟨1, ⟨1, 0, 0⟩⟩]) (demoWorld [1, 2] [4]) 2
    ⟨2, "a", "DataFlowGroup", "Container", "", [1], [4], false⟩ rfl rfl (by decide)
  have hret := key.1 demoPtrRank demoDepth (demoGraph_wellFormed [1, 2]) demo_budget
    (by intro k hk; cases hk)
    (by
      intro top htop
      cases htop
      exact ⟨_, rfl⟩)
    rfl
  hret.elim fun r hr => ⟨r, hr, key.2 r hr⟩

/-- The value of the condition of line 190 once its operands resolve. -/
theorem popCondition_value (g : Graph) (top p : Ptr) (n : MashupDetailedElement) (c : Bool)
    (hp : g.lastClicked = .ok p) (hn : g.deref p = .ok n)
    (hc : popCondition g top = .ok c) :
    ∃ t, g.deref top = .ok t ∧
      (c = true ↔ ((t.Childids.any (fun childID => p == g.concrete childID)) = false ∧
        t.Genre ≠ "Solid" ∧ n.Genre ≠ "Space")) := by
  unfold popCondition isChildElement at hc
  rw [hp] at hc
  simp only at hc
  cases ht : g.deref top with
  | error e => rw [ht] at hc; simp at hc
  | ok t =>
    refine ⟨t, rfl, ?_⟩
    rw [ht] at hc
    simp only [hn] at hc
    by_cases hch : (t.Childids.any (fun childID => p == g.concrete childID)) = true
    · simp only [hch, if_true] at hc
      cases hc
      simp [hch]
    · simp only [hch] at hc
      by_cases hs : t.Genre = "Solid"
      · simp [hs] at hc
        cases hc
        simp [hs]
      · simp only [ne_eq, hs, not_false_eq_true, if_true] at hc
        cases hc
        simp only [Bool.not_eq_true] at hch
        simp [hch, hs]

/-- C8 (counterexample): root is on top of the stack and is an ancestor of the
clicked element c (its grandparent), yet root is popped: the stack after the
call holds c only. -/
theorem InitRenderLoop_pops_grandparent :
    onParentChain (demoGraph [1, 4]) 10 1 4 = true ∧
    (InitRenderLoop tenths (demoGraph [1, 4]) [] 10
        (demoRenderer [] [⟨1, ⟨1, 0, 0⟩⟩]) (demoWorld [1, 4] [])).map
        (fun r => r.1.clickedElements) = .ok [⟨4, ⟨4, 0, 0⟩⟩] :=
  ⟨rfl, rfl⟩

/-- C8 (amended): let T be the top of the selection stack and N the last
clicked element.  On a well-formed graph, with a budget above every rank and
depth, registered keys, and a mesh for N when N is neither Solid nor Space,
`InitRenderLoop` returns.  And whenever it returns, T is popped exactly when N
is not the element behind one of the child ids of T, the genre of T is not
Solid and the genre of N is not Space; nothing but T is popped, and at most one
entry is pushed above what is left. -/
theorem InitRenderLoop_pops_top_iff (fl : FloatOps R) (g : Graph) (order : List Int)
    (fuel : Nat) (er : ElementRenderer R) (w : WorldApp R)
    (top : ClickedG3nDetailElement R)
    (htop : er.clickedElements.getLast? = some top) :
    (∀ (rank depth : Ptr → Nat) (p : Ptr) (n t : MashupDetailedElement),
      g.WellFormed rank depth → (∀ q, rank q < fuel ∧ depth q < fuel) →
      (∀ k ∈ order, ∃ q, g.ConcreteElements k = some q) →
      g.deref top.clickedElement = .ok t → g.lastClicked = .ok p → g.deref p = .ok n →
      (n.focusable = true → (w.meshComposite p n.Name).isSome = true) →
      ∃ r, InitRenderLoop fl g order fuel er w = .ok r) ∧
    ∀ r, InitRenderLoop fl g order fuel er w = .ok r →
      ∃ t p n pushed, g.deref top.clickedElement = .ok t ∧ g.lastClicked = .ok p ∧
        g.deref p = .ok n ∧ pushed.length ≤ 1 ∧
        (((t.Childids.any (fun childID => p == g.concrete childID)) = false ∧
            t.Genre ≠ "Solid" ∧ n.Genre ≠ "Space") →
          r.1.clickedElements = er.clickedElements.dropLast ++ pushed) ∧
        (¬ ((t.Childids.any (fun childID => p == g.concrete childID)) = false ∧
            t.Genre ≠ "Solid" ∧ n.Genre ≠ "Space") →
          r.1.clickedElements = er.clickedElements ++ pushed) := by
  constructor
  · intro rank depth p n t hwf hfuel horder ht hp hn hmesh
    refine InitRenderLoop_returns fl g rank depth hwf fuel hfuel order horder er w ?_ p n
      hp hn hmesh
    intro top1 htop1
    rw [htop] at htop1
    cases htop1
    exact ⟨t, ht⟩
  · intro r h
    obtain ⟨er1, w1, b⟩ := r
    obtain ⟨p, n, hp, hn, hcond, hcase⟩ := InitRenderLoop_effect fl g order fuel er er1 w w1 b h
    obtain ⟨c, hc⟩ := hcond top htop
    obtain ⟨t, ht, hiff⟩ := popCondition_value g top.clickedElement p n c hp hn hc
    have hpops : popsTop g er.clickedElements = c := by
      unfold popsTop
      rw [htop]
      simp only [hc]
      cases c <;> rfl
    have key : ∀ pushed : List (ClickedG3nDetailElement R),
        er1.clickedElements =
          (if popsTop g er.clickedElements then er.clickedElements.dropLast else er.clickedElements) ++ pushed →
        (((t.Childids.any (fun childID => p == g.concrete childID)) = false ∧
            t.Genre ≠ "Solid" ∧ n.Genre ≠ "Space") →
          er1.clickedElements = er.clickedElements.dropLast ++ pushed) ∧
        (¬ ((t.Childids.any (fun childID => p == g.concrete childID)) = false ∧
            t.Genre ≠ "Solid" ∧ n.Genre ≠ "Space") →
          er1.clickedElements = er.clickedElements ++ pushed) := by
      intro pushed hst
      rw [hpops] at hst
      constructor
      · intro hcnd
        rw [hiff.2 hcnd] at hst
        simpa using hst
      · intro hcnd
        have hcf : c = false := by
          cases c
          · rfl
          · exact absurd (hiff.1 rfl) hcnd
        rw [hcf] at hst
        simpa using hst
    rcases hcase with ⟨_, mesh, _, hst, _⟩ | ⟨_, hst⟩
    · exact ⟨t, p, n, [{ clickedElement := p, center := w.Position mesh }], ht, hp, hn,
        by simp, key _ hst⟩
    · exact ⟨t, p, n, [], ht, hp, hn, by simp, key [] (by simpa using hst)⟩

/-- C8 (witness): root on the stack, its grandchild c clicked. -/
theorem InitRenderLoop_pops_top_iff_witness :
    ∃ r, InitRenderLoop tenths (demoGraph [1, 4]) [] 10
          (demoRenderer [] [⟨1, ⟨1, 0, 0⟩⟩]) (demoWorld [1, 4] []) = .ok r ∧
      ∃ t p n pushed, (demoGraph [1, 4]).deref 1 = .ok t ∧ (demoGraph [1, 4]).lastClicked = .ok p ∧
        (demoGraph [1, 4]).deref p = .ok n ∧ List.length pushed ≤ 1 ∧
        (((t.Childids.any (fun childID => p == (demoGraph [1, 4]).concrete childID)) = false ∧
            t.Genre ≠ "Solid" ∧ n.Genre ≠ "Space") →
          r.1.clickedElements = List.dropLast [⟨1, ⟨1, 0, 0⟩⟩] ++ pushed) ∧
        (¬ ((t.Childids.any (fun childID => p == (demoGraph [1, 4]).concrete childID)) = false ∧
            t.Genre ≠ "Solid" ∧ n.Genre ≠ "Space") →
          r.1.clickedElements = [⟨1, ⟨1, 0, 0⟩⟩] ++ pushed) :=
  have key := InitRenderLoop_pops_top_iff tenths (demoGraph [1, 4]) [] 10
    (demoRenderer [] [⟨1, ⟨1, 0, 0⟩⟩]) (demoWorld [1, 4] []) ⟨1, ⟨1, 0, 0⟩⟩ rfl
  have hret := key.1 demoPtrRank demoDepth 4
    ⟨4, "c", "DataFlow", "Container", "", [2], [5], false⟩
    ⟨1, "root", "Argosy", "Container", "", [], [2, 3], false⟩
    (demoGraph_wellFormed [1, 4]) demo_budget (by intro k hk; cases hk) rfl rfl rfl
    (fun _ => rfl)
  hret.elim fun r hr => ⟨r, hr, key.2 r hr⟩

/-! ## RenderElement: redraw of the focus -/

theorem grown_refl (w : WorldApp R) : w.grown w :=
  ⟨fun _ _ _ h => h, fun _ h => h, le_refl _⟩

theorem grown_trans {a b c : WorldApp R} (h1 : a.grown b) (h2 : b.grown c) : a.grown c :=
  ⟨fun q nm h hh => h2.1 q nm h (h1.1 q nm h hh), fun h hh => h2.2.1 h (h1.2.1 h hh),
    le_trans h1.2.2 h2.2.2⟩

theorem UpsertToScene_mem (w : WorldApp R) (h : Handle) : h ∈ (UpsertToScene w h).scene := by
  unfold UpsertToScene
  split
  · assumption
  · simp

theorem UpsertToScene_grown (w : WorldApp R) (h : Handle) : w.grown (UpsertToScene w h) := by
  unfold UpsertToScene
  split
  · exact grown_refl w
  · exact ⟨fun _ _ _ hh => hh, fun x hx => by simp [hx], le_refl _⟩

theorem UpsertToScene_of_mem (w : WorldApp R) (h : Handle) (hm : h ∈ w.scene) :
    UpsertToScene w h = w := by
  unfold UpsertToScene
  simp [hm]

theorem UpsertToScene_fields (w : WorldApp R) (h : Handle) :
    (UpsertToScene w h).meshComposite = w.meshComposite ∧
    (UpsertToScene w h).nextHandle = w.nextHandle := by
  unfold UpsertToScene
  split <;> exact ⟨rfl, rfl⟩

theorem NewSolidAtPosition_effect (g : Graph) (w w1 : WorldApp R) (p : Ptr)
    (vpos : Option (Vector3 R)) (h : Handle)
    (hnew : NewSolidAtPosition g w p vpos = .ok (w1, h)) :
    h = w.nextHandle ∧ w1.nextHandle = w.nextHandle + 1 ∧
    w1.meshComposite = w.meshComposite ∧ w1.scene = w.scene := by
  unfold NewSolidAtPosition at hnew
  split at hnew
  · cases hnew
  · simp only at hnew
    split at hnew
    · cases hnew
    · cases hnew
      unfold aliasColor
      split
      · exact ⟨rfl, rfl, rfl, rfl⟩
      · split
        · exact ⟨rfl, rfl, rfl, rfl⟩
        · split <;> exact ⟨rfl, rfl, rfl, rfl⟩

/-- One iteration of the child loop of `RenderElement`: handles and scene only
grow; an eligible child ends with a handle that is in the scene; a mesh created
by the iteration is the handle of that child. -/
theorem renderChild_effect (fl : FloatOps R) (g : Graph) (c : Int)
    (s s1 : ElementRenderer R × WorldApp R) (h : renderChild fl g c s = .ok s1) :
    ∃ el, g.deref (g.concrete c) = .ok el ∧ s.2.grown s1.2 ∧
      (el.eligible → ∃ m, s1.2.meshComposite (g.concrete c) el.Name = some m ∧
        m ∈ s1.2.scene) ∧
      (∀ m, s.2.nextHandle ≤ m → m < s1.2.nextHandle →
        s1.2.meshComposite (g.concrete c) el.Name = some m) := by
  unfold renderChild at h
  split at h
  · cases h
  · rename_i _ el hel
    refine ⟨el, hel, ?_⟩
    split at h
    · rename_i helig
      split at h
      · rename_i hnone
        split at h
        · cases h
        · rename_i _ er1 nextPos hnc
          split at h
          · cases h
          · rename_i _ w1 solidMesh hnew
            cases h
            obtain ⟨hh, hnext, hmc, hsc⟩ := NewSolidAtPosition_effect g _ _ _ _ _ hnew
            have hup := UpsertToScene_fields w1 solidMesh
            refine ⟨⟨?_, ?_, ?_⟩, ?_, ?_⟩
            · intro q nm m hm
              simp only [SetNamedMesh]
              split
              · rename_i hq
                rw [hq.1, hq.2, hnone] at hm
                cases hm
              · rw [hup.1, hmc]; exact hm
            · intro m hm
              simp only [SetNamedMesh]
              exact (UpsertToScene_grown w1 solidMesh).2.1 m (hsc ▸ hm)
            · simp only [SetNamedMesh]
              rw [hup.2, hnext]
              exact Nat.le_succ _
            · intro _
              refine ⟨solidMesh, by simp [SetNamedMesh], ?_⟩
              simp only [SetNamedMesh]
              exact UpsertToScene_mem w1 solidMesh
            · intro m hm1 hm2
              simp only [SetNamedMesh] at hm2 ⊢
              rw [hup.2, hnext] at hm2
              have : m = solidMesh := by
                rw [hh]
                exact Nat.le_antisymm (Nat.lt_succ_iff.1 hm2) hm1
              simp [this]
      · rename_i _ mesh hmesh
        cases h
        have hup := UpsertToScene_fields s.2 mesh
        refine ⟨UpsertToScene_grown _ _, ?_, ?_⟩
        · intro _
          exact ⟨mesh, by rw [hup.1]; exact hmesh, UpsertToScene_mem _ _⟩
        · intro m hm1 hm2
          rw [hup.2] at hm2
          exact absurd hm2 (Nat.not_lt.2 hm1)
    · rename_i hne
      cases h
      exact ⟨grown_refl _, fun he => absurd he hne,
        fun m hm1 hm2 => absurd hm2 (Nat.not_lt.2 hm1)⟩

/-- The child loop of `RenderElement`: handles and scene only grow; afterwards
every eligible child in the list has a handle that is in the scene, and every
mesh created by the loop is the handle of a child in the list. -/
theorem renderChildren_effect (fl : FloatOps R) (g : Graph) (ids : List Int) :
    ∀ (s s1 : ElementRenderer R × WorldApp R), renderChildren fl g ids s = .ok s1 →
      s.2.grown s1.2 ∧
      (∀ c ∈ ids, ∃ el, g.deref (g.concrete c) = .ok el ∧
        (el.eligible → ∃ m, s1.2.meshComposite (g.concrete c) el.Name = some m ∧
          m ∈ s1.2.scene)) ∧
      (∀ m, s.2.nextHandle ≤ m → m < s1.2.nextHandle →
        ∃ c ∈ ids, ∃ el, g.deref (g.concrete c) = .ok el ∧
          s1.2.meshComposite (g.concrete c) el.Name = some m) := by
  induction ids with
  | nil =>
    intro s s1 h
    simp only [renderChildren] at h
    cases h
    exact ⟨grown_refl _, by simp, fun m h1 h2 => absurd h2 (Nat.not_lt.2 h1)⟩
  | cons c rest ih =>
    intro s s1 h
    unfold renderChildren at h
    split at h
    · cases h
    · rename_i _ s2 hstep
      obtain ⟨el, hel, hg, hset, hnew⟩ := renderChild_effect fl g c s s2 hstep
      obtain ⟨hg2, hall, hnew2⟩ := ih s2 s1 h
      refine ⟨grown_trans hg hg2, ?_, ?_⟩
      · intro c1 hc1
        rcases List.mem_cons.1 hc1 with rfl | hmem
        · refine ⟨el, hel, fun he => ?_⟩
          obtain ⟨m, hm1, hm2⟩ := hset he
          exact ⟨m, hg2.1 _ _ _ hm1, hg2.2.1 _ hm2⟩
        · exact hall c1 hmem
      · intro m hm1 hm2
        by_cases hlt : m < s2.2.nextHandle
        · exact ⟨c, List.mem_cons_self _ _, el, hel, hg2.1 _ _ _ (hnew m hm1 hlt)⟩
        · obtain ⟨c1, hc1, el1, hel1, hm⟩ := hnew2 m (Nat.not_lt.1 hlt) hm2
          exact ⟨c1, List.mem_cons_of_mem _ hc1, el1, hel1, hm⟩

/-- When every eligible child in the list has a handle that is in the scene,
the child loop of `RenderElement` returns the state it was given. -/
theorem renderChildren_settled (fl : FloatOps R) (g : Graph) (ids : List Int)
    (s : ElementRenderer R × WorldApp R)
    (hall : ∀ c ∈ ids, ∃ el, g.deref (g.concrete c) = .ok el ∧
      (el.eligible → ∃ m, s.2.meshComposite (g.concrete c) el.Name = some m ∧
        m ∈ s.2.scene)) :
    renderChildren fl g ids s = .ok s := by
  induction ids with
  | nil => rfl
  | cons c rest ih =>
    obtain ⟨el, hel, hset⟩ := hall c (List.mem_cons_self _ _)
    have hstep : renderChild fl g c s = .ok s := by
      unfold renderChild
      simp only [hel]
      split
      · rename_i helig
        obtain ⟨m, hm1, hm2⟩ := hset helig
        simp only [hm1, UpsertToScene_of_mem _ _ hm2]
      · rfl
    unfold renderChildren
    simp only [hstep]
    exact ih (fun c1 hc1 => hall c1 (List.mem_cons_of_mem _ hc1))

/-- C9: when g3n is the last clicked element and has a mesh, and a first
`RenderElement` call for g3n returns, every mesh that call created is the
handle of one of the children, and a second call returns with the same
renderer and creates no mesh: the mesh counter, every attached handle and the
scene are as the first call left them (each child mesh is upserted again, which
changes nothing). -/
theorem RenderElement_redraw_idempotent (fl : FloatOps R) (g : Graph) (er : ElementRenderer R)
    (w : WorldApp R) (g3n : Ptr) (n : MashupDetailedElement)
    (r : ElementRenderer R × WorldApp R × Bool)
    (hclicked : g.lastClicked = .ok g3n) (hn : g.deref g3n = .ok n)
    (hmesh : (w.meshComposite g3n n.Name).isSome = true)
    (h : RenderElement fl g er w g3n = .ok r) :
    (∀ m, w.nextHandle ≤ m → m < r.2.1.nextHandle →
      ∃ c ∈ n.Childids, ∃ el, g.deref (g.concrete c) = .ok el ∧
        r.2.1.meshComposite (g.concrete c) el.Name = some m) ∧
    ∃ w2, RenderElement fl g r.1 r.2.1 g3n = .ok (r.1, w2, true) ∧
      w2.nextHandle = r.2.1.nextHandle ∧ w2.meshComposite = r.2.1.meshComposite ∧
      w2.scene = r.2.1.scene ∧ w2.Position = r.2.1.Position := by
  obtain ⟨er1, w1, b⟩ := r
  unfold RenderElement at h
  simp only [hclicked, hn, hmesh, and_self, if_true] at h
  split at h
  · cases h
  · rename_i _ era wa hloop
    cases h
    obtain ⟨hg, hall, hnew⟩ := renderChildren_effect fl g n.Childids _ _ hloop
    refine ⟨hnew, SetColor w1 g3n (.named "darkred") .full, ?_, rfl, rfl, rfl, rfl⟩
    obtain ⟨m0, hm0⟩ := Option.isSome_iff_exists.1 hmesh
    have hm1 : w1.meshComposite g3n n.Name = some m0 := hg.1 g3n n.Name m0 hm0
    unfold RenderElement
    simp only [hclicked, hn, hm1, Option.isSome_some, and_self, if_true]
    rw [renderChildren_settled fl g n.Childids (er1, SetColor w1 g3n (.named "darkred") .full)
      hall]

/-- C9 (witness): root is clicked and meshed, its children a and b are not
yet meshed and have cached positions. -/
theorem RenderElement_redraw_idempotent_witness :
    ∃ r, RenderElement tenths (demoGraph [1])
          (demoRenderer [(2, ⟨0, 0, 1⟩), (3, ⟨0, 0, 2⟩)] []) (demoWorld [1] []) 1 = .ok r ∧
      r.2.1.nextHandle = 102 ∧
      (∀ m, (demoWorld [1] []).nextHandle ≤ m → m < r.2.1.nextHandle →
        ∃ c ∈ [(2 : Int), 3], ∃ el,
          (demoGraph [1]).deref ((demoGraph [1]).concrete c) = .ok el ∧
          r.2.1.meshComposite ((demoGraph [1]).concrete c) el.Name = some m) ∧
      ∃ w2, RenderElement tenths (demoGraph [1]) r.1 r.2.1 1 = .ok (r.1, w2, true) ∧
        w2.nextHandle = r.2.1.nextHandle ∧ w2.meshComposite = r.2.1.meshComposite ∧
        w2.scene = r.2.1.scene ∧ w2.Position = r.2.1.Position :=
  ⟨_, rfl, rfl, RenderElement_redraw_idempotent tenths (demoGraph [1])
    (demoRenderer [(2, ⟨0, 0, 1⟩), (3, ⟨0, 0, 2⟩)] []) (demoWorld [1] []) 1
    ⟨1, "root", "Argosy", "Container", "", [], [2, 3], false⟩ _ rfl rfl rfl rfl⟩

/-- C10 (evaluation at the failing input): the clicked element s has no
children; `RenderElement` for b, which is not the focus, returns without a
`SetColor` call, so b has no colour afterwards, as before. -/
theorem RenderElement_no_color_without_children :
    (demoGraph [5]).deref 5 = .ok ⟨5, "s", "", "Solid", "", [4], [], false⟩ ∧
    (demoWorld [5] []).color 3 = none ∧
    (RenderElement tenths (demoGraph [5]) (demoRenderer [] []) (demoWorld [5] []) 3).map
      (fun r => (r.2.1.color 3, r.2.2)) = .ok (none, true) :=
  ⟨rfl, rfl, rfl⟩

/-! ## RenderElement: the returned flag -/

/-- The colour loop only ever returns the value true. -/
theorem colorLoop_result (g : Graph) (g3n : Ptr) (color : Color) (ids : List Int)
    (w w1 : WorldApp R) (r : Bool) (h : colorLoop g g3n color ids w = (w1, some r)) :
    r = true := by
  induction ids generalizing w with
  | nil => simp [colorLoop] at h
  | cons c rest ih =>
    unfold colorLoop at h
    split at h
    · cases h; rfl
    · exact ih _ h

/-- Every return of `RenderElement` carries the value true. -/
theorem RenderElement_result_true (fl : FloatOps R) (g : Graph) (er er1 : ElementRenderer R)
    (w w1 : WorldApp R) (g3n : Ptr) (b : Bool)
    (h : RenderElement fl g er w g3n = .ok (er1, w1, b)) : b = true := by
  unfold RenderElement at h
  split at h
  · cases h
  · split at h
    · cases h
    · split at h
      · split at h
        · cases h
        · cases h; rfl
      · simp only at h
        split at h
        · cases h
        · split at h
          · rename_i w2 r hloop
            cases h
            exact colorLoop_result _ _ _ _ _ _ _ hloop
          · cases h; rfl

/-- C1 (evaluation at the failing input): with root the only clicked element
and meshed, `RenderElement` for element c, which is neither the last clicked
element nor one of its children, returns true. -/
theorem RenderElement_other_element_true :
    (demoGraph [1]).lastClicked = .ok 1 ∧
    (RenderElement tenths (demoGraph [1]) (demoRenderer [] []) (demoWorld [1] []) 4).map
      (fun r => r.2.2) = .ok true :=
  ⟨rfl, rfl⟩

/-! ## NextCoordinate: first call and lookup phase -/

/-- C12: in the phase `iOffset = 0`, `NextCoordinate` for a node returns the
origin, sets the phase to 1 and the counter to 0, and leaves a cache whose only
entry maps the id of the node to the origin, whatever the cache held before. -/
theorem NextCoordinate_first_call (fl : FloatOps R) (g : Graph) (er : ElementRenderer R)
    (g3n : Ptr) (n : MashupDetailedElement) (totalElements : Int)
    (hphase : er.iOffset = 0) (hn : g.deref g3n = .ok n) :
    ∃ er1, NextCoordinate fl g er g3n totalElements =
        .ok (er1, some ⟨fl.zero32, fl.zero32, fl.zero32⟩) ∧
      er1.iOffset = 1 ∧ er1.counter = fl.zero64 ∧
      er1.LocationCache = some [(n.Id, ⟨fl.zero32, fl.zero32, fl.zero32⟩)] ∧
      cacheKeys er1.LocationCache = [n.Id] ∧
      ∀ k, er1.cacheLookup k =
        if k = n.Id then some ⟨fl.zero32, fl.zero32, fl.zero32⟩ else none := by
  refine ⟨{ iOffset := 1, counter := fl.zero64, totalElements := totalElements,
            LocationCache := some [(n.Id, ⟨fl.zero32, fl.zero32, fl.zero32⟩)],
            clickedElements := er.clickedElements }, ?_, rfl, rfl, rfl, ?_, ?_⟩
  · unfold NextCoordinate
    simp [hphase, hn]
  · simp [cacheKeys]
  · intro k
    simp only [ElementRenderer.cacheLookup, cacheGet]
    by_cases hk : k = n.Id
    · simp [hk]
    · have : ¬ n.Id = k := fun h => hk h.symm
      simp [hk, this]

/-- C12 (witness): the first call, for root, on a renderer whose cache holds
an entry for another id. -/
theorem NextCoordinate_first_call_witness :
    ∃ er1, NextCoordinate tenths (demoGraph [])
        { iOffset := 0, counter := 5, totalElements := 0,
          LocationCache := some [(3, ⟨1, 1, 1⟩)], clickedElements := [] } 1 4 =
        .ok (er1, some ⟨tenths.zero32, tenths.zero32, tenths.zero32⟩) ∧
      er1.iOffset = 1 ∧ er1.counter = tenths.zero64 ∧
      er1.LocationCache = some [((1 : Int), ⟨tenths.zero32, tenths.zero32, tenths.zero32⟩)] ∧
      cacheKeys er1.LocationCache = [(1 : Int)] ∧
      ∀ k, er1.cacheLookup k =
        if k = (1 : Int) then some ⟨tenths.zero32, tenths.zero32, tenths.zero32⟩ else none :=
  NextCoordinate_first_call tenths (demoGraph [])
    { iOffset := 0, counter := 5, totalElements := 0,
      LocationCache := some [(3, ⟨1, 1, 1⟩)], clickedElements := [] } 1
    ⟨1, "root", "Argosy", "Container", "", [], [2, 3], false⟩ 4 rfl rfl

/-- C13: once the phase is 2 or more, `NextCoordinate` for a node returns the
cache entry of the id of the node, nil when there is none, and leaves the
cache, the counter and the phase as they are. -/
theorem NextCoordinate_pure_lookup (fl : FloatOps R) (g : Graph) (er : ElementRenderer R)
    (g3n : Ptr) (n : MashupDetailedElement) (totalElements : Int)
    (hphase : er.iOffset ≥ 2) (hn : g.deref g3n = .ok n) :
    ∃ er1, NextCoordinate fl g er g3n totalElements = .ok (er1, er.cacheLookup n.Id) ∧
      er1.LocationCache = er.LocationCache ∧ er1.counter = er.counter ∧
      er1.iOffset = er.iOffset := by
  refine ⟨{ er with totalElements := totalElements }, ?_, rfl, rfl, rfl⟩
  unfold NextCoordinate
  simp only [hphase, if_true, hn]
  rfl

/-- C13 (witness): phase 3, a lookup for b, which was never cached. -/
theorem NextCoordinate_pure_lookup_witness :
    ∃ er1, NextCoordinate tenths (demoGraph [])
        { iOffset := 3, counter := -4, totalElements := 0,
          LocationCache := some [(2, ⟨0, 0, 1⟩)], clickedElements := [] } 3 6 =
        .ok (er1, none) ∧
      er1.LocationCache = some [(2, ⟨0, 0, 1⟩)] ∧ er1.counter = -4 ∧ er1.iOffset = 3 :=
  NextCoordinate_pure_lookup tenths (demoGraph [])
    { iOffset := 3, counter := -4, totalElements := 0,
      LocationCache := some [(2, ⟨0, 0, 1⟩)], clickedElements := [] } 3
    ⟨3, "b", "DataFlowGroup", "Container", "", [1], [6], false⟩ 6 (by decide) rfl

/-! ## Ids that resolve to no element -/

theorem deref_error {g : Graph} {p : Ptr} {e : Err} (h : g.deref p = .error e) : e = .fault := by
  unfold Graph.deref at h
  split at h
  · cases h; rfl
  · split at h
    · cases h
    · cases h; rfl

theorem deref_missing {g : Graph} {c : Int} (hc : g.ConcreteElements c = none) :
    g.deref (g.concrete c) = .error .fault := by
  simp [Graph.concrete, hc, Graph.deref]

theorem calcLocnParents_error (fl : FloatOps R) (id : Int) (ps : List Int) :
    ∀ (er : ElementRenderer R) (c : R) (e : Err),
      calcLocnParents fl id ps er c = .error e → e = .fault := by
  induction ps with
  | nil => intro er c e h; simp [calcLocnParents] at h
  | cons parent rest ih =>
    intro er c e h
    unfold calcLocnParents at h
    split at h
    · split at h
      · split at h
        · rename_i _ e1 hst
          cases h
          unfold ElementRenderer.cacheStore at hst
          split at hst
          · cases hst
          · cases hst; rfl
        · exact ih _ _ _ h
      · exact ih _ _ _ h
    · exact ih _ _ _ h

theorem calcLocnStarter_missing (fl : FloatOps R) (g : Graph) (c : Int)
    (hc : g.ConcreteElements c = none) (ids : List Int) :
    ∀ (er : ElementRenderer R) (counter : R), c ∈ ids →
      calcLocnStarter fl g ids er counter = .error .fault := by
  induction ids with
  | nil => intro er counter h; cases h
  | cons id rest ih =>
    intro er counter hmem
    unfold calcLocnStarter
    cases hd : g.deref (g.concrete id) with
    | error e => simp only [deref_error hd]
    | ok element =>
      simp only
      cases hp : calcLocnParents fl id element.Parentids er counter with
      | error e => simp only [calcLocnParents_error fl id _ _ _ _ hp]
      | ok r =>
        obtain ⟨er1, c1⟩ := r
        simp only
        rcases List.mem_cons.1 hmem with rfl | hrest
        · rw [deref_missing hc] at hd; cases hd
        · exact ih _ _ hrest

theorem initLocnChildren_missing (g : Graph) (c : Int) (hc : g.ConcreteElements c = none)
    (recur : Ptr → ElementRenderer R → Except Err (ElementRenderer R)) (ids : List Int) :
    ∀ (er er1 : ElementRenderer R), c ∈ ids → initLocnChildren g recur ids er ≠ .ok er1 := by
  induction ids with
  | nil => intro er er1 h; cases h
  | cons id rest ih =>
    intro er er1 hmem h
    unfold initLocnChildren at h
    split at h
    · cases h
    · rename_i _ child hd
      have hrest : c ∈ rest := by
        rcases List.mem_cons.1 hmem with rfl | hrest
        · rw [deref_missing hc] at hd; cases hd
        · exact hrest
      split at h
      · split at h
        · cases h
        · exact ih _ _ hrest h
      · exact ih _ _ hrest h

theorem NextCoordinate_error (fl : FloatOps R) (g : Graph) (er : ElementRenderer R) (p : Ptr)
    (t : Int) (e : Err) (h : NextCoordinate fl g er p t = .error e) : e = .fault := by
  unfold NextCoordinate at h
  simp only at h
  split at h
  · split at h
    · rename_i _ e1 hd
      cases h; exact deref_error hd
    · cases h
  · split at h
    · split at h
      · rename_i _ e1 hd
        cases h; exact deref_error hd
      · cases h
    · split at h
      · rename_i _ e1 hd
        cases h; exact deref_error hd
      · split at h
        · rename_i _ e1 hst
          cases h
          unfold ElementRenderer.cacheStore at hst
          split at hst
          · cases hst
          · cases hst; rfl
        · cases h

theorem NewSolidAtPosition_error (g : Graph) (w : WorldApp R) (p : Ptr)
    (v : Option (Vector3 R)) (e : Err) (h : NewSolidAtPosition g w p v = .error e) :
    e = .fault := by
  unfold NewSolidAtPosition at h
  split at h
  · rename_i _ e1 hd
    cases h; exact deref_error hd
  · simp only at h
    split at h
    · cases h; rfl
    · cases h

theorem renderChild_error (fl : FloatOps R) (g : Graph) (c : Int)
    (s : ElementRenderer R × WorldApp R) (e : Err) (h : renderChild fl g c s = .error e) :
    e = .fault := by
  unfold renderChild at h
  split at h
  · rename_i _ e1 hd
    cases h; exact deref_error hd
  · split at h
    · split at h
      · split at h
        · rename_i _ e1 hnc
          cases h; exact NextCoordinate_error fl g _ _ _ _ hnc
        · split at h
          · rename_i _ e1 hnew
            cases h; exact NewSolidAtPosition_error g _ _ _ _ hnew
          · cases h
      · cases h
    · cases h

theorem renderChildren_missing (fl : FloatOps R) (g : Graph) (c : Int)
    (hc : g.ConcreteElements c = none) (ids : List Int) :
    ∀ (s : ElementRenderer R × WorldApp R), c ∈ ids →
      renderChildren fl g ids s = .error .fault := by
  induction ids with
  | nil => intro s h; cases h
  | cons id rest ih =>
    intro s hmem
    unfold renderChildren
    cases hr : renderChild fl g id s with
    | error e => simp only [renderChild_error fl g id s e hr]
    | ok s1 =>
      simp only
      rcases List.mem_cons.1 hmem with rfl | hrest
      · unfold renderChild at hr
        rw [deref_missing hc] at hr
        cases hr
      · exact ih _ hrest

/-! ### A fault, not an exhausted budget -/

theorem registered_of_deref {g : Graph} {id : Int} {m : MashupDetailedElement}
    (h : g.deref (g.concrete id) = .ok m) : g.ConcreteElements id = some (g.concrete id) := by
  cases hce : g.ConcreteElements id with
  | none => rw [deref_missing hce] at h; cases h
  | some q => rw [concrete_of_registered hce]

theorem lastClicked_error {g : Graph} {e : Err} (h : g.lastClicked = .error e) : e = .fault := by
  unfold Graph.lastClicked at h
  split at h
  · cases h
  · cases h; rfl

theorem calcLocnStarter_error (fl : FloatOps R) (g : Graph) (ids : List Int) :
    ∀ (er : ElementRenderer R) (c : R) (e : Err),
      calcLocnStarter fl g ids er c = .error e → e = .fault := by
  induction ids with
  | nil => intro er c e h; simp [calcLocnStarter] at h
  | cons id rest ih =>
    intro er c e h
    unfold calcLocnStarter at h
    cases hd : g.deref (g.concrete id) with
    | error e1 => rw [hd] at h; cases h; exact deref_error hd
    | ok element =>
      rw [hd] at h
      simp only at h
      cases hp : calcLocnParents fl id element.Parentids er c with
      | error e1 => rw [hp] at h; cases h; exact calcLocnParents_error fl id _ _ _ _ hp
      | ok r =>
        obtain ⟨er1, c1⟩ := r
        rw [hp] at h
        exact ih _ _ _ h

theorem initLocnChildren_error (g : Graph)
    (recur : Ptr → ElementRenderer R → Except Err (ElementRenderer R)) (ids : List Int)
    (hrec : ∀ id ∈ ids, ∀ m, g.deref (g.concrete id) = .ok m →
      ∀ er e, recur (g.concrete id) er = .error e → e = .fault) :
    ∀ (er : ElementRenderer R) (e : Err),
      initLocnChildren g recur ids er = .error e → e = .fault := by
  induction ids with
  | nil => intro er e h; simp [initLocnChildren] at h
  | cons id rest ih =>
    intro er e h
    have hrest := ih (fun i hi => hrec i (List.mem_cons_of_mem _ hi))
    unfold initLocnChildren at h
    cases hd : g.deref (g.concrete id) with
    | error e1 => rw [hd] at h; cases h; exact deref_error hd
    | ok child =>
      rw [hd] at h
      simp only at h
      by_cases hg : child.Genre ≠ "Solid"
      · rw [if_pos hg] at h
        cases hr : recur (g.concrete id) er with
        | error e1 =>
          rw [hr] at h
          cases h
          exact hrec id (List.mem_cons_self _ _) child hd er _ hr
        | ok er1 =>
          rw [hr] at h
          exact hrest _ _ h
      · rw [if_neg hg] at h
        exact hrest _ _ h

theorem initLocnCache_error (fl : FloatOps R) (g : Graph) (rank depth : Ptr → Nat)
    (hr : g.Ranked rank depth) (fuel : Nat) :
    ∀ (p : Ptr) (er : ElementRenderer R) (e : Err), rank p < fuel →
      initLocnCache fl g fuel p er = .error e → e = .fault := by
  induction fuel with
  | zero => intro p er e hlt; omega
  | succ fuel ih =>
    intro p er e hlt h
    unfold initLocnCache at h
    cases hd : g.deref p with
    | error e1 => rw [hd] at h; cases h; exact deref_error hd
    | ok n =>
      rw [hd] at h
      simp only at h
      by_cases hlen : n.Childids.length ≠ 0
      · rw [if_pos hlen] at h
        cases hs : (if n.Genre ≠ "Solid" then calcLocnStarter fl g n.Childids er fl.negTenth32
            else .ok er) with
        | error e1 =>
          rw [hs] at h
          cases h
          split at hs
          · exact calcLocnStarter_error fl g _ _ _ _ hs
          · cases hs
        | ok er1 =>
          rw [hs] at h
          simp only at h
          refine initLocnChildren_error g _ n.Childids ?_ _ _ h
          intro id hid m hm er2 e2 he
          have := hr.children p n hd id hid _ (registered_of_deref hm)
          exact ih _ _ _ (by omega) he
      · rw [if_neg hlen] at h
        cases h

theorem initCacheLoop_error (fl : FloatOps R) (g : Graph) (rank depth : Ptr → Nat)
    (hr : g.Ranked rank depth) (fuel : Nat) (hfuel : ∀ p, rank p < fuel) (order : List Int) :
    ∀ (er : ElementRenderer R) (e : Err),
      initCacheLoop fl g fuel order er = .error e → e = .fault := by
  induction order with
  | nil => intro er e h; simp [initCacheLoop] at h
  | cons key rest ih =>
    intro er e h
    unfold initCacheLoop at h
    cases hd : g.deref (g.concrete key) with
    | error e1 => rw [hd] at h; cases h; exact deref_error hd
    | ok element =>
      rw [hd] at h
      simp only at h
      by_cases hg : element.Genre ≠ "Solid"
      · rw [if_pos hg] at h
        cases hi : initLocnCache fl g fuel (g.concrete key) er with
        | error e1 =>
          rw [hi] at h
          cases h
          exact initLocnCache_error fl g rank depth hr fuel _ _ _ (hfuel _) hi
        | ok er1 =>
          rw [hi] at h
          exact ih _ _ h
      · rw [if_neg hg] at h
        exact ih _ _ h

theorem initCachePhase_error (fl : FloatOps R) (g : Graph) (rank depth : Ptr → Nat)
    (hr : g.Ranked rank depth) (fuel : Nat) (hfuel : ∀ p, rank p < fuel) (order : List Int)
    (er : ElementRenderer R) (e : Err) (h : initCachePhase fl g order fuel er = .error e) :
    e = .fault := by
  unfold initCachePhase at h
  split at h
  · cases hl : initCacheLoop fl g fuel order er with
    | error e1 =>
      rw [hl] at h
      cases h
      exact initCacheLoop_error fl g rank depth hr fuel hfuel order _ _ hl
    | ok er1 => rw [hl] at h; cases h
  · cases h

theorem isChildElement_error (g : Graph) (t : Ptr) (e : Err)
    (h : isChildElement g t = .error e) : e = .fault := by
  unfold isChildElement at h
  cases hc : g.lastClicked with
  | error e1 => rw [hc] at h; cases h; exact lastClicked_error hc
  | ok p =>
    rw [hc] at h
    simp only at h
    cases hd : g.deref t with
    | error e1 => rw [hd] at h; cases h; exact deref_error hd
    | ok n => rw [hd] at h; cases h

theorem popCondition_error (g : Graph) (t : Ptr) (e : Err)
    (h : popCondition g t = .error e) : e = .fault := by
  unfold popCondition at h
  cases hi : isChildElement g t with
  | error e1 => rw [hi] at h; cases h; exact isChildElement_error g t _ hi
  | ok b =>
    rw [hi] at h
    simp only at h
    split at h
    · cases h
    · cases hd : g.deref t with
      | error e1 => rw [hd] at h; cases h; exact deref_error hd
      | ok n =>
        rw [hd] at h
        simp only at h
        split at h
        · cases hc : g.lastClicked with
          | error e1 => rw [hc] at h; cases h; exact lastClicked_error hc
          | ok p =>
            rw [hc] at h
            simp only at h
            cases hd2 : g.deref p with
            | error e1 => rw [hd2] at h; cases h; exact deref_error hd2
            | ok m => rw [hd2] at h; cases h
        · cases h

theorem ApplyState_error (g : Graph) (w : WorldApp R) (p : Ptr) (x : DisplayElementState)
    (b : Bool) (e : Err) (h : ApplyState g w p x b = .error e) : e = .fault := by
  unfold ApplyState at h
  cases hd : g.deref p with
  | error e1 => rw [hd] at h; cases h; exact deref_error hd
  | ok n =>
    rw [hd] at h
    cases x <;> cases h

theorem forIds_error (body : Int → WorldApp R → Except Err (WorldApp R)) (ids : List Int)
    (hbody : ∀ c ∈ ids, ∀ w e, body c w = .error e → e = .fault) :
    ∀ (w : WorldApp R) (e : Err), forIds body ids w = .error e → e = .fault := by
  induction ids with
  | nil => intro w e h; simp [forIds] at h
  | cons c rest ih =>
    intro w e h
    unfold forIds at h
    cases hb : body c w with
    | error e1 => rw [hb] at h; cases h; exact hbody c (List.mem_cons_self _ _) w _ hb
    | ok w1 =>
      rw [hb] at h
      exact ih (fun c1 hc1 => hbody c1 (List.mem_cons_of_mem _ hc1)) _ _ h

theorem RemoveAll_error (g : Graph) (rank depth : Ptr → Nat) (hr : g.Ranked rank depth)
    (fuel : Nat) :
    ∀ (id : Int) (w : WorldApp R) (e : Err), 0 < fuel →
      (∀ q, g.ConcreteElements id = some q → rank q + 1 < fuel) →
      RemoveAll g fuel id w = .error e → e = .fault := by
  induction fuel with
  | zero => intro id w e hpos; omega
  | succ fuel ih =>
    intro id w e _ hq h
    unfold RemoveAll at h
    cases hce : g.ConcreteElements id with
    | none => rw [hce] at h; cases h
    | some child =>
      rw [hce] at h
      simp only at h
      have hlt := hq child hce
      cases hd : g.deref child with
      | error e1 => rw [hd] at h; cases h; exact deref_error hd
      | ok n =>
        rw [hd] at h
        simp only at h
        split at h
        · refine forIds_error _ n.Childids ?_ _ _ h
          intro c hc w1 e1 h1
          refine ih c w1 e1 (by omega) ?_ h1
          intro q hcq
          have := hr.children child n hd c hc q hcq
          omega
        · cases h

theorem hideChild_error (g : Graph) (rank depth : Ptr → Nat) (hr : g.Ranked rank depth)
    (fuel : Nat) (hfuel : ∀ p, rank p + 1 < fuel) (t : Ptr) (c : Int) (w : WorldApp R)
    (e : Err) (h : hideChild g fuel t c w = .error e) : e = .fault := by
  unfold hideChild at h
  cases hi : isChildElement g t with
  | error e1 => rw [hi] at h; cases h; exact isChildElement_error g t _ hi
  | ok b =>
    rw [hi] at h
    simp only at h
    split at h
    · cases h
    · cases ha : ApplyState g w (g.concrete c) .Hidden true with
      | error e1 => rw [ha] at h; cases h; exact ApplyState_error g w _ _ _ _ ha
      | ok w1 =>
        rw [ha] at h
        exact RemoveAll_error g rank depth hr fuel c w1 e (by have := hfuel 0; omega)
          (fun q _ => hfuel q) h

theorem deselectChild_error (g : Graph) (rank depth : Ptr → Nat) (hr : g.Ranked rank depth)
    (fuel : Nat) (hfuel : ∀ p, rank p + 1 < fuel) (t : Ptr) (c : Int) (w : WorldApp R)
    (e : Err) (h : deselectChild g fuel t c w = .error e) : e = .fault := by
  unfold deselectChild at h
  cases hi : isChildElement g t with
  | error e1 => rw [hi] at h; cases h; exact isChildElement_error g t _ hi
  | ok b =>
    rw [hi] at h
    simp only at h
    split at h
    · cases h
    · cases hc : g.lastClicked with
      | error e1 => rw [hc] at h; cases h; exact lastClicked_error hc
      | ok p =>
        rw [hc] at h
        simp only at h
        split at h
        · cases ha : ApplyState g w (g.concrete c) .Hidden true with
          | error e1 => rw [ha] at h; cases h; exact ApplyState_error g w _ _ _ _ ha
          | ok w1 =>
            rw [ha] at h
            exact RemoveAll_error g rank depth hr fuel c w1 e (by have := hfuel 0; omega)
              (fun q _ => hfuel q) h
        · cases h

theorem deselectElements_nil (g : Graph) (d fuel : Nat) (w : WorldApp R) :
    deselectElements g d (fuel + 1) 0 w = .error .fault := by
  unfold deselectElements
  simp [Graph.deref]

theorem deselectElements_error (g : Graph) (rank depth : Ptr → Nat) (hr : g.Ranked rank depth)
    (d : Nat) (hd : ∀ p, rank p + 1 < d) (fuel : Nat) :
    ∀ (t : Ptr) (w : WorldApp R) (e : Err), depth t + 1 < fuel →
      deselectElements g d fuel t w = .error e → e = .fault := by
  induction fuel with
  | zero => intro t w e hlt; omega
  | succ fuel ih =>
    intro t w e hlt h
    unfold deselectElements at h
    cases hn : g.deref t with
    | error e1 => rw [hn] at h; cases h; exact deref_error hn
    | ok n =>
      rw [hn] at h
      simp only at h
      cases hf : forIds (deselectChild g d t) n.Childids w with
      | error e1 =>
        rw [hf] at h
        cases h
        exact forIds_error _ _
          (fun c _ w2 e2 h2 => deselectChild_error g rank depth hr d hd t c w2 e2 h2) _ _ hf
      | ok w1 =>
        rw [hf] at h
        simp only at h
        cases hp : n.Parentids with
        | nil => rw [hp] at h; cases h
        | cons parent0 ps =>
          rw [hp] at h
          simp only at h
          have hrec : ∀ e1, deselectElements g d fuel (g.concrete parent0) w1 = .error e1 →
              e1 = .fault := by
            intro e1 h1
            cases hce : g.ConcreteElements parent0 with
            | none =>
              have h0 : g.concrete parent0 = 0 := by simp [Graph.concrete, hce]
              rw [h0] at h1
              cases fuel with
              | zero => omega
              | succ f =>
                rw [deselectElements_nil] at h1
                cases h1
                rfl
            | some q =>
              rw [concrete_of_registered hce] at h1
              have := hr.parent t n hn parent0 (by rw [hp]; rfl) q hce
              exact ih q w1 e1 (by omega) h1
          cases hc : g.lastClicked with
          | error e1 => rw [hc] at h; cases h; exact lastClicked_error hc
          | ok p =>
            rw [hc] at h
            simp only at h
            cases hd2 : g.deref p with
            | error e1 => rw [hd2] at h; cases h; exact deref_error hd2
            | ok clicked =>
              rw [hd2] at h
              simp only at h
              cases hcp : clicked.Parentids with
              | nil => rw [hcp] at h; exact hrec _ h
              | cons cp0 cps =>
                rw [hcp] at h
                simp only at h
                split at h
                · cases h
                · exact hrec _ h

theorem showChild_error (g : Graph) (c : Int) (w : WorldApp R) (e : Err)
    (h : showChild g c w = .error e) : e = .fault := by
  unfold showChild at h
  cases hd : g.deref (g.concrete c) with
  | error e1 => rw [hd] at h; cases h; exact deref_error hd
  | ok n =>
    rw [hd] at h
    simp only at h
    split at h
    · cases ha : ApplyState g w (g.concrete c) .Hidden false with
      | error e1 => rw [ha] at h; cases h; exact ApplyState_error g w _ _ _ _ ha
      | ok w1 =>
        rw [ha] at h
        exact ApplyState_error g w1 _ _ _ _ h
    · cases h

theorem pushPhase_error (g : Graph) (er : ElementRenderer R) (w : WorldApp R) (e : Err)
    (h : pushPhase g er w = .error e) : e = .fault := by
  unfold pushPhase at h
  cases hc : g.lastClicked with
  | error e1 => rw [hc] at h; cases h; exact lastClicked_error hc
  | ok p =>
    rw [hc] at h
    simp only at h
    cases hd : g.deref p with
    | error e1 => rw [hd] at h; cases h; exact deref_error hd
    | ok n =>
      rw [hd] at h
      simp only at h
      split at h
      · cases hm : w.meshComposite p n.Name with
        | none => rw [hm] at h; cases h; rfl
        | some mesh =>
          rw [hm] at h
          simp only at h
          cases hf : forIds (showChild g) n.Childids w with
          | error e1 =>
            rw [hf] at h
            cases h
            exact forIds_error _ _ (fun c _ w2 e2 h2 => showChild_error g c w2 e2 h2) _ _ hf
          | ok w1 => rw [hf] at h; cases h
      · cases h

theorem popPhase_error (g : Graph) (rank depth : Ptr → Nat) (hr : g.Ranked rank depth)
    (fuel : Nat) (hfuel : ∀ p, rank p + 1 < fuel ∧ depth p + 1 < fuel)
    (er : ElementRenderer R) (w : WorldApp R) (e : Err)
    (h : popPhase g fuel er w = .error e) : e = .fault := by
  unfold popPhase at h
  split at h
  · cases ht : er.top with
    | error e1 =>
      rw [ht] at h
      cases h
      unfold ElementRenderer.top at ht
      split at ht
      · cases ht
      · cases ht; rfl
    | ok prevElement =>
      rw [ht] at h
      simp only at h
      cases hpc : popCondition g prevElement.clickedElement with
      | error e1 => rw [hpc] at h; cases h; exact popCondition_error g _ _ hpc
      | ok b =>
        rw [hpc] at h
        cases b with
        | false => cases h
        | true =>
          simp only at h
          cases hpop : er.pop with
          | error e1 =>
            rw [hpop] at h
            cases h
            unfold ElementRenderer.pop at hpop
            split at hpop
            · cases hpop
            · cases hpop; rfl
          | ok r =>
            obtain ⟨top, er1⟩ := r
            rw [hpop] at h
            simp only at h
            cases hd : g.deref prevElement.clickedElement with
            | error e1 => rw [hd] at h; cases h; exact deref_error hd
            | ok prev =>
              rw [hd] at h
              simp only at h
              cases hf : forIds (hideChild g fuel prevElement.clickedElement) prev.Childids w with
              | error e1 =>
                rw [hf] at h
                cases h
                exact forIds_error _ _
                  (fun c _ w2 e2 h2 => hideChild_error g rank depth hr fuel
                    (fun q => (hfuel q).1) _ c w2 e2 h2) _ _ hf
              | ok w1 =>
                rw [hf] at h
                simp only at h
                cases hds : deselectElements g fuel fuel prevElement.clickedElement w1 with
                | error e1 =>
                  rw [hds] at h
                  cases h
                  exact deselectElements_error g rank depth hr fuel (fun q => (hfuel q).1) fuel
                    _ _ _ (hfuel _).2 hds
                | ok r2 =>
                  obtain ⟨w2, q⟩ := r2
                  rw [hds] at h
                  cases h
  · cases h

/-- On a finite graph, with a budget above every rank and depth, an
`InitRenderLoop` call that does not return normally ends in a fault. -/
theorem InitRenderLoop_error (fl : FloatOps R) (g : Graph) (rank depth : Ptr → Nat)
    (hr : g.Ranked rank depth) (fuel : Nat)
    (hfuel : ∀ p, rank p + 1 < fuel ∧ depth p + 1 < fuel) (order : List Int)
    (er : ElementRenderer R) (w : WorldApp R) (e : Err)
    (h : InitRenderLoop fl g order fuel er w = .error e) : e = .fault := by
  unfold InitRenderLoop at h
  cases h1 : initCachePhase fl g order fuel er with
  | error e1 =>
    rw [h1] at h
    cases h
    exact initCachePhase_error fl g rank depth hr fuel (fun q => by have := (hfuel q).1; omega)
      order er _ h1
  | ok er1 =>
    rw [h1] at h
    simp only at h
    cases h2 : popPhase g fuel er1 w with
    | error e1 =>
      rw [h2] at h
      cases h
      exact popPhase_error g rank depth hr fuel hfuel er1 w _ h2
    | ok r =>
      obtain ⟨er2, w2⟩ := r
      rw [h2] at h
      simp only at h
      cases h3 : pushPhase g er2 w2 with
      | error e1 =>
        rw [h3] at h
        cases h
        exact pushPhase_error g er2 w2 _ h3
      | ok r3 =>
        obtain ⟨er3, w3⟩ := r3
        rw [h3] at h
        cases h

theorem initLocnCache_missing (fl : FloatOps R) (g : Graph) (c : Int)
    (hc : g.ConcreteElements c = none) (fuel : Nat) (p : Ptr) (n : MashupDetailedElement)
    (er er1 : ElementRenderer R) (hn : g.deref p = .ok n) (hmem : c ∈ n.Childids) :
    initLocnCache fl g fuel p er ≠ .ok er1 := by
  intro h
  have hlen : n.Childids.length ≠ 0 := by
    intro h0
    rw [List.length_eq_zero] at h0
    rw [h0] at hmem
    cases hmem
  cases fuel with
  | zero => simp [initLocnCache] at h
  | succ fuel =>
    unfold initLocnCache at h
    by_cases hg : n.Genre = "Solid"
    · simp only [hn, hlen, hg, ne_eq, not_true_eq_false, not_false_eq_true, if_true,
        if_false] at h
      exact initLocnChildren_missing g c hc _ _ _ _ hmem h
    · simp only [hn, hlen, hg, ne_eq, not_false_eq_true, if_true,
        calcLocnStarter_missing fl g c hc n.Childids er fl.negTenth32 hmem] at h
      cases h

theorem InitRenderLoop_missing (fl : FloatOps R) (g : Graph) (c : Int)
    (hc : g.ConcreteElements c = none) (order : List Int) (fuel : Nat)
    (er : ElementRenderer R) (w : WorldApp R) (p : Ptr) (n : MashupDetailedElement)
    (r : ElementRenderer R × WorldApp R × Bool) (hp : g.lastClicked = .ok p)
    (hn : g.deref p = .ok n) (hf : n.focusable = true) (hmem : c ∈ n.Childids) :
    InitRenderLoop fl g order fuel er w ≠ .ok r := by
  intro h
  obtain ⟨er1, w1, b⟩ := r
  obtain ⟨p1, n1, hp1, hn1, _, hcase⟩ := InitRenderLoop_effect fl g order fuel er er1 w w1 b h
  rw [hp] at hp1
  cases hp1
  rw [hn] at hn1
  cases hn1
  rcases hcase with ⟨_, _, _, _, hch⟩ | ⟨hf2, _⟩
  · obtain ⟨m, hm, _⟩ := hch c hmem
    rw [deref_missing hc] at hm
    cases hm
  · rw [hf] at hf2
    cases hf2

/-- The walk of `deselectElements` does not return once it steps to a first
parent id that resolves to no element. -/
theorem deselectElements_parent_missing (g : Graph) (c : Int)
    (hc : g.ConcreteElements c = none) (d fuel : Nat) (t : Ptr) (n : MashupDetailedElement)
    (w : WorldApp R) (r : WorldApp R × Ptr) (hn : g.deref t = .ok n)
    (hp : n.Parentids.head? = some c) (hs : stopsAt g t = false) :
    deselectElements g d fuel t w ≠ .ok r := by
  intro h
  have h0 : g.concrete c = 0 := by simp [Graph.concrete, hc]
  have hrec : ∀ f (w1 : WorldApp R), deselectElements g d f (g.concrete c) w1 ≠ .ok r := by
    intro f w1 h1
    rw [h0] at h1
    cases f with
    | zero => simp [deselectElements] at h1
    | succ f => rw [deselectElements_nil] at h1; cases h1
  cases fuel with
  | zero => simp [deselectElements] at h
  | succ fuel =>
    unfold deselectElements at h
    unfold stopsAt at hs
    rw [hn] at h hs
    simp only at h hs
    cases hf : forIds (deselectChild g d t) n.Childids w with
    | error e1 => rw [hf] at h; cases h
    | ok w1 =>
      rw [hf] at h
      simp only at h
      cases hpp : n.Parentids with
      | nil => rw [hpp] at hp; cases hp
      | cons parent0 ps =>
        rw [hpp] at hp h hs
        simp only [List.head?_cons, Option.some.injEq] at hp
        subst hp
        simp only at h hs
        cases hcl : g.lastClicked with
        | error e1 => rw [hcl] at h; cases h
        | ok p =>
          rw [hcl] at h hs
          simp only at h hs
          cases hd2 : g.deref p with
          | error e1 => rw [hd2] at h; cases h
          | ok clicked =>
            rw [hd2] at h hs
            simp only at h hs
            cases hcp : clicked.Parentids with
            | nil => rw [hcp] at h; exact hrec _ _ h
            | cons cp0 cps =>
              rw [hcp] at h hs
              simp only at h hs
              by_cases heq : parent0 = cp0
              · simp [heq] at hs
              · rw [if_neg heq] at h
                exact hrec _ _ h

theorem popPhase_parent_missing (g : Graph) (c : Int) (hc : g.ConcreteElements c = none)
    (fuel : Nat) (er : ElementRenderer R) (w : WorldApp R) (top : ClickedG3nDetailElement R)
    (n : MashupDetailedElement) (r : ElementRenderer R × WorldApp R)
    (htop : er.clickedElements.getLast? = some top) (hn : g.deref top.clickedElement = .ok n)
    (hp : n.Parentids.head? = some c) (hpop : popsTop g er.clickedElements = true)
    (hs : stopsAt g top.clickedElement = false) : popPhase g fuel er w ≠ .ok r := by
  intro h
  have hemp : (!er.isEmpty) = true := by
    unfold ElementRenderer.isEmpty
    cases hl : er.clickedElements with
    | nil => rw [hl] at htop; cases htop
    | cons a l => rfl
  have hcond : popCondition g top.clickedElement = .ok true := by
    unfold popsTop at hpop
    rw [htop] at hpop
    simp only at hpop
    split at hpop
    · assumption
    · cases hpop
  unfold popPhase at h
  rw [if_pos hemp] at h
  simp only [ElementRenderer.top, ElementRenderer.pop, htop, hcond, hn] at h
  cases hf : forIds (hideChild g fuel top.clickedElement) n.Childids w with
  | error e1 => rw [hf] at h; cases h
  | ok w1 =>
    rw [hf] at h
    simp only at h
    cases hds : deselectElements g fuel fuel top.clickedElement w1 with
    | error e1 => rw [hds] at h; cases h
    | ok r2 => exact deselectElements_parent_missing g c hc fuel fuel _ n w1 r2 hn hp hs hds

theorem forIds_fails (body : Int → WorldApp R → Except Err (WorldApp R)) (c : Int)
    (hbody : ∀ w w1, body c w ≠ .ok w1) (ids : List Int) :
    ∀ (w w1 : WorldApp R), c ∈ ids → forIds body ids w ≠ .ok w1 := by
  induction ids with
  | nil => intro w w1 h; cases h
  | cons id rest ih =>
    intro w w1 hmem h
    unfold forIds at h
    cases hb : body id w with
    | error e => rw [hb] at h; cases h
    | ok w2 =>
      rw [hb] at h
      rcases List.mem_cons.1 hmem with rfl | hrest
      · exact hbody w w2 hb
      · exact ih w2 w1 hrest h

theorem ApplyState_missing (g : Graph) (c : Int) (hc : g.ConcreteElements c = none)
    (w w1 : WorldApp R) (x : DisplayElementState) (b : Bool) :
    ApplyState g w (g.concrete c) x b ≠ .ok w1 := by
  intro h
  unfold ApplyState at h
  rw [deref_missing hc] at h
  cases h

theorem popCondition_not_child (g : Graph) (t : Ptr) (h : popCondition g t = .ok true) :
    isChildElement g t = .ok false := by
  unfold popCondition at h
  cases hi : isChildElement g t with
  | error e => rw [hi] at h; cases h
  | ok b =>
    cases b with
    | false => rfl
    | true => rw [hi] at h; simp at h

/-- The child loop of `deselectElements` does not return when it hides the
children of an element that lists an id resolving to no element. -/
theorem deselectElements_child_missing (g : Graph) (c : Int)
    (hc : g.ConcreteElements c = none) (d fuel : Nat) (t p : Ptr) (n : MashupDetailedElement)
    (w : WorldApp R) (r : WorldApp R × Ptr) (hn : g.deref t = .ok n) (hmem : c ∈ n.Childids)
    (hi : isChildElement g t = .ok false) (hp : g.lastClicked = .ok p) (hne : t ≠ p) :
    deselectElements g d fuel t w ≠ .ok r := by
  intro h
  cases fuel with
  | zero => simp [deselectElements] at h
  | succ fuel =>
    unfold deselectElements at h
    rw [hn] at h
    simp only at h
    cases hf : forIds (deselectChild g d t) n.Childids w with
    | error e1 => rw [hf] at h; cases h
    | ok w1 =>
      refine forIds_fails (deselectChild g d t) c ?_ n.Childids w w1 hmem hf
      intro w2 w3 h2
      unfold deselectChild at h2
      simp only [hi, hp, hne, ne_eq, not_false_eq_true, if_true, Bool.false_eq_true,
        if_false] at h2
      cases ha : ApplyState g w2 (g.concrete c) .Hidden true with
      | error e1 => rw [ha] at h2; cases h2
      | ok w4 => exact ApplyState_missing g c hc w2 w4 _ _ ha

theorem popPhase_child_missing (g : Graph) (c : Int) (hc : g.ConcreteElements c = none)
    (fuel : Nat) (er : ElementRenderer R) (w : WorldApp R) (top : ClickedG3nDetailElement R)
    (n : MashupDetailedElement) (r : ElementRenderer R × WorldApp R)
    (htop : er.clickedElements.getLast? = some top) (hn : g.deref top.clickedElement = .ok n)
    (hmem : c ∈ n.Childids) (hpop : popsTop g er.clickedElements = true) :
    popPhase g fuel er w ≠ .ok r := by
  intro h
  have hemp : (!er.isEmpty) = true := by
    unfold ElementRenderer.isEmpty
    cases hl : er.clickedElements with
    | nil => rw [hl] at htop; cases htop
    | cons a l => rfl
  have hcond : popCondition g top.clickedElement = .ok true := by
    unfold popsTop at hpop
    rw [htop] at hpop
    simp only at hpop
    split at hpop
    · assumption
    · cases hpop
  have hi := popCondition_not_child g _ hcond
  unfold popPhase at h
  rw [if_pos hemp] at h
  simp only [ElementRenderer.top, ElementRenderer.pop, htop, hcond, hn] at h
  cases hf : forIds (hideChild g fuel top.clickedElement) n.Childids w with
  | error e1 => rw [hf] at h; cases h
  | ok w1 =>
    refine forIds_fails (hideChild g fuel top.clickedElement) c ?_ n.Childids w w1 hmem hf
    intro w2 w3 h2
    unfold hideChild at h2
    simp only [hi, Bool.false_eq_true, if_false] at h2
    cases ha : ApplyState g w2 (g.concrete c) .Hidden true with
    | error e1 => rw [ha] at h2; cases h2
    | ok w4 => exact ApplyState_missing g c hc w2 w4 _ _ ha

theorem InitRenderLoop_pop_fails (fl : FloatOps R) (g : Graph) (order : List Int) (fuel : Nat)
    (er : ElementRenderer R) (w : WorldApp R) (r : ElementRenderer R × WorldApp R × Bool)
    (hpop : ∀ er1 r2, er1.clickedElements = er.clickedElements → popPhase g fuel er1 w ≠ .ok r2) :
    InitRenderLoop fl g order fuel er w ≠ .ok r := by
  intro h
  unfold InitRenderLoop at h
  cases h1 : initCachePhase fl g order fuel er with
  | error e1 => rw [h1] at h; cases h
  | ok er1 =>
    rw [h1] at h
    simp only at h
    have hst := initCachePhase_stack fl g order fuel er er1 h1
    cases h2 : popPhase g fuel er1 w with
    | error e1 => rw [h2] at h; cases h
    | ok r2 => exact hpop er1 r2 hst h2

theorem gapGraph_deref (clicked : List Ptr) (p : Ptr) (n : MashupDetailedElement)
    (h : (gapGraph clicked).deref p = .ok n) :
    1 ≤ p ∧ p ≤ 3 ∧ gapElement p = some n := by
  unfold Graph.deref at h
  split at h
  · cases h
  · simp only [gapGraph] at h
    split at h
    · rename_i _ m hm
      cases h
      refine ⟨?_, ?_, hm⟩
      · unfold gapElement at hm
        split at hm <;> simp_all
      · unfold gapElement at hm
        split at hm <;> simp_all
    · cases h

theorem gapGraph_ranked (clicked : List Ptr) :
    (gapGraph clicked).Ranked demoPtrRank demoDepth where
  children := by
    intro p n hn c hc q hq
    obtain ⟨h1, h2, hel⟩ := gapGraph_deref clicked p n hn
    interval_cases p
    · cases hel
      simp at hc
      rcases hc with rfl | rfl
      · simp [gapGraph] at hq
      · simp [gapGraph] at hq
        subst hq
        decide
    · cases hel
      simp at hc
    · cases hel
      simp at hc
  parent := by
    intro p n hn a ha q hq
    obtain ⟨h1, h2, hel⟩ := gapGraph_deref clicked p n hn
    interval_cases p
    · cases hel
      simp at ha
    · cases hel
      simp at ha
      subst ha
      simp [gapGraph] at hq
      subst hq
      decide
    · cases hel
      simp at ha
      subst ha
      simp [gapGraph] at hq

theorem gap_budget (p : Ptr) : demoPtrRank p + 1 < 10 ∧ demoDepth p + 1 < 10 := by
  unfold demoPtrRank demoDepth
  omega

/-- C11 (counterexample): root lists the child id 9, which resolves to no
element.  `RemoveAll` of root walks the child ids of root and returns normally;
so does `RenderElement` for a when root is clicked without a mesh (a is
compared with the nil element behind 9 first), and so does `InitRenderLoop`
when a is clicked with root on top of the stack (`isChildElement` compares a
with the nil element behind 9 first). -/
theorem missing_child_id_skipped :
    (gapGraph []).deref 1 = .ok ⟨1, "root", "Argosy", "Container", "", [], [9, 2], false⟩ ∧
    (gapGraph []).ConcreteElements 9 = none ∧
    (RemoveAll (gapGraph []) 10 1 (demoWorld [1, 2] [])).map (fun w => w.scene) = .ok [] ∧
    (RenderElement tenths (gapGraph [1]) (demoRenderer [] []) (demoWorld [] []) 2).map
      (fun r => r.2.2) = .ok true ∧
    (InitRenderLoop tenths (gapGraph [1, 2]) [] 10 (demoRenderer [] [⟨1, ⟨1, 0, 0⟩⟩])
      (demoWorld [1, 2] [])).map (fun r => r.1.clickedElements) =
      .ok [⟨1, ⟨1, 0, 0⟩⟩, ⟨2, ⟨2, 0, 0⟩⟩] :=
  ⟨rfl, rfl, rfl, rfl, rfl⟩

/-- C11 (amended): let the id `c` be absent from `ConcreteElements`, on a
finite graph with a budget above every rank and depth.  As a child id, `c`
makes `calcLocnStarter` over a list that holds it fault, `initLocnCache` of an
element that lists it fault, `InitRenderLoop` fault when the clicked element
lists it and is neither Solid nor Space or when the stack top it pops lists it,
`deselectElements` fault when it hides the children of an element that lists
it, and `RenderElement` fault when the focused, meshed element lists it.  As a
first parent id, `c` makes `deselectElements` fault at an element where the
test of line 130 fails (line 133 resolves it), and with it `InitRenderLoop`
when that element is the stack top it pops.  `RemoveAll` of `c` returns
normally with the world unchanged (presence test of line 278) and the loop
over the sibling ids goes on; `isChildElement` of an element that lists `c`
returns the comparison of every child id with the clicked element;
`RenderElement` outside the focus branch returns true when the clicked element
lists `c`. -/
theorem missing_id_effect (fl : FloatOps R) (g : Graph) (rank depth : Ptr → Nat) (fuel : Nat)
    (c : Int) (hr : g.Ranked rank depth)
    (hfuel : ∀ p, rank p + 1 < fuel ∧ depth p + 1 < fuel)
    (hc : g.ConcreteElements c = none) :
    (∀ (ids : List Int) (er : ElementRenderer R) (counter : R), c ∈ ids →
      calcLocnStarter fl g ids er counter = .error .fault) ∧
    (∀ (p : Ptr) (n : MashupDetailedElement) (er : ElementRenderer R),
      g.deref p = .ok n → c ∈ n.Childids → initLocnCache fl g fuel p er = .error .fault) ∧
    (∀ (order : List Int) (er : ElementRenderer R) (w : WorldApp R) (p : Ptr)
      (n : MashupDetailedElement),
      g.lastClicked = .ok p → g.deref p = .ok n → n.focusable = true → c ∈ n.Childids →
      InitRenderLoop fl g order fuel er w = .error .fault) ∧
    (∀ (er : ElementRenderer R) (w : WorldApp R) (p : Ptr) (n : MashupDetailedElement),
      g.lastClicked = .ok p → g.deref p = .ok n →
      (w.meshComposite p n.Name).isSome = true → c ∈ n.Childids →
      RenderElement fl g er w p = .error .fault) ∧
    (∀ (order : List Int) (er : ElementRenderer R) (w : WorldApp R)
      (top : ClickedG3nDetailElement R) (n : MashupDetailedElement),
      er.clickedElements.getLast? = some top → g.deref top.clickedElement = .ok n →
      c ∈ n.Childids → popsTop g er.clickedElements = true →
      InitRenderLoop fl g order fuel er w = .error .fault) ∧
    (∀ (t p : Ptr) (n : MashupDetailedElement) (w : WorldApp R),
      g.deref t = .ok n → c ∈ n.Childids → isChildElement g t = .ok false →
      g.lastClicked = .ok p → t ≠ p →
      deselectElements g fuel fuel t w = .error .fault) ∧
    (∀ (t : Ptr) (n : MashupDetailedElement) (w : WorldApp R),
      g.deref t = .ok n → n.Parentids.head? = some c → stopsAt g t = false →
      deselectElements g fuel fuel t w = .error .fault) ∧
    (∀ (order : List Int) (er : ElementRenderer R) (w : WorldApp R)
      (top : ClickedG3nDetailElement R) (n : MashupDetailedElement),
      er.clickedElements.getLast? = some top → g.deref top.clickedElement = .ok n →
      n.Parentids.head? = some c → popsTop g er.clickedElements = true →
      stopsAt g top.clickedElement = false →
      InitRenderLoop fl g order fuel er w = .error .fault) ∧
    (∀ (fuel1 : Nat) (w : WorldApp R), RemoveAll g (fuel1 + 1) c w = .ok w) ∧
    (∀ (fuel1 : Nat) (rest : List Int) (w : WorldApp R),
      forIds (RemoveAll g (fuel1 + 1)) (c :: rest) w =
        forIds (RemoveAll g (fuel1 + 1)) rest w) ∧
    (∀ (t p : Ptr) (n : MashupDetailedElement),
      g.lastClicked = .ok p → g.deref t = .ok n → c ∈ n.Childids →
      isChildElement g t = .ok (n.Childids.any (fun childID => p == g.concrete childID))) ∧
    (∀ (er : ElementRenderer R) (w : WorldApp R) (q p : Ptr) (m n : MashupDetailedElement),
      g.lastClicked = .ok p → g.deref q = .ok m → g.deref p = .ok n → c ∈ n.Childids →
      ¬ (q = p ∧ (w.meshComposite q m.Name).isSome = true) →
      ∃ w1, RenderElement fl g er w q = .ok (er, w1, true)) := by
  have hskip : ∀ (fuel1 : Nat) (w : WorldApp R), RemoveAll g (fuel1 + 1) c w = .ok w := by
    intro fuel1 w
    rw [RemoveAll]
    simp only [hc]
  refine ⟨calcLocnStarter_missing fl g c hc, ?_, ?_, ?_, ?_, ?_, ?_, ?_, hskip, ?_, ?_, ?_⟩
  · intro p n er hn hmem
    cases h : initLocnCache fl g fuel p er with
    | ok er1 => exact absurd h (initLocnCache_missing fl g c hc fuel p n er er1 hn hmem)
    | error e =>
      rw [initLocnCache_error fl g rank depth hr fuel p er e
        (by have := (hfuel p).1; omega) h]
  · intro order er w p n hp hn hf hmem
    cases h : InitRenderLoop fl g order fuel er w with
    | ok r => exact absurd h (InitRenderLoop_missing fl g c hc order fuel er w p n r hp hn hf hmem)
    | error e => rw [InitRenderLoop_error fl g rank depth hr fuel hfuel order er w e h]
  · intro er w p n hp hn hmesh hmem
    unfold RenderElement
    simp only [hp, hn, hmesh, and_self, if_true,
      renderChildren_missing fl g c hc n.Childids _ hmem]
  · intro order er w top n htop hn hmem hpop
    cases h : InitRenderLoop fl g order fuel er w with
    | ok r =>
      exact absurd h (InitRenderLoop_pop_fails fl g order fuel er w r
        (fun er1 r2 hst => popPhase_child_missing g c hc fuel er1 w top n r2
          (by rw [hst]; exact htop) hn hmem (by rw [hst]; exact hpop)))
    | error e => rw [InitRenderLoop_error fl g rank depth hr fuel hfuel order er w e h]
  · intro t p n w hn hmem hi hp hne
    cases h : deselectElements g fuel fuel t w with
    | ok r =>
      exact absurd h (deselectElements_child_missing g c hc fuel fuel t p n w r hn hmem hi hp hne)
    | error e =>
      rw [deselectElements_error g rank depth hr fuel (fun q => (hfuel q).1) fuel t w e
        (hfuel t).2 h]
  · intro t n w hn hp hs
    cases h : deselectElements g fuel fuel t w with
    | ok r => exact absurd h (deselectElements_parent_missing g c hc fuel fuel t n w r hn hp hs)
    | error e =>
      rw [deselectElements_error g rank depth hr fuel (fun q => (hfuel q).1) fuel t w e
        (hfuel t).2 h]
  · intro order er w top n htop hn hp hpop hs
    cases h : InitRenderLoop fl g order fuel er w with
    | ok r =>
      exact absurd h (InitRenderLoop_pop_fails fl g order fuel er w r
        (fun er1 r2 hst => popPhase_parent_missing g c hc fuel er1 w top n r2
          (by rw [hst]; exact htop) hn hp (by rw [hst]; exact hpop) hs))
    | error e => rw [InitRenderLoop_error fl g rank depth hr fuel hfuel order er w e h]
  · intro fuel1 rest w
    rw [forIds, hskip fuel1 w]
  · intro t p n hp hn _
    unfold isChildElement
    simp only [hp, hn]
  · intro er w q p m n hp hm hn _ hcond
    unfold RenderElement
    simp only [hp, hm, hn, if_neg hcond]
    cases hcl : colorLoop g q (aliasColor w m.Alias).2 n.Childids (aliasColor w m.Alias).1 with
    | mk w1 o =>
      cases o with
      | none => exact ⟨w1, rfl⟩
      | some b =>
        have := colorLoop_result g q _ _ _ _ b hcl
        subst this
        exact ⟨w1, rfl⟩

/-- C11 (witness): in `gapGraph` the child id 9 of root and the parent id 8 of
o resolve to no element. -/
theorem missing_id_effect_witness :
    calcLocnStarter tenths (gapGraph []) [9, 2] (demoRenderer [(1, ⟨0, 0, 0⟩)] []) (-1) =
      .error .fault ∧
    initLocnCache tenths (gapGraph []) 10 1 (demoRenderer [(1, ⟨0, 0, 0⟩)] []) = .error .fault ∧
    InitRenderLoop tenths (gapGraph [1]) [] 10 (demoRenderer [] []) (demoWorld [1] []) =
      .error .fault ∧
    RenderElement tenths (gapGraph [1]) (demoRenderer [(2, ⟨0, 0, 1⟩)] []) (demoWorld [1] []) 1 =
      .error .fault ∧
    InitRenderLoop tenths (gapGraph [3]) [] 10 (demoRenderer [] [⟨1, ⟨1, 0, 0⟩⟩])
      (demoWorld [1, 3] []) = .error .fault ∧
    deselectElements (gapGraph [3]) 10 10 1 (demoWorld [] []) = .error .fault ∧
    deselectElements (gapGraph [2]) 10 10 3 (demoWorld [] []) = .error .fault ∧
    InitRenderLoop tenths (gapGraph [2]) [] 10 (demoRenderer [] [⟨3, ⟨3, 0, 0⟩⟩])
      (demoWorld [2, 3] []) = .error .fault ∧
    RemoveAll (gapGraph []) 3 9 (demoWorld [1] []) = .ok (demoWorld [1] []) ∧
    isChildElement (gapGraph [2]) 1 = .ok true ∧
    ∃ w1, RenderElement tenths (gapGraph [1]) (demoRenderer [] []) (demoWorld [] []) 2 =
      .ok (demoRenderer [] [], w1, true) :=
  have key0 := missing_id_effect tenths (gapGraph []) demoPtrRank demoDepth 10 9
    (gapGraph_ranked []) gap_budget rfl
  have key1 := missing_id_effect tenths (gapGraph [1]) demoPtrRank demoDepth 10 9
    (gapGraph_ranked [1]) gap_budget rfl
  have key2 := missing_id_effect tenths (gapGraph [2]) demoPtrRank demoDepth 10 9
    (gapGraph_ranked [2]) gap_budget rfl
  have key3 := missing_id_effect tenths (gapGraph [3]) demoPtrRank demoDepth 10 9
    (gapGraph_ranked [3]) gap_budget rfl
  have par2 := missing_id_effect tenths (gapGraph [2]) demoPtrRank demoDepth 10 8
    (gapGraph_ranked [2]) gap_budget rfl
  ⟨key0.1 [9, 2] _ (-1) (by decide),
   key0.2.1 1 ⟨1, "root", "Argosy", "Container", "", [], [9, 2], false⟩ _ rfl (by decide),
   key1.2.2.1 [] _ _ 1 ⟨1, "root", "Argosy", "Container", "", [], [9, 2], false⟩ rfl rfl rfl
     (by decide),
   key1.2.2.2.1 _ (demoWorld [1] []) 1 ⟨1, "root", "Argosy", "Container", "", [], [9, 2], false⟩
     rfl rfl rfl (by decide),
   key3.2.2.2.2.1 [] _ _ ⟨1, ⟨1, 0, 0⟩⟩
     ⟨1, "root", "Argosy", "Container", "", [], [9, 2], false⟩ rfl rfl (by decide) rfl,
   key3.2.2.2.2.2.1 1 3 ⟨1, "root", "Argosy", "Container", "", [], [9, 2], false⟩ _ rfl
     (by decide) rfl rfl (by decide),
   par2.2.2.2.2.2.2.1 3 ⟨3, "o", "DataFlowGroup", "Container", "", [8], [], false⟩ _ rfl rfl rfl,
   par2.2.2.2.2.2.2.2.1 [] _ _ ⟨3, ⟨3, 0, 0⟩⟩
     ⟨3, "o", "DataFlowGroup", "Container", "", [8], [], false⟩ rfl rfl rfl rfl rfl,
   key0.2.2.2.2.2.2.2.2.1 2 (demoWorld [1] []),
   key2.2.2.2.2.2.2.2.2.2.2.1 1 2 ⟨1, "root", "Argosy", "Container", "", [], [9, 2], false⟩
     rfl rfl (by decide),
   key1.2.2.2.2.2.2.2.2.2.2.2 _ (demoWorld [] []) 2 1
     ⟨2, "a", "DataFlowGroup", "Container", "", [1], [], false⟩
     ⟨1, "root", "Argosy", "Container", "", [], [9, 2], false⟩ rfl rfl rfl (by decide)
     (by decide)⟩

/-! ## Vault.Unseal -/

/-- When every request succeeds, `unsealLoop` returns the `Sealed` field of the
last status received as its boolean. -/
theorem unsealLoop_returns_sealed {σ ε : Type} (sysUnseal : σ → String → UnsealReply ε × σ)
    (shards : List String) :
    ∀ (status : Option SealStatusResponse) (srv srv1 : σ) (a b : Int) (c : Bool),
      unsealLoop sysUnseal shards status srv = .ok ((a, b, c, none), srv1) →
      ∃ st : SealStatusResponse, st.Sealed = c ∧ st.Progress = a ∧ st.T = b := by
  induction shards with
  | nil =>
    intro status srv srv1 a b c h
    unfold unsealLoop at h
    split at h
    · cases h
    · rename_i st
      cases h
      exact ⟨st, rfl, rfl, rfl⟩
  | cons shard rest ih =>
    intro status srv srv1 a b c h
    unfold unsealLoop at h
    simp only at h
    split at h
    · cases h
    · exact ih _ _ _ _ _ _ h

/-- C16 (evaluation at the failing input): one shard, the request succeeds and
the status reports the vault as no longer sealed; `Unseal` returns false as its
boolean. -/
theorem Unseal_false_when_unsealed :
    Vault.Unseal demoVault ["shard-1"] 0 = .ok ((0, 1, false, none), 1) :=
  rfl

/-! ## getPathEnd -/

theorem splitSlash_ne_nil (path : List Char) : splitSlash path ≠ [] := by
  cases path with
  | nil => simp [splitSlash]
  | cons c cs =>
    unfold splitSlash
    split
    · simp
    · split <;> simp

theorem splitSlash_append_slash (p r : List Char) :
    splitSlash (p ++ '/' :: r) = splitSlash p ++ splitSlash r := by
  induction p with
  | nil => simp [splitSlash]
  | cons c p ih =>
    simp only [List.cons_append]
    by_cases hc : c = '/'
    · simp [splitSlash, hc, ih]
    · have hne := splitSlash_ne_nil p
      cases hp : splitSlash p with
      | nil => exact absurd hp hne
      | cons seg rest =>
        simp [splitSlash, hc, ih, hp]

theorem splitSlash_no_slash (seg : List Char) (h : '/' ∉ seg) : splitSlash seg = [seg] := by
  induction seg with
  | nil => rfl
  | cons c cs ih =>
    have hc : ¬ c = '/' := fun hc => h (by simp [hc])
    have hcs : '/' ∉ cs := fun hm => h (List.mem_cons_of_mem _ hm)
    simp [splitSlash, hc, ih hcs]

theorem splitSlash_slashes (k : Nat) :
    splitSlash (List.replicate k '/') = List.replicate (k + 1) [] := by
  induction k with
  | zero => rfl
  | succ k ih => simp [List.replicate_succ, splitSlash, ih]

theorem splitSlash_trailing (x : List Char) (k : Nat) :
    splitSlash (x ++ List.replicate k '/') = splitSlash x ++ List.replicate k [] := by
  cases k with
  | zero => simp
  | succ k =>
    rw [List.replicate_succ, splitSlash_append_slash, splitSlash_slashes]

theorem lastNonEmpty_skip (k : Nat) (rest : List (List Char)) :
    lastNonEmpty (List.replicate k [] ++ rest) = lastNonEmpty rest := by
  induction k with
  | zero => simp
  | succ k ih => simp [List.replicate_succ, lastNonEmpty, ih]

/-- A path is a run of separators, or splits into a prefix that is empty or
ends in a separator, a non-empty segment without separator, and a run of
separators. -/
theorem path_shape (path : List Char) :
    (∀ c ∈ path, c = '/') ∨
    ∃ (pre res : List Char) (k : Nat), res ≠ [] ∧ '/' ∉ res ∧
      path = pre ++ res ++ List.replicate k '/' ∧
      (pre = [] ∨ ∃ pre1, pre = pre1 ++ ['/']) := by
  induction path using List.reverseRecOn with
  | nil => left; intro c hc; cases hc
  | append_singleton init c ih =>
    by_cases hc : c = '/'
    · rcases ih with hall | ⟨pre, res, k, h1, h2, h3, h4⟩
      · left
        intro d hd
        rcases List.mem_append.1 hd with hd | hd
        · exact hall d hd
        · simp at hd; rw [hd, hc]
      · right
        refine ⟨pre, res, k + 1, h1, h2, ?_, h4⟩
        rw [h3, hc, List.replicate_succ']
        simp
    · right
      have hres : '/' ∉ [c] := by
        simp only [List.mem_singleton]
        exact fun h => hc h.symm
      rcases ih with hall | ⟨pre, res, k, h1, h2, h3, h4⟩
      · refine ⟨init, [c], 0, by simp, hres, by simp, ?_⟩
        cases hinit : init.getLast? with
        | none =>
          left
          exact List.getLast?_eq_none_iff.1 hinit
        | some d =>
          right
          have hmem : d ∈ init := List.mem_of_getLast?_eq_some hinit
          have hd : d = '/' := hall d hmem
          have hne : init ≠ [] := List.ne_nil_of_mem hmem
          refine ⟨init.dropLast, ?_⟩
          have hl := List.dropLast_append_getLast? d hinit
          rw [← hd]
          exact hl.symm
      · cases k with
        | zero =>
          refine ⟨pre, res ++ [c], 0, by simp, ?_, ?_, h4⟩
          · intro hm
            rcases List.mem_append.1 hm with hm | hm
            · exact h2 hm
            · exact hres hm
          · rw [h3]; simp
        | succ k =>
          refine ⟨init, [c], 0, by simp, hres, by simp, Or.inr ⟨pre ++ res ++ List.replicate k '/', ?_⟩⟩
          rw [h3, List.replicate_succ', ← List.append_assoc]

/-- C19: for a path with a character other than the separator, `getPathEnd`
returns a non-empty segment without separator such that the path is a prefix
(empty, or ending in a separator), the segment, and a run of separators; for a
path made of separators only, the empty path included, `getPathEnd` faults
(index out of range). -/
theorem getPathEnd_last_segment (path : List Char) :
    ((∃ c ∈ path, c ≠ '/') →
      ∃ (pre res : List Char) (k : Nat), getPathEnd path = .ok res ∧ res ≠ [] ∧ '/' ∉ res ∧
        path = pre ++ res ++ List.replicate k '/' ∧
        (pre = [] ∨ pre.getLast? = some '/')) ∧
    ((∀ c ∈ path, c = '/') → getPathEnd path = .error .fault) := by
  constructor
  · rintro ⟨c, hc, hne⟩
    rcases path_shape path with hall | ⟨pre, res, k, h1, h2, h3, h4⟩
    · exact absurd (hall c hc) hne
    · refine ⟨pre, res, k, ?_, h1, h2, h3, ?_⟩
      · have hsplit : ∃ X, splitSlash (pre ++ res) = X ++ [res] := by
          rcases h4 with rfl | ⟨pre1, rfl⟩
          · exact ⟨[], by simp [splitSlash_no_slash res h2]⟩
          · refine ⟨splitSlash pre1, ?_⟩
            rw [List.append_assoc, List.singleton_append, splitSlash_append_slash,
              splitSlash_no_slash res h2]
        obtain ⟨X, hX⟩ := hsplit
        unfold getPathEnd
        rw [h3, splitSlash_trailing, hX]
        simp only [List.reverse_append, List.reverse_replicate, List.reverse_cons,
          List.reverse_nil, List.nil_append, List.singleton_append]
        rw [lastNonEmpty_skip]
        simp [lastNonEmpty, h1]
      · rcases h4 with rfl | ⟨pre1, rfl⟩
        · exact Or.inl rfl
        · right; simp
  · intro hall
    have hrep : path = List.replicate path.length '/' :=
      List.eq_replicate_of_mem hall
    unfold getPathEnd
    rw [hrep, splitSlash_slashes, List.reverse_replicate]
    have := lastNonEmpty_skip (path.length + 1) []
    simp only [List.append_nil] at this
    rw [this]
    rfl

/-- C19 (witness): the paths `conf/app//` and `//`. -/
theorem getPathEnd_last_segment_witness :
    (∃ (pre res : List Char) (k : Nat), getPathEnd "conf/app//".toList = .ok res ∧ res ≠ [] ∧
        '/' ∉ res ∧ "conf/app//".toList = pre ++ res ++ List.replicate k '/' ∧
        (pre = [] ∨ pre.getLast? = some '/')) ∧
    getPathEnd "conf/app//".toList = .ok "app".toList ∧
    getPathEnd "//".toList = .error .fault :=
  ⟨(getPathEnd_last_segment "conf/app//".toList).1 ⟨'c', by decide, by decide⟩, rfl,
   (getPathEnd_last_segment "//".toList).2 (by decide)⟩

/-! ## deselectElements: where the walk stops -/

/-- A returning `deselectElements` returns the first element on the
first-parent chain of its argument at which the test of line 130 holds. -/
theorem deselectElements_result (g : Graph) (depthFuel fuel : Nat) :
    ∀ (e r : Ptr) (w w1 : WorldApp R),
      deselectElements g depthFuel fuel e w = .ok (w1, r) →
      ∃ k, nthParent g k e = some r ∧ stopsAt g r = true ∧
        ∀ j, j < k → ∀ q, nthParent g j e = some q → stopsAt g q = false := by
  induction fuel with
  | zero => intro e r w w1 h; simp [deselectElements] at h
  | succ fuel ih =>
    intro e r w w1 h
    unfold deselectElements at h
    cases hn : g.deref e with
    | error err => rw [hn] at h; cases h
    | ok n =>
      rw [hn] at h
      simp only at h
      cases hf : forIds (deselectChild g depthFuel e) n.Childids w with
      | error err => rw [hf] at h; cases h
      | ok w2 =>
        rw [hf] at h
        simp only at h
        have hup : ∀ parent0 rest, n.Parentids = parent0 :: rest → stopsAt g e = false →
            deselectElements g depthFuel fuel (g.concrete parent0) w2 = .ok (w1, r) →
            ∃ k, nthParent g k e = some r ∧ stopsAt g r = true ∧
              ∀ j, j < k → ∀ q, nthParent g j e = some q → stopsAt g q = false := by
          intro parent0 rest hpar hstop hrec
          obtain ⟨k, hk1, hk2, hk3⟩ := ih _ _ _ _ hrec
          have hfp : firstParent g e = some (g.concrete parent0) := by
            simp [firstParent, hn, hpar]
          refine ⟨k + 1, ?_, hk2, ?_⟩
          · simp [nthParent, hfp, hk1]
          · intro j hj q hq
            cases j with
            | zero =>
              simp only [nthParent, Option.some.injEq] at hq
              rw [← hq]; exact hstop
            | succ j =>
              simp only [nthParent, hfp, Option.some_bind] at hq
              exact hk3 j (by omega) q hq
        cases hpar : n.Parentids with
        | nil =>
          rw [hpar] at h
          simp only at h
          cases h
          exact ⟨0, rfl, by simp [stopsAt, hn, hpar], fun j hj => by omega⟩
        | cons parent0 rest =>
          rw [hpar] at h
          simp only at h
          cases hlc : g.lastClicked with
          | error err => rw [hlc] at h; cases h
          | ok p =>
            rw [hlc] at h
            simp only at h
            cases hc : g.deref p with
            | error err => rw [hc] at h; cases h
            | ok clicked =>
              rw [hc] at h
              simp only at h
              cases hcp : clicked.Parentids with
              | nil =>
                rw [hcp] at h
                simp only at h
                exact hup parent0 rest hpar (by simp [stopsAt, hn, hpar, hlc, hc, hcp]) h
              | cons cp0 crest =>
                rw [hcp] at h
                simp only at h
                split at h
                · rename_i heq
                  cases h
                  exact ⟨0, rfl, by simp [stopsAt, hn, hpar, hlc, hc, hcp, heq],
                    fun j hj => by omega⟩
                · rename_i hneq
                  exact hup parent0 rest hpar
                    (by simp [stopsAt, hn, hpar, hlc, hc, hcp, hneq]) h

/-- C18: on a well-formed single-parent tree, with budgets above the ranks and
the depth of `e` and a last clicked element that resolves, `deselectElements`
of `e` returns; the element `r` it returns lies `k` steps up the first-parent
chain of `e`, satisfies the test of line 130 (no parent id, or the same first
parent id as the last clicked element), and no element below it on the chain
does. -/
theorem deselectElements_stops_at_first (g : Graph) (rank depth : Ptr → Nat)
    (depthFuel fuel : Nat) (e : Ptr) (w : WorldApp R)
    (hwf : g.WellFormed rank depth) (hrank : ∀ p, rank p < depthFuel)
    (hdepth : depth e < fuel)
    (hclicked : ∃ p n, g.lastClicked = .ok p ∧ g.deref p = .ok n)
    (he : ∃ n, g.deref e = .ok n) :
    ∃ w1 r k, deselectElements g depthFuel fuel e w = .ok (w1, r) ∧
      nthParent g k e = some r ∧ stopsAt g r = true ∧
      ∀ j, j < k → ∀ q, nthParent g j e = some q → stopsAt g q = false := by
  obtain ⟨⟨w1, r⟩, hr⟩ := deselectElements_returns g rank depth hwf depthFuel hrank hclicked
    fuel e w hdepth he
  obtain ⟨k, hk⟩ := deselectElements_result g depthFuel fuel e r w w1 hr
  exact ⟨w1, r, k, hr, hk⟩

/-- C18 (witness): b is clicked, the walk starts at c and stops at a, whose
first parent id is that of b. -/
theorem deselectElements_stops_at_first_witness :
    (∃ w1 r k, deselectElements (demoGraph [3]) 10 10 4 (demoWorld [1, 2, 4] []) = .ok (w1, r) ∧
      nthParent (demoGraph [3]) k 4 = some r ∧ stopsAt (demoGraph [3]) r = true ∧
      ∀ j, j < k → ∀ q, nthParent (demoGraph [3]) j 4 = some q →
        stopsAt (demoGraph [3]) q = false) ∧
    (deselectElements (demoGraph [3]) 10 10 4 (demoWorld [1, 2, 4] [])).map (fun r => r.2) =
      .ok 2 :=
  ⟨deselectElements_stops_at_first (demoGraph [3]) demoPtrRank demoDepth 10 10 4
    (demoWorld [1, 2, 4] []) (demoGraph_wellFormed [3]) (fun p => (demo_budget p).1)
    (demo_budget 4).2 ⟨3, _, rfl, rfl⟩ ⟨_, rfl⟩, rfl⟩

/-! ## Anchored spirals on a single-parent tree -/

theorem node_eq {g : Graph} {x : Int} {n : MashupDetailedElement} (h : g.node x = some n) :
    g.ConcreteElements x = some (g.concrete x) ∧ g.deref (g.concrete x) = .ok n := by
  unfold Graph.node at h
  split at h
  · rename_i p hp
    split at h
    · rename_i m hm
      cases h
      rw [concrete_of_registered hp]
      exact ⟨hp, hm⟩
    · cases h
  · cases h

theorem spiralFrom_shift (fl : FloatOps R) (c0 : R) (i : Nat) :
    spiralFrom fl c0 (i + 1) = spiralFrom fl (fl.sub32 c0 fl.tenth32) i := by
  induction i with
  | zero => rfl
  | succ i ih =>
    show fl.sub32 (spiralFrom fl c0 (i + 1)) fl.tenth32 = _
    rw [ih]
    rfl

/-- The loop of `calcLocnStarter` over children of `x`, each with `x` as its
only parent: the `i`-th id gets the anchored position for the `i`-th counter,
and no other key changes. -/
theorem calcLocnStarter_children (fl : FloatOps R) (g : Graph) (x : Int) (hx : 0 < x)
    (center : Vector3 R) (ids : List Int) :
    ∀ (er era : ElementRenderer R) (c0 : R),
      (∀ c ∈ ids, ∃ m, g.node c = some m ∧ m.Parentids = [x]) → x ∉ ids → ids.Nodup →
      er.cacheLookup x = some center →
      calcLocnStarter fl g ids er c0 = .ok era →
      (∀ i c, ids[i]? = some c →
        era.cacheLookup c = some (calculateLocation fl center (spiralFrom fl c0 i))) ∧
      (∀ k, k ∉ ids → era.cacheLookup k = er.cacheLookup k) := by
  induction ids with
  | nil =>
    intro er era c0 _ _ _ _ h
    simp only [calcLocnStarter] at h
    cases h
    exact ⟨by simp, fun _ _ => rfl⟩
  | cons id rest ih =>
    intro er era c0 hids hx1 hnd hcenter h
    obtain ⟨m, hm, hpar⟩ := hids id (List.mem_cons_self _ _)
    have hd := (node_eq hm).2
    have hidx : id ≠ x := fun he => hx1 (by simp [he])
    unfold calcLocnStarter at h
    simp only [hd, hpar] at h
    obtain ⟨mp, hmp⟩ : ∃ mp, er.LocationCache = some mp := by
      unfold ElementRenderer.cacheLookup at hcenter
      split at hcenter
      · exact ⟨_, by assumption⟩
      · cases hcenter
    have hstore : er.cacheStore id (calculateLocation fl center c0) =
        .ok { er with LocationCache := some ((id, calculateLocation fl center c0) :: mp) } := by
      simp [ElementRenderer.cacheStore, hmp]
    simp only [calcLocnParents, hx, if_true, hcenter, hstore] at h
    have hlook := cacheStore_lookup hstore
    obtain ⟨h1, h2⟩ := ih _ era _
      (fun c hc => hids c (List.mem_cons_of_mem _ hc))
      (fun hm1 => hx1 (List.mem_cons_of_mem _ hm1)) (List.nodup_cons.1 hnd).2
      (by rw [hlook x]; simp [hidx, hcenter]) h
    constructor
    · intro i c hic
      cases i with
      | zero =>
        simp only [List.getElem?_cons_zero, Option.some.injEq] at hic
        subst hic
        rw [h2 id (List.nodup_cons.1 hnd).1, hlook id]
        simp [spiralFrom]
      | succ i =>
        simp only [List.getElem?_cons_succ] at hic
        rw [h1 i c hic, spiralFrom_shift]
    · intro k hk
      have hk1 : k ∉ rest := fun hm1 => hk (List.mem_cons_of_mem _ hm1)
      have hk2 : id ≠ k := fun he => hk (by simp [he])
      rw [h2 k hk1, hlook k]
      simp [hk2]

theorem region_prepend {g : Graph} {x c m : Int} {n cn : MashupDetailedElement}
    (hn : g.node x = some n) (hc : c ∈ n.Childids) (hcn : g.node c = some cn)
    (hg : cn.Genre ≠ "Solid") (h : Region g c m) : Region g x m := by
  induction h with
  | root => exact Region.step Region.root hn hc hcn hg
  | step _ h2 h3 h4 h5 ih => exact Region.step ih h2 h3 h4 h5

theorem region_cases {g : Graph} {x m : Int} (h : Region g x m) :
    m = x ∨ ∃ n c cn, g.node x = some n ∧ c ∈ n.Childids ∧ g.node c = some cn ∧
      cn.Genre ≠ "Solid" ∧ Region g c m := by
  induction h with
  | root => exact Or.inl rfl
  | step h1 h2 h3 h4 h5 ih =>
    rename_i m1 c1 n1 cn1
    rcases ih with rfl | ⟨n, c, cn, hn, hc, hcn, hg, hr⟩
    · exact Or.inr ⟨n1, c1, cn1, h2, h3, h4, h5, Region.root⟩
    · exact Or.inr ⟨n, c, cn, hn, hc, hcn, hg, Region.step hr h2 h3 h4 h5⟩

theorem region_node {g : Graph} {x m : Int} (h : Region g x m)
    (hx : ∃ n, g.node x = some n ∧ n.Genre ≠ "Solid") :
    ∃ n, g.node m = some n ∧ n.Genre ≠ "Solid" := by
  cases h with
  | root => exact hx
  | step _ _ _ h4 h5 => exact ⟨_, h4, h5⟩

theorem unique_parent {g : Graph} {rank depth : Int → Nat}
    (htree : g.SingleParentTree rank depth) {m m1 c : Int} {n n1 : MashupDetailedElement}
    (hn : g.node m = some n) (hc : c ∈ n.Childids) (hn1 : g.node m1 = some n1)
    (hc1 : c ∈ n1.Childids) : m = m1 := by
  obtain ⟨a, ha, hpa, _⟩ := htree.children m n hn c hc
  obtain ⟨b, hb, hpb, _⟩ := htree.children m1 n1 hn1 c hc1
  rw [ha] at hb
  cases hb
  rw [hpa] at hpb
  simpa using hpb

/-- A pass that settles its region and changes written keys only keeps every
settled element that is not Solid settled. -/
theorem settledAt_preserved (fl : FloatOps R) {g : Graph} {rank depth : Int → Nat}
    (htree : g.SingleParentTree rank depth) (z : Int) (er er1 : ElementRenderer R)
    (hsettle : ∀ m, Region g z m → settledAt fl g er1 m)
    (hframe : ∀ k, ¬ Written g z k → er1.cacheLookup k = er.cacheLookup k)
    (m : Int) (hm : settledAt fl g er m)
    (hsolid : ∀ n, g.node m = some n → n.Genre ≠ "Solid") : settledAt fl g er1 m := by
  by_cases hreg : Region g z m
  · exact hsettle m hreg
  · obtain ⟨n, center, hn, hcenter, hkids⟩ := hm
    have hnw : ¬ Written g z m := by
      rintro ⟨m1, n1, hr1, hn1, hmem⟩
      exact hreg (Region.step hr1 hn1 hmem hn (hsolid n hn))
    refine ⟨n, center, hn, by rw [hframe m hnw]; exact hcenter, ?_⟩
    intro i c hic
    have hcm : c ∈ n.Childids := List.getElem?_mem hic
    have hnwc : ¬ Written g z c := by
      rintro ⟨m1, n1, hr1, hn1, hmem⟩
      have := unique_parent htree hn hcm hn1 hmem
      exact hreg (this ▸ hr1)
    rw [hframe c hnwc]
    exact hkids i c hic

theorem initLocnCache_keeps (fl : FloatOps R) (g : Graph) (fuel : Nat) (p : Ptr)
    (er er1 : ElementRenderer R) (h : initLocnCache fl g fuel p er = .ok er1) (k : Int)
    (hk : (er.cacheLookup k).isSome = true) : (er1.cacheLookup k).isSome = true :=
  initLocnCache_rel fl g
    (fun a b => (a.cacheLookup k).isSome = true → (b.cacheLookup k).isSome = true)
    (fun _ hx => hx) (fun _ _ _ h1 h2 hx => h2 (h1 hx))
    (fun a b id v _ hst hx => by
      show (b.cacheLookup k).isSome = true
      rw [cacheStore_lookup hst k]
      split
      · rfl
      · exact hx)
    fuel p er er1 h hk

/-- The child loop of `initLocnCache` when each recursive pass settles its
region and changes written keys only. -/
theorem initLocnChildren_settles (fl : FloatOps R) {g : Graph} {rank depth : Int → Nat}
    (htree : g.SingleParentTree rank depth)
    (recur : Ptr → ElementRenderer R → Except Err (ElementRenderer R))
    (hkeep : ∀ p er er1 k, recur p er = .ok er1 → (er.cacheLookup k).isSome = true →
      (er1.cacheLookup k).isSome = true)
    (hrec : ∀ c cn er er1, g.node c = some cn → cn.Genre ≠ "Solid" →
      (er.cacheLookup c).isSome = true → recur (g.concrete c) er = .ok er1 →
      (∀ m, Region g c m → settledAt fl g er1 m) ∧
      (∀ k, ¬ Written g c k → er1.cacheLookup k = er.cacheLookup k))
    (ids : List Int) :
    ∀ (er er1 : ElementRenderer R),
      (∀ c ∈ ids, ∃ cn, g.node c = some cn ∧ (er.cacheLookup c).isSome = true) →
      initLocnChildren g recur ids er = .ok er1 →
      (∀ m, settledAt fl g er m → (∀ n, g.node m = some n → n.Genre ≠ "Solid") →
        settledAt fl g er1 m) ∧
      (∀ c ∈ ids, ∀ cn, g.node c = some cn → cn.Genre ≠ "Solid" →
        ∀ m, Region g c m → settledAt fl g er1 m) ∧
      (∀ k, (∀ c ∈ ids, ∀ cn, g.node c = some cn → cn.Genre ≠ "Solid" → ¬ Written g c k) →
        er1.cacheLookup k = er.cacheLookup k) ∧
      (∀ k, (er.cacheLookup k).isSome = true → (er1.cacheLookup k).isSome = true) := by
  induction ids with
  | nil =>
    intro er er1 _ h
    simp only [initLocnChildren] at h
    cases h
    exact ⟨fun _ hm _ => hm, fun c hc => absurd hc (List.not_mem_nil c), fun _ _ => rfl,
      fun _ hk => hk⟩
  | cons c rest ih =>
    intro er er1 hids h
    obtain ⟨cn, hcn, hcsome⟩ := hids c (List.mem_cons_self _ _)
    have hd := (node_eq hcn).2
    unfold initLocnChildren at h
    simp only [hd] at h
    by_cases hg : cn.Genre ≠ "Solid"
    · rw [if_pos hg] at h
      cases hr : recur (g.concrete c) er with
      | error e => rw [hr] at h; cases h
      | ok er2 =>
        rw [hr] at h
        simp only at h
        obtain ⟨hs, hf⟩ := hrec c cn er er2 hcn hg hcsome hr
        obtain ⟨i1, i2, i3, i4⟩ := ih er2 er1
          (fun c1 hc1 => by
            obtain ⟨cn1, hcn1, hsome1⟩ := hids c1 (List.mem_cons_of_mem _ hc1)
            exact ⟨cn1, hcn1, hkeep _ _ _ _ hr hsome1⟩) h
        refine ⟨?_, ?_, ?_, ?_⟩
        · intro m hm hsol
          exact i1 m (settledAt_preserved fl htree c er er2 hs hf m hm hsol) hsol
        · intro c1 hc1 cn1 hcn1 hg1 m hreg
          rcases List.mem_cons.1 hc1 with rfl | hrest
          · exact i1 m (hs m hreg)
              (fun n hn => by
                obtain ⟨n2, hn2, hg2⟩ := region_node hreg ⟨cn, hcn, hg⟩
                rw [hn] at hn2
                cases hn2
                exact hg2)
          · exact i2 c1 hrest cn1 hcn1 hg1 m hreg
        · intro k hk
          rw [i3 k (fun c1 hc1 => hk c1 (List.mem_cons_of_mem _ hc1)),
            hf k (hk c (List.mem_cons_self _ _) cn hcn hg)]
        · intro k hk
          exact i4 k (hkeep _ _ _ _ hr hk)
    · rw [if_neg hg] at h
      obtain ⟨i1, i2, i3, i4⟩ := ih er er1
        (fun c1 hc1 => hids c1 (List.mem_cons_of_mem _ hc1)) h
      refine ⟨i1, ?_, ?_, i4⟩
      · intro c1 hc1 cn1 hcn1 hg1 m hreg
        rcases List.mem_cons.1 hc1 with rfl | hrest
        · rw [hcn] at hcn1
          cases hcn1
          exact absurd hg1 hg
        · exact i2 c1 hrest cn1 hcn1 hg1 m hreg
      · intro k hk
        exact i3 k (fun c1 hc1 => hk c1 (List.mem_cons_of_mem _ hc1))

/-- After a returning `initLocnCache` of a cached element that is not Solid,
every element of its region is settled, and only written keys have changed. -/
theorem initLocnCache_settles (fl : FloatOps R) {g : Graph} {rank depth : Int → Nat}
    (htree : g.SingleParentTree rank depth) (fuel : Nat) :
    ∀ (x : Int) (n : MashupDetailedElement) (er er1 : ElementRenderer R),
      g.node x = some n → n.Genre ≠ "Solid" → (er.cacheLookup x).isSome = true →
      initLocnCache fl g fuel (g.concrete x) er = .ok er1 →
      (∀ m, Region g x m → settledAt fl g er1 m) ∧
      (∀ k, ¬ Written g x k → er1.cacheLookup k = er.cacheLookup k) := by
  induction fuel with
  | zero => intro x n er er1 _ _ _ h; simp [initLocnCache] at h
  | succ fuel ih =>
    intro x n er er1 hn hg hsome h
    obtain ⟨center, hcenter⟩ := Option.isSome_iff_exists.1 hsome
    have hd := (node_eq hn).2
    unfold initLocnCache at h
    simp only [hd] at h
    by_cases hlen : n.Childids.length ≠ 0
    · rw [if_pos hlen, if_pos hg] at h
      cases hs : calcLocnStarter fl g n.Childids er fl.negTenth32 with
      | error e => rw [hs] at h; cases h
      | ok era =>
        rw [hs] at h
        simp only at h
        have hxnot : x ∉ n.Childids := by
          intro hmem
          obtain ⟨_, _, _, hr, _⟩ := htree.children x n hn x hmem
          exact Nat.lt_irrefl _ hr
        obtain ⟨h1, h2⟩ := calcLocnStarter_children fl g x (htree.positive x n hn) center
          n.Childids er era fl.negTenth32
          (fun c hc => by
            obtain ⟨m, hm, hp, _⟩ := htree.children x n hn c hc
            exact ⟨m, hm, hp⟩)
          hxnot (htree.nodup x n hn) hcenter hs
        have hsetx : settledAt fl g era x :=
          ⟨n, center, hn, by rw [h2 x hxnot]; exact hcenter, h1⟩
        obtain ⟨i1, i2, i3, _⟩ := initLocnChildren_settles fl htree (initLocnCache fl g fuel)
          (fun p a b k hab hk => initLocnCache_keeps fl g fuel p a b hab k hk)
          (fun c cn a b hcn hgc hca hab => ih c cn a b hcn hgc hca hab)
          n.Childids era er1
          (fun c hc => by
            obtain ⟨m, hm, _⟩ := htree.children x n hn c hc
            obtain ⟨i, hi⟩ := List.getElem?_of_mem hc
            exact ⟨m, hm, by rw [h1 i c hi]; rfl⟩) h
        constructor
        · intro m hreg
          rcases region_cases hreg with rfl | ⟨n1, c, cn, hn1, hc, hcn, hgc, hr⟩
          · exact i1 m hsetx (fun n2 hn2 => by rw [hn] at hn2; cases hn2; exact hg)
          · rw [hn] at hn1
            cases hn1
            exact i2 c hc cn hcn hgc m hr
        · intro k hk
          have hk1 : k ∉ n.Childids := fun hmem => hk ⟨x, n, Region.root, hn, hmem⟩
          rw [i3 k (fun c hc cn hcn hgc hw => by
            obtain ⟨m1, n1, hr1, hn1, hmem1⟩ := hw
            exact hk ⟨m1, n1, region_prepend hn hc hcn hgc hr1, hn1, hmem1⟩), h2 k hk1]
    · rw [if_neg hlen] at h
      cases h
      have hnil : n.Childids = [] := by
        rw [← List.length_eq_zero]
        exact not_not.1 hlen
      constructor
      · intro m hreg
        rcases region_cases hreg with rfl | ⟨n1, c, cn, hn1, hc, _⟩
        · exact ⟨n, center, hn, hcenter, by simp [hnil]⟩
        · rw [hn] at hn1
          cases hn1
          rw [hnil] at hc
          cases hc
      · intro _ _
        rfl

theorem initLocnCache_returns_tree (fl : FloatOps R) {g : Graph} {rank depth : Int → Nat}
    (htree : g.SingleParentTree rank depth) (fuel : Nat) :
    ∀ (x : Int) (n : MashupDetailedElement) (er : ElementRenderer R),
      g.node x = some n → rank x < fuel →
      ∃ er1, initLocnCache fl g fuel (g.concrete x) er = .ok er1 := by
  induction fuel with
  | zero => intro x n er _ h; omega
  | succ fuel ih =>
    intro x n er hn hlt
    have hd := (node_eq hn).2
    have hkids : ∀ c ∈ n.Childids, ∃ m, g.deref (g.concrete c) = .ok m := by
      intro c hc
      obtain ⟨m, hm, _⟩ := htree.children x n hn c hc
      exact ⟨m, (node_eq hm).2⟩
    unfold initLocnCache
    simp only [hd]
    split
    · have hfirst : ∃ er1, (if n.Genre ≠ "Solid" then
          calcLocnStarter fl g n.Childids er fl.negTenth32 else .ok er) = .ok er1 := by
        split
        · exact calcLocnStarter_returns fl g _ hkids _ _
        · exact ⟨_, rfl⟩
      obtain ⟨er1, h1⟩ := hfirst
      simp only [h1]
      apply initLocnChildren_returns
      intro c hc
      obtain ⟨m, hm, _, hr, _⟩ := htree.children x n hn c hc
      exact ⟨⟨m, (node_eq hm).2⟩, fun er2 => ih c m er2 hm (by omega)⟩
    · exact ⟨_, rfl⟩

theorem demoGraph_node (clicked : List Ptr) (x : Int) (n : MashupDetailedElement)
    (h : (demoGraph clicked).node x = some n) :
    1 ≤ x ∧ x ≤ 6 ∧ demoElement x.toNat = some n := by
  obtain ⟨hce, hd⟩ := node_eq h
  have hb : 1 ≤ x ∧ x ≤ 6 := by
    by_contra hb
    simp [demoGraph, hb] at hce
  have hcon : (demoGraph clicked).concrete x = x.toNat := by
    simp [Graph.concrete, demoGraph, hb]
  rw [hcon] at hd
  exact ⟨hb.1, hb.2, (demoGraph_deref clicked x.toNat n hd).2.2⟩

theorem demoGraph_tree (clicked : List Ptr) :
    (demoGraph clicked).SingleParentTree demoRank demoIdDepth where
  children := by
    intro x n hn c hc
    obtain ⟨h1, h2, hel⟩ := demoGraph_node clicked x n hn
    interval_cases x <;> cases hel <;> simp at hc <;>
      (try rcases hc with rfl | rfl) <;>
      exact ⟨_, rfl, rfl, by decide, by decide⟩
  nodup := by
    intro x n hn
    obtain ⟨h1, h2, hel⟩ := demoGraph_node clicked x n hn
    interval_cases x <;> cases hel <;> decide
  positive := by
    intro x n hn
    exact lt_of_lt_of_le (by decide) (demoGraph_node clicked x n hn).1

/-- C17: on a single-parent tree with positive ids, `initLocnCache` of a
cached element `x` that is not Solid returns, and afterwards every element `m`
reachable from `x` through child ids of elements that are not Solid (`x`
included) is cached and has its `i`-th child cached at
`calculateLocation(LocationCache[m], c_i)`, where `c_0 = -0.1` and
`c_(i+1) = c_i - 0.1`. -/
theorem initLocnCache_anchored_spirals (fl : FloatOps R) (g : Graph) (rank depth : Int → Nat)
    (x : Int) (n : MashupDetailedElement) (er : ElementRenderer R)
    (htree : g.SingleParentTree rank depth) (hn : g.node x = some n)
    (hgenre : n.Genre ≠ "Solid") (hcached : (er.cacheLookup x).isSome = true) :
    ∃ er1, initLocnCache fl g (rank x + 1) (g.concrete x) er = .ok er1 ∧
      (∀ m, Region g x m →
        ∃ nm center, g.node m = some nm ∧ er1.cacheLookup m = some center ∧
          ∀ i c, nm.Childids[i]? = some c →
            er1.cacheLookup c = some (calculateLocation fl center (spiralCounter fl i))) ∧
      spiralCounter fl 0 = fl.negTenth32 ∧
      ∀ i, spiralCounter fl (i + 1) = fl.sub32 (spiralCounter fl i) fl.tenth32 := by
  obtain ⟨er1, h1⟩ := initLocnCache_returns_tree fl htree (rank x + 1) x n er hn (by omega)
  exact ⟨er1, h1, (initLocnCache_settles fl htree _ x n er er1 hn hgenre hcached h1).1, rfl,
    fun _ => rfl⟩

/-- C17 (witness): `initLocnCache` of root in the demo tree, root cached at the
origin. -/
theorem initLocnCache_anchored_spirals_witness :
    (∃ er1, initLocnCache tenths (demoGraph []) (demoRank 1 + 1) ((demoGraph []).concrete 1)
        (demoRenderer [(1, ⟨0, 0, 0⟩)] []) = .ok er1 ∧
      (∀ m, Region (demoGraph []) 1 m →
        ∃ nm center, (demoGraph []).node m = some nm ∧ er1.cacheLookup m = some center ∧
          ∀ i c, nm.Childids[i]? = some c →
            er1.cacheLookup c = some (calculateLocation tenths center (spiralCounter tenths i))) ∧
      spiralCounter tenths 0 = tenths.negTenth32 ∧
      ∀ i, spiralCounter tenths (i + 1) = tenths.sub32 (spiralCounter tenths i) tenths.tenth32) ∧
    (initLocnCache tenths (demoGraph []) (demoRank 1 + 1) ((demoGraph []).concrete 1)
        (demoRenderer [(1, ⟨0, 0, 0⟩)] [])).map
      (fun er1 => (er1.cacheLookup 2, er1.cacheLookup 3, er1.cacheLookup 4)) =
      .ok (some ⟨0, 0, 1⟩, some ⟨0, 0, 2⟩, some ⟨0, 0, 2⟩) :=
  ⟨initLocnCache_anchored_spirals tenths (demoGraph []) demoRank demoIdDepth 1
    ⟨1, "root", "Argosy", "Container", "", [], [2, 3], false⟩ (demoRenderer [(1, ⟨0, 0, 0⟩)] [])
    (demoGraph_tree []) rfl (by decide) rfl, rfl⟩

/-! ## Layout followed by InitRenderLoop: order of the cache keys -/

/-- Outside single-parent trees the order of the keys matters: c has the two
parents p and q.  After `Layout` of the batch p, q the cache keys are 2 and 1;
`InitRenderLoop` visiting them in the order 1, 2 leaves c at (0, 0, 0.4), and
in the order 2, 1 at (0, 0, 0.3). -/
theorem layout_order_dependent :
    (Layout tenths (dagGraph [1]) plainEnv demoFresh (demoWorld [] []) [1, 2]).map
      (fun s => cacheKeys s.1.LocationCache) = .ok [2, 1] ∧
    List.Perm [1, 2] [(2 : Int), 1] ∧
    (layoutThenInit tenths (dagGraph [1]) plainEnv 10 demoFresh (demoWorld [] []) [1, 2]
      [1, 2]).map (fun r => r.1.cacheLookup 3) = .ok (some ⟨0, 0, 4⟩) ∧
    (layoutThenInit tenths (dagGraph [1]) plainEnv 10 demoFresh (demoWorld [] []) [1, 2]
      [2, 1]).map (fun r => r.1.cacheLookup 3) = .ok (some ⟨0, 0, 3⟩) :=
  ⟨rfl, by decide, rfl, rfl⟩

theorem node_of_deref {g : Graph} {key : Int} {el : MashupDetailedElement}
    (h : g.deref (g.concrete key) = .ok el) : g.node key = some el := by
  unfold Graph.node
  cases hce : g.ConcreteElements key with
  | none =>
    rw [deref_missing hce] at h
    cases h
  | some p =>
    rw [concrete_of_registered hce] at h
    simp only [h]

theorem lastSlot_not_mem (fl : FloatOps R) (center : Vector3 R) (ids : List Int) :
    ∀ (c0 : R) (k : Int), k ∉ ids → lastSlot fl center ids c0 k = none := by
  induction ids with
  | nil => intro c0 k _; rfl
  | cons id rest ih =>
    intro c0 k hk
    have h1 : k ∉ rest := fun h => hk (List.mem_cons_of_mem _ h)
    have h2 : id ≠ k := fun h => hk (by simp [h])
    simp [lastSlot, ih _ k h1, h2]

theorem lastSlot_mem (fl : FloatOps R) (center : Vector3 R) (ids : List Int) :
    ∀ (c0 : R) (k : Int), k ∈ ids → (lastSlot fl center ids c0 k).isSome = true := by
  induction ids with
  | nil => intro c0 k h; cases h
  | cons id rest ih =>
    intro c0 k hk
    simp only [lastSlot]
    cases hl : lastSlot fl center rest (fl.sub32 c0 fl.tenth32) k with
    | some v => rfl
    | none =>
      simp only
      rcases List.mem_cons.1 hk with rfl | hrest
      · simp
      · have := ih (fl.sub32 c0 fl.tenth32) k hrest
        rw [hl] at this
        cases this

/-- The loop of `calcLocnStarter` over ids that each have `x` as their only
parent, `x` positive and cached at `center`: a listed key holds its last
assignment, every other key is unchanged. -/
theorem calcLocnStarter_anchor (fl : FloatOps R) (g : Graph) (x : Int) (hx : 0 < x)
    (center : Vector3 R) (ids : List Int) :
    ∀ (er era : ElementRenderer R) (c0 : R),
      (∀ c ∈ ids, ∃ m, g.node c = some m ∧ m.Parentids = [x]) → x ∉ ids →
      er.cacheLookup x = some center →
      calcLocnStarter fl g ids er c0 = .ok era →
      ∀ k, era.cacheLookup k =
        match lastSlot fl center ids c0 k with
        | some v => some v
        | none => er.cacheLookup k := by
  induction ids with
  | nil =>
    intro er era c0 _ _ _ h k
    simp only [calcLocnStarter] at h
    cases h
    rfl
  | cons id rest ih =>
    intro er era c0 hids hx1 hcenter h k
    obtain ⟨m, hm, hpar⟩ := hids id (List.mem_cons_self _ _)
    have hd := (node_eq hm).2
    have hidx : id ≠ x := fun he => hx1 (by simp [he])
    unfold calcLocnStarter at h
    simp only [hd, hpar] at h
    obtain ⟨mp, hmp⟩ : ∃ mp, er.LocationCache = some mp := by
      unfold ElementRenderer.cacheLookup at hcenter
      split at hcenter
      · exact ⟨_, by assumption⟩
      · cases hcenter
    have hstore : er.cacheStore id (calculateLocation fl center c0) =
        .ok { er with LocationCache := some ((id, calculateLocation fl center c0) :: mp) } := by
      simp [ElementRenderer.cacheStore, hmp]
    simp only [calcLocnParents, hx, if_true, hcenter, hstore] at h
    have hlook := cacheStore_lookup hstore
    have hk := ih _ era _
      (fun c hc => hids c (List.mem_cons_of_mem _ hc))
      (fun hm1 => hx1 (List.mem_cons_of_mem _ hm1))
      (by rw [hlook x]; simp [hidx, hcenter]) h k
    rw [hk, hlook k]
    simp only [lastSlot]
    cases lastSlot fl center rest (fl.sub32 c0 fl.tenth32) k with
    | some v => rfl
    | none =>
      simp only
      split <;> rfl

/-- The loop of `calcLocnStarter` over ids that each have `x` as their only
parent changes nothing when `x` is not positive or not cached. -/
theorem calcLocnStarter_inert (fl : FloatOps R) (g : Graph) (x : Int) (ids : List Int) :
    ∀ (er era : ElementRenderer R) (c0 : R),
      (∀ c ∈ ids, ∃ m, g.node c = some m ∧ m.Parentids = [x]) →
      ¬ (0 < x ∧ (er.cacheLookup x).isSome = true) →
      calcLocnStarter fl g ids er c0 = .ok era → era = er := by
  induction ids with
  | nil =>
    intro er era c0 _ _ h
    simp only [calcLocnStarter] at h
    cases h
    rfl
  | cons id rest ih =>
    intro er era c0 hids hno h
    obtain ⟨m, hm, hpar⟩ := hids id (List.mem_cons_self _ _)
    have hd := (node_eq hm).2
    unfold calcLocnStarter at h
    simp only [hd, hpar] at h
    have hp : calcLocnParents fl id [x] er c0 = .ok (er, c0) := by
      unfold calcLocnParents
      by_cases hx : x > 0
      · rw [if_pos hx]
        cases hl : er.cacheLookup x with
        | none => simp [calcLocnParents]
        | some v => exact absurd ⟨hx, by rw [hl]; rfl⟩ hno
      · rw [if_neg hx]
        simp [calcLocnParents]
    rw [hp] at h
    exact ih er era c0 (fun c hc => hids c (List.mem_cons_of_mem _ hc)) hno h

theorem tree_single {g : Graph} {rank depth : Int → Nat}
    (htree : g.SingleParentTree rank depth) : g.SingleParent rank depth :=
  ⟨htree.children⟩

theorem single_parent_unique {g : Graph} {rank depth : Int → Nat}
    (hsp : g.SingleParent rank depth) {m m1 c : Int} {n n1 : MashupDetailedElement}
    (hn : g.node m = some n) (hc : c ∈ n.Childids) (hn1 : g.node m1 = some n1)
    (hc1 : c ∈ n1.Childids) : m = m1 := by
  obtain ⟨a, ha, hpa, _⟩ := hsp.children m n hn c hc
  obtain ⟨b, hb, hpb, _⟩ := hsp.children m1 n1 hn1 c hc1
  rw [ha] at hb
  cases hb
  rw [hpa] at hpb
  simpa using hpb

theorem writtenFrom_written {g : Graph} {er : ElementRenderer R} {x k : Int}
    (h : WrittenFrom g er x k) : Written g x k := by
  obtain ⟨m, n, hr, hn, hk, _⟩ := h
  exact ⟨m, n, hr, hn, hk⟩

theorem writtenFrom_mono {g : Graph} {a b : ElementRenderer R}
    (hab : ∀ k, (a.cacheLookup k).isSome = true → (b.cacheLookup k).isSome = true)
    {x k : Int} (h : WrittenFrom g a x k) : WrittenFrom g b x k := by
  obtain ⟨m, n, hr, hn, hk, hpos, hc⟩ := h
  exact ⟨m, n, hr, hn, hk, hpos, hab m hc⟩

/-- A pass that anchors its region and changes keys of that region only keeps
every anchored element that is not Solid anchored. -/
theorem anchoredAt_preserved (fl : FloatOps R) {g : Graph} {rank depth : Int → Nat}
    (hsp : g.SingleParent rank depth) (z : Int) (er er1 : ElementRenderer R)
    (hsettle : ∀ m, Region g z m → anchoredAt fl g er1 m)
    (hframe : ∀ k, ¬ Written g z k → er1.cacheLookup k = er.cacheLookup k)
    (m : Int) (hm : anchoredAt fl g er m)
    (hsolid : ∀ n, g.node m = some n → n.Genre ≠ "Solid") : anchoredAt fl g er1 m := by
  by_cases hreg : Region g z m
  · exact hsettle m hreg
  · obtain ⟨n, hn, hkids⟩ := hm
    have hnw : ¬ Written g z m := by
      rintro ⟨m1, n1, hr1, hn1, hmem⟩
      exact hreg (Region.step hr1 hn1 hmem hn (hsolid n hn))
    refine ⟨n, hn, ?_⟩
    intro hpos center hcenter c hcm
    have hnwc : ¬ Written g z c := by
      rintro ⟨m1, n1, hr1, hn1, hmem⟩
      have := single_parent_unique hsp hn hcm hn1 hmem
      exact hreg (this ▸ hr1)
    rw [hframe m hnw] at hcenter
    rw [hframe c hnwc]
    exact hkids hpos center hcenter c hcm

/-- The child loop of `initLocnCache` when each recursive pass anchors its
region and changes only the keys it assigns. -/
theorem initLocnChildren_anchors (fl : FloatOps R) {g : Graph} {rank depth : Int → Nat}
    (hsp : g.SingleParent rank depth)
    (recur : Ptr → ElementRenderer R → Except Err (ElementRenderer R))
    (hkeep : ∀ p er er1 k, recur p er = .ok er1 → (er.cacheLookup k).isSome = true →
      (er1.cacheLookup k).isSome = true)
    (hrec : ∀ c cn er er1, g.node c = some cn → cn.Genre ≠ "Solid" →
      recur (g.concrete c) er = .ok er1 →
      (∀ m, Region g c m → anchoredAt fl g er1 m) ∧
      (∀ k, ¬ WrittenFrom g er1 c k → er1.cacheLookup k = er.cacheLookup k))
    (ids : List Int) :
    ∀ (er er1 : ElementRenderer R),
      (∀ c ∈ ids, ∃ cn, g.node c = some cn) →
      initLocnChildren g recur ids er = .ok er1 →
      (∀ m, anchoredAt fl g er m → (∀ n, g.node m = some n → n.Genre ≠ "Solid") →
        anchoredAt fl g er1 m) ∧
      (∀ c ∈ ids, ∀ cn, g.node c = some cn → cn.Genre ≠ "Solid" →
        ∀ m, Region g c m → anchoredAt fl g er1 m) ∧
      (∀ k, (∀ c ∈ ids, ∀ cn, g.node c = some cn → cn.Genre ≠ "Solid" →
          ¬ WrittenFrom g er1 c k) →
        er1.cacheLookup k = er.cacheLookup k) ∧
      (∀ k, (er.cacheLookup k).isSome = true → (er1.cacheLookup k).isSome = true) := by
  induction ids with
  | nil =>
    intro er er1 _ h
    simp only [initLocnChildren] at h
    cases h
    exact ⟨fun _ hm _ => hm, fun c hc => absurd hc (List.not_mem_nil c), fun _ _ => rfl,
      fun _ hk => hk⟩
  | cons c rest ih =>
    intro er er1 hids h
    obtain ⟨cn, hcn⟩ := hids c (List.mem_cons_self _ _)
    have hd := (node_eq hcn).2
    unfold initLocnChildren at h
    simp only [hd] at h
    by_cases hg : cn.Genre ≠ "Solid"
    · rw [if_pos hg] at h
      cases hr : recur (g.concrete c) er with
      | error e => rw [hr] at h; cases h
      | ok er2 =>
        rw [hr] at h
        simp only at h
        obtain ⟨hs, hf⟩ := hrec c cn er er2 hcn hg hr
        obtain ⟨i1, i2, i3, i4⟩ := ih er2 er1
          (fun c1 hc1 => hids c1 (List.mem_cons_of_mem _ hc1)) h
        have hfw : ∀ k, ¬ Written g c k → er2.cacheLookup k = er.cacheLookup k :=
          fun k hk => hf k (fun hw => hk (writtenFrom_written hw))
        refine ⟨?_, ?_, ?_, ?_⟩
        · intro m hm hsol
          exact i1 m (anchoredAt_preserved fl hsp c er er2 hs hfw m hm hsol) hsol
        · intro c1 hc1 cn1 hcn1 hg1 m hreg
          rcases List.mem_cons.1 hc1 with rfl | hrest
          · exact i1 m (hs m hreg)
              (fun n hn => by
                obtain ⟨n2, hn2, hg2⟩ := region_node hreg ⟨cn, hcn, hg⟩
                rw [hn] at hn2
                cases hn2
                exact hg2)
          · exact i2 c1 hrest cn1 hcn1 hg1 m hreg
        · intro k hk
          rw [i3 k (fun c1 hc1 => hk c1 (List.mem_cons_of_mem _ hc1)),
            hf k (fun hw => hk c (List.mem_cons_self _ _) cn hcn hg (writtenFrom_mono i4 hw))]
        · intro k hk
          exact i4 k (hkeep _ _ _ _ hr hk)
    · rw [if_neg hg] at h
      obtain ⟨i1, i2, i3, i4⟩ := ih er er1
        (fun c1 hc1 => hids c1 (List.mem_cons_of_mem _ hc1)) h
      refine ⟨i1, ?_, ?_, i4⟩
      · intro c1 hc1 cn1 hcn1 hg1 m hreg
        rcases List.mem_cons.1 hc1 with rfl | hrest
        · rw [hcn] at hcn1
          cases hcn1
          exact absurd hg1 hg
        · exact i2 c1 hrest cn1 hcn1 hg1 m hreg
      · intro k hk
        exact i3 k (fun c1 hc1 => hk c1 (List.mem_cons_of_mem _ hc1))

/-- After a returning `initLocnCache` of an element that is not Solid, every
element of its region anchors its children, and only keys the pass assigns
have changed. -/
theorem initLocnCache_anchors (fl : FloatOps R) {g : Graph} {rank depth : Int → Nat}
    (hsp : g.SingleParent rank depth) (fuel : Nat) :
    ∀ (x : Int) (n : MashupDetailedElement) (er er1 : ElementRenderer R),
      g.node x = some n → n.Genre ≠ "Solid" →
      initLocnCache fl g fuel (g.concrete x) er = .ok er1 →
      (∀ m, Region g x m → anchoredAt fl g er1 m) ∧
      (∀ k, ¬ WrittenFrom g er1 x k → er1.cacheLookup k = er.cacheLookup k) := by
  induction fuel with
  | zero => intro x n er er1 _ _ h; simp [initLocnCache] at h
  | succ fuel ih =>
    intro x n er er1 hn hg h
    have hd := (node_eq hn).2
    unfold initLocnCache at h
    simp only [hd] at h
    by_cases hlen : n.Childids.length ≠ 0
    · rw [if_pos hlen, if_pos hg] at h
      cases hs : calcLocnStarter fl g n.Childids er fl.negTenth32 with
      | error e => rw [hs] at h; cases h
      | ok era =>
        rw [hs] at h
        simp only at h
        have hxnot : x ∉ n.Childids := by
          intro hmem
          obtain ⟨_, _, _, hr, _⟩ := hsp.children x n hn x hmem
          exact Nat.lt_irrefl _ hr
        have hpar : ∀ c ∈ n.Childids, ∃ m, g.node c = some m ∧ m.Parentids = [x] := by
          intro c hc
          obtain ⟨m, hm, hp, _⟩ := hsp.children x n hn c hc
          exact ⟨m, hm, hp⟩
        have hstart : anchoredAt fl g era x ∧
            (∀ k, k ∉ n.Childids → era.cacheLookup k = er.cacheLookup k) ∧
            (∀ k, k ∈ n.Childids → era.cacheLookup k ≠ er.cacheLookup k →
              0 < x ∧ (er.cacheLookup x).isSome = true) := by
          by_cases hw : 0 < x ∧ (er.cacheLookup x).isSome = true
          · obtain ⟨center, hcenter⟩ := Option.isSome_iff_exists.1 hw.2
            have hall := calcLocnStarter_anchor fl g x hw.1 center n.Childids er era
              fl.negTenth32 hpar hxnot hcenter hs
            have hout : ∀ k, k ∉ n.Childids → era.cacheLookup k = er.cacheLookup k := by
              intro k hk
              rw [hall k, lastSlot_not_mem fl center n.Childids _ k hk]
            refine ⟨⟨n, hn, ?_⟩, hout, fun _ _ _ => hw⟩
            intro _ center1 hc1 c hc
            rw [hout x hxnot, hcenter] at hc1
            cases hc1
            rw [hall c]
            have := lastSlot_mem fl center n.Childids fl.negTenth32 c hc
            cases hl : lastSlot fl center n.Childids fl.negTenth32 c with
            | none => rw [hl] at this; cases this
            | some v => rfl
          · have heq := calcLocnStarter_inert fl g x n.Childids er era fl.negTenth32 hpar hw hs
            subst heq
            refine ⟨⟨n, hn, ?_⟩, fun _ _ => rfl, fun _ _ hne => absurd rfl hne⟩
            intro hpos center1 hc1
            exact absurd ⟨hpos, by rw [hc1]; rfl⟩ hw
        obtain ⟨hsetx, hout, hin⟩ := hstart
        obtain ⟨i1, i2, i3, i4⟩ := initLocnChildren_anchors fl hsp (initLocnCache fl g fuel)
          (fun p a b k hab hk => initLocnCache_keeps fl g fuel p a b hab k hk)
          (fun c cn a b hcn hgc hab => ih c cn a b hcn hgc hab)
          n.Childids era er1
          (fun c hc => by
            obtain ⟨m, hm, _⟩ := hsp.children x n hn c hc
            exact ⟨m, hm⟩) h
        constructor
        · intro m hreg
          rcases region_cases hreg with rfl | ⟨n1, c, cn, hn1, hc, hcn, hgc, hr⟩
          · exact i1 m hsetx (fun n2 hn2 => by rw [hn] at hn2; cases hn2; exact hg)
          · rw [hn] at hn1
            cases hn1
            exact i2 c hc cn hcn hgc m hr
        · intro k hk
          rw [i3 k (fun c hc cn hcn hgc hw => by
            obtain ⟨m1, n1, hr1, hn1, hmem1, hpos1, hc1⟩ := hw
            exact hk ⟨m1, n1, region_prepend hn hc hcn hgc hr1, hn1, hmem1, hpos1, hc1⟩)]
          by_cases hmem : k ∈ n.Childids
          · by_contra hne
            obtain ⟨hpos, hcx⟩ := hin k hmem hne
            refine hk ⟨x, n, Region.root, hn, hmem, hpos, i4 x ?_⟩
            rw [hout x hxnot]
            exact hcx
          · exact hout k hmem
    · rw [if_neg hlen] at h
      cases h
      have hnil : n.Childids = [] := by
        rw [← List.length_eq_zero]
        exact not_not.1 hlen
      constructor
      · intro m hreg
        rcases region_cases hreg with rfl | ⟨n1, c, cn, hn1, hc, _⟩
        · refine ⟨n, hn, ?_⟩
          intro _ _ _ c hc
          rw [hnil] at hc
          cases hc
        · rw [hn] at hn1
          cases hn1
          rw [hnil] at hc
          cases hc
      · intro _ _
        rfl

/-- The population loop keeps the cache in the state `populated`, for the
keys visited so far. -/
theorem initCacheLoop_populated (fl : FloatOps R) {g : Graph} {rank depth : Int → Nat}
    (hsp : g.SingleParent rank depth) (fuel : Nat) (er0 : ElementRenderer R)
    (order : List Int) :
    ∀ (visited : List Int) (er er1 : ElementRenderer R),
      populated fl g visited er0 er →
      initCacheLoop fl g fuel order er = .ok er1 →
      populated fl g (visited ++ order) er0 er1 := by
  induction order with
  | nil =>
    intro visited er er1 hpop h
    simp only [initCacheLoop] at h
    cases h
    simpa using hpop
  | cons key rest ih =>
    intro visited er er1 hpop h
    unfold initCacheLoop at h
    cases hd : g.deref (g.concrete key) with
    | error e => rw [hd] at h; cases h
    | ok el =>
      rw [hd] at h
      simp only at h
      have hnode := node_of_deref hd
      have hassoc : visited ++ key :: rest = (visited ++ [key]) ++ rest := by simp
      rw [hassoc]
      by_cases hg : el.Genre ≠ "Solid"
      · rw [if_pos hg] at h
        cases hr : initLocnCache fl g fuel (g.concrete key) er with
        | error e => rw [hr] at h; cases h
        | ok er2 =>
          rw [hr] at h
          simp only at h
          obtain ⟨hs, hf⟩ := initLocnCache_anchors fl hsp fuel key el er er2 hnode hg hr
          have hmono : ∀ k, (er.cacheLookup k).isSome = true →
              (er2.cacheLookup k).isSome = true :=
            fun k hk => initLocnCache_keeps fl g fuel _ er er2 hr k hk
          refine ih (visited ++ [key]) er2 er1 ⟨?_, ?_⟩ h
          · intro x hx nx hnx hgx m hreg
            rcases List.mem_append.1 hx with hx | hx
            · refine anchoredAt_preserved fl hsp key er er2 hs
                (fun k hk => hf k (fun hw => hk (writtenFrom_written hw))) m
                (hpop.1 x hx nx hnx hgx m hreg) ?_
              intro n hn
              obtain ⟨n2, hn2, hg2⟩ := region_node hreg ⟨nx, hnx, hgx⟩
              rw [hn] at hn2
              cases hn2
              exact hg2
            · rw [List.mem_singleton] at hx
              subst hx
              exact hs m hreg
          · intro k hk
            rw [hf k (hk key (by simp) el hnode hg)]
            exact hpop.2 k (fun x hx nx hnx hgx hw =>
              hk x (List.mem_append_left _ hx) nx hnx hgx (writtenFrom_mono hmono hw))
      · rw [if_neg hg] at h
        refine ih (visited ++ [key]) er er1 ⟨?_, ?_⟩ h
        · intro x hx nx hnx hgx m hreg
          rcases List.mem_append.1 hx with hx | hx
          · exact hpop.1 x hx nx hnx hgx m hreg
          · rw [List.mem_singleton] at hx
            subst hx
            rw [hnode] at hnx
            cases hnx
            exact absurd hgx hg
        · intro k hk
          exact hpop.2 k (fun x hx => hk x (List.mem_append_left _ hx))

/-- Two caches in the state `populated` for the same keys and the same start
hold the same entries. -/
theorem populated_unique (fl : FloatOps R) {g : Graph} {rank depth : Int → Nat}
    (hsp : g.SingleParent rank depth) (keys : List Int) (er0 a b : ElementRenderer R)
    (ha : populated fl g keys er0 a) (hb : populated fl g keys er0 b) :
    ∀ k, a.cacheLookup k = b.cacheLookup k := by
  have key : ∀ d k, depth k < d → a.cacheLookup k = b.cacheLookup k := by
    intro d
    induction d with
    | zero => intro k hk; omega
    | succ d ih =>
      intro k hk
      by_cases hw : ∃ x ∈ keys, ∃ nx, g.node x = some nx ∧ nx.Genre ≠ "Solid" ∧ Written g x k
      · obtain ⟨x, hx, nx, hnx, hgx, m, nm, hreg, hnm, hkm⟩ := hw
        obtain ⟨n1, hn1, hk1⟩ := ha.1 x hx nx hnx hgx m hreg
        obtain ⟨n2, hn2, hk2⟩ := hb.1 x hx nx hnx hgx m hreg
        rw [hnm] at hn1 hn2
        cases hn1
        cases hn2
        obtain ⟨_, _, _, _, hdm⟩ := hsp.children m nm hnm k hkm
        have hm := ih m (by omega)
        by_cases heff : 0 < m ∧ (a.cacheLookup m).isSome = true
        · obtain ⟨center, hcenter⟩ := Option.isSome_iff_exists.1 heff.2
          rw [hk1 heff.1 center hcenter k hkm,
            hk2 heff.1 center (by rw [← hm]; exact hcenter) k hkm]
        · have hna : ∀ x1 ∈ keys, ∀ nx1, g.node x1 = some nx1 → nx1.Genre ≠ "Solid" →
              ¬ WrittenFrom g a x1 k := by
            rintro x1 _ nx1 _ _ ⟨m1, n1, _, hn1, hmem1, hpos1, hc1⟩
            have := single_parent_unique hsp hnm hkm hn1 hmem1
            subst this
            exact heff ⟨hpos1, hc1⟩
          have hnb : ∀ x1 ∈ keys, ∀ nx1, g.node x1 = some nx1 → nx1.Genre ≠ "Solid" →
              ¬ WrittenFrom g b x1 k := by
            rintro x1 _ nx1 _ _ ⟨m1, n1, _, hn1, hmem1, hpos1, hc1⟩
            have := single_parent_unique hsp hnm hkm hn1 hmem1
            subst this
            exact heff ⟨hpos1, by rw [hm]; exact hc1⟩
          rw [ha.2 k hna, hb.2 k hnb]
      · have hna : ∀ x ∈ keys, ∀ nx, g.node x = some nx → nx.Genre ≠ "Solid" →
            ¬ WrittenFrom g a x k :=
          fun x hx nx hnx hgx hwr => hw ⟨x, hx, nx, hnx, hgx, writtenFrom_written hwr⟩
        have hnb : ∀ x ∈ keys, ∀ nx, g.node x = some nx → nx.Genre ≠ "Solid" →
            ¬ WrittenFrom g b x k :=
          fun x hx nx hnx hgx hwr => hw ⟨x, hx, nx, hnx, hgx, writtenFrom_written hwr⟩
        rw [ha.2 k hna, hb.2 k hnb]
  intro k
  exact key (depth k + 1) k (by omega)

theorem populated_perm (fl : FloatOps R) (g : Graph) (o1 o2 : List Int) (er0 er : ElementRenderer R)
    (hperm : List.Perm o1 o2) (h : populated fl g o1 er0 er) : populated fl g o2 er0 er :=
  ⟨fun x hx => h.1 x (hperm.mem_iff.2 hx),
   fun k hk => h.2 k (fun x hx => hk x (hperm.mem_iff.1 hx))⟩

/-- On a single-parent tree the cache that the population phase leaves does
not depend on the order in which the keys are visited. -/
theorem initCachePhase_order (fl : FloatOps R) {g : Graph} {rank depth : Int → Nat}
    (hsp : g.SingleParent rank depth) (fuel : Nat) (er : ElementRenderer R)
    (o1 o2 : List Int) (hperm : List.Perm o1 o2)
    (e1 e2 : ElementRenderer R)
    (h1 : initCachePhase fl g o1 fuel er = .ok e1)
    (h2 : initCachePhase fl g o2 fuel er = .ok e2) :
    ∀ k, e1.cacheLookup k = e2.cacheLookup k := by
  unfold initCachePhase at h1 h2
  by_cases hph : er.iOffset ≠ 2
  · rw [if_pos hph] at h1 h2
    cases hl1 : initCacheLoop fl g fuel o1 er with
    | error e => rw [hl1] at h1; cases h1
    | ok a =>
      cases hl2 : initCacheLoop fl g fuel o2 er with
      | error e => rw [hl2] at h2; cases h2
      | ok b =>
        rw [hl1] at h1
        rw [hl2] at h2
        cases h1
        cases h2
        have hstart : populated fl g [] er er :=
          ⟨fun x hx => absurd hx (List.not_mem_nil x), fun _ _ => rfl⟩
        have pa := initCacheLoop_populated fl hsp fuel er o1 [] er a hstart hl1
        have pb := initCacheLoop_populated fl hsp fuel er o2 [] er b hstart hl2
        simp only [List.nil_append] at pa pb
        exact populated_unique fl hsp o2 er a b (populated_perm fl g o1 o2 er a hperm pa) pb
  · rw [if_neg hph] at h1 h2
    cases h1
    cases h2
    intro k
    rfl

theorem popPhase_stack_only (g : Graph) (fuel : Nat) (er er2 : ElementRenderer R)
    (w : WorldApp R) (h : er2.clickedElements = er.clickedElements) :
    popPhase g fuel er2 w =
      match popPhase g fuel er w with
      | .ok (e, w1) => .ok ({ er2 with clickedElements := e.clickedElements }, w1)
      | .error x => .error x := by
  unfold popPhase ElementRenderer.isEmpty ElementRenderer.top ElementRenderer.pop
  rw [h]
  cases er.clickedElements.getLast? with
  | none =>
    simp only
    split
    · rfl
    · cases er2
      simp only at h
      simp [h]
  | some top =>
    simp only
    split
    · cases popCondition g top.clickedElement with
      | error e => rfl
      | ok c =>
        cases c with
        | false =>
          simp only
          cases er2
          simp only at h
          simp [h]
        | true =>
          simp only
          cases g.deref top.clickedElement with
          | error e => rfl
          | ok prev =>
            simp only
            cases forIds (hideChild g fuel top.clickedElement) prev.Childids w with
            | error e => rfl
            | ok w1 =>
              simp only
              cases deselectElements g fuel fuel top.clickedElement w1 with
              | error e => rfl
              | ok r => rfl
    · cases er2
      simp only at h
      simp [h]

theorem pushPhase_stack_only (g : Graph) (er er2 : ElementRenderer R) (w : WorldApp R)
    (h : er2.clickedElements = er.clickedElements) :
    pushPhase g er2 w =
      match pushPhase g er w with
      | .ok (e, w1) => .ok ({ er2 with clickedElements := e.clickedElements }, w1)
      | .error x => .error x := by
  unfold pushPhase
  cases g.lastClicked with
  | error e => rfl
  | ok p =>
    simp only
    cases g.deref p with
    | error e => rfl
    | ok n =>
      simp only
      split
      · cases w.meshComposite p n.Name with
        | none => rfl
        | some mesh =>
          simp only
          cases forIds (showChild g) n.Childids w with
          | error e => rfl
          | ok w1 => simp [ElementRenderer.push, h]
      · cases er2
        simp only at h
        simp [h]

theorem initCacheLoop_visits (fl : FloatOps R) (g : Graph) (fuel : Nat) (order : List Int) :
    ∀ (er er1 : ElementRenderer R), initCacheLoop fl g fuel order er = .ok er1 →
      ∀ key ∈ order, ∃ el, g.node key = some el := by
  induction order with
  | nil => intro er er1 _ key hk; cases hk
  | cons k rest ih =>
    intro er er1 h key hk
    unfold initCacheLoop at h
    cases hd : g.deref (g.concrete k) with
    | error e => rw [hd] at h; cases h
    | ok el =>
      rw [hd] at h
      simp only at h
      have hrest : ∃ er2, initCacheLoop fl g fuel rest er2 = .ok er1 := by
        split at h
        · split at h
          · cases h
          · exact ⟨_, h⟩
        · exact ⟨_, h⟩
      obtain ⟨er2, h2⟩ := hrest
      rcases List.mem_cons.1 hk with rfl | hmem
      · exact ⟨el, node_of_deref hd⟩
      · exact ih er2 er1 h2 key hmem

theorem initLocnCache_returns_single (fl : FloatOps R) {g : Graph} {rank depth : Int → Nat}
    (hsp : g.SingleParent rank depth) (fuel : Nat) :
    ∀ (x : Int) (n : MashupDetailedElement) (er : ElementRenderer R),
      g.node x = some n → rank x < fuel →
      ∃ er1, initLocnCache fl g fuel (g.concrete x) er = .ok er1 := by
  induction fuel with
  | zero => intro x n er _ h; omega
  | succ fuel ih =>
    intro x n er hn hlt
    have hd := (node_eq hn).2
    have hkids : ∀ c ∈ n.Childids, ∃ m, g.deref (g.concrete c) = .ok m := by
      intro c hc
      obtain ⟨m, hm, _⟩ := hsp.children x n hn c hc
      exact ⟨m, (node_eq hm).2⟩
    unfold initLocnCache
    simp only [hd]
    split
    · have hfirst : ∃ er1, (if n.Genre ≠ "Solid" then
          calcLocnStarter fl g n.Childids er fl.negTenth32 else .ok er) = .ok er1 := by
        split
        · exact calcLocnStarter_returns fl g _ hkids _ _
        · exact ⟨_, rfl⟩
      obtain ⟨er1, h1⟩ := hfirst
      simp only [h1]
      apply initLocnChildren_returns
      intro c hc
      obtain ⟨m, hm, _, hr, _⟩ := hsp.children x n hn c hc
      exact ⟨⟨m, (node_eq hm).2⟩, fun er2 => ih c m er2 hm (by omega)⟩
    · exact ⟨_, rfl⟩

theorem initCacheLoop_returns_single (fl : FloatOps R) {g : Graph} {rank depth : Int → Nat}
    (hsp : g.SingleParent rank depth) (fuel : Nat)
    (order : List Int) (hfuel : ∀ k ∈ order, rank k < fuel)
    (hnodes : ∀ key ∈ order, ∃ el, g.node key = some el) :
    ∀ (er : ElementRenderer R), ∃ er1, initCacheLoop fl g fuel order er = .ok er1 := by
  induction order with
  | nil => intro er; exact ⟨_, rfl⟩
  | cons k rest ih =>
    intro er
    obtain ⟨el, hel⟩ := hnodes k (List.mem_cons_self _ _)
    have hrest := ih (fun key hk => hfuel key (List.mem_cons_of_mem _ hk))
      (fun key hk => hnodes key (List.mem_cons_of_mem _ hk))
    unfold initCacheLoop
    simp only [(node_eq hel).2]
    split
    · obtain ⟨er1, h1⟩ := initLocnCache_returns_single fl hsp fuel k el er hel
        (hfuel k (List.mem_cons_self _ _))
      simp only [h1]
      exact hrest _
    · exact hrest _

/-- On a single-parent tree, when `InitRenderLoop` returns for one order of
the keys it returns for every permutation of that order, with the same cache
entries. -/
theorem InitRenderLoop_order (fl : FloatOps R) {g : Graph} {rank depth : Int → Nat}
    (hsp : g.SingleParent rank depth) (fuel : Nat)
    (er : ElementRenderer R) (w : WorldApp R) (o1 o2 : List Int) (hperm : List.Perm o1 o2)
    (hfuel : ∀ k ∈ o1, rank k < fuel)
    (r1 : ElementRenderer R × WorldApp R × Bool)
    (h1 : InitRenderLoop fl g o1 fuel er w = .ok r1) :
    ∃ r2, InitRenderLoop fl g o2 fuel er w = .ok r2 ∧
      ∀ k, r1.1.cacheLookup k = r2.1.cacheLookup k := by
  obtain ⟨e1, hp1, hc1⟩ := InitRenderLoop_cache fl g o1 fuel er w r1 h1
  have hp2 : ∃ e2, initCachePhase fl g o2 fuel er = .ok e2 := by
    unfold initCachePhase at hp1 ⊢
    by_cases hph : er.iOffset ≠ 2
    · rw [if_pos hph] at hp1 ⊢
      cases hl1 : initCacheLoop fl g fuel o1 er with
      | error e => rw [hl1] at hp1; cases hp1
      | ok a =>
        have hv := initCacheLoop_visits fl g fuel o1 er a hl1
        obtain ⟨b, hb⟩ := initCacheLoop_returns_single fl hsp fuel o2
          (fun key hk => hfuel key (hperm.mem_iff.2 hk))
          (fun key hk => hv key (hperm.mem_iff.2 hk)) er
        rw [hb]
        exact ⟨_, rfl⟩
    · rw [if_neg hph]
      exact ⟨_, rfl⟩
  obtain ⟨e2, hp2⟩ := hp2
  have hsame := initCachePhase_order fl hsp fuel er o1 o2 hperm e1 e2 hp1 hp2
  have hs1 := initCachePhase_stack fl g o1 fuel er e1 hp1
  have hs2 := initCachePhase_stack fl g o2 fuel er e2 hp2
  have hst : e2.clickedElements = e1.clickedElements := hs2.trans hs1.symm
  unfold InitRenderLoop at h1 ⊢
  rw [hp1] at h1
  rw [hp2]
  simp only at h1 ⊢
  rw [popPhase_stack_only g fuel e1 e2 w hst]
  cases hpop : popPhase g fuel e1 w with
  | error x => rw [hpop] at h1; cases h1
  | ok pr =>
    obtain ⟨ea, wa⟩ := pr
    rw [hpop] at h1
    simp only at h1 ⊢
    rw [pushPhase_stack_only g ea { e2 with clickedElements := ea.clickedElements } wa rfl]
    cases hpush : pushPhase g ea wa with
    | error x => rw [hpush] at h1; cases h1
    | ok ps =>
      obtain ⟨eb, wb⟩ := ps
      rw [hpush] at h1
      simp only at h1 ⊢
      cases h1
      refine ⟨_, rfl, ?_⟩
      intro k
      show eb.cacheLookup k = e2.cacheLookup k
      rw [← hsame k]
      unfold ElementRenderer.cacheLookup
      rw [hc1]

theorem demoGraph_single (clicked : List Ptr) :
    (demoGraph clicked).SingleParent demoRank demoIdDepth :=
  tree_single (demoGraph_tree clicked)

/-- C14: on a finite single-parent tree, for a fixed `Layout` batch and fixed
child lists, two runs of `Layout` followed by `InitRenderLoop` that visit the
keys of the cache snapshot in two different orders end alike: when the run
with the one order returns, the run with the other order returns, and the two
position caches hold the same entry under every key. -/
theorem layoutThenInit_order_independent (fl : FloatOps R) (g : Graph)
    (rank depth : Int → Nat) (env : LayoutEnv R) (fuel : Nat) (er0 : ElementRenderer R)
    (w0 : WorldApp R) (batch : List Ptr) (o1 o2 : List Int)
    (r1 : ElementRenderer R × WorldApp R × Bool)
    (hsp : g.SingleParent rank depth)
    (hfuel : ∀ k ∈ o1, rank k < fuel)
    (hkeys : ∀ er w, Layout fl g env er0 w0 batch = .ok (er, w) →
      List.Perm o1 (cacheKeys er.LocationCache) ∧ List.Perm o2 (cacheKeys er.LocationCache))
    (h1 : layoutThenInit fl g env fuel er0 w0 batch o1 = .ok r1) :
    ∃ r2, layoutThenInit fl g env fuel er0 w0 batch o2 = .ok r2 ∧
      ∀ k, r1.1.cacheLookup k = r2.1.cacheLookup k := by
  unfold layoutThenInit at h1 ⊢
  cases hl : Layout fl g env er0 w0 batch with
  | error e => rw [hl] at h1; cases h1
  | ok s =>
    obtain ⟨er, w⟩ := s
    rw [hl] at h1
    simp only at h1 ⊢
    obtain ⟨hk1, hk2⟩ := hkeys er w hl
    exact InitRenderLoop_order fl hsp fuel er w o1 o2 (hk1.trans hk2.symm) hfuel r1 h1

/-- C14 (witness): the demo tree, the batch root, b, a, and the orders 1, 3, 2
and 2, 3, 1 of the cached keys. -/
theorem layoutThenInit_order_independent_witness :
    ∃ r1, layoutThenInit tenths (demoGraph [1]) plainEnv 10 demoFresh (demoWorld [] [])
        [1, 3, 2] [1, 3, 2] = .ok r1 ∧
      (r1.1.cacheLookup 2, r1.1.cacheLookup 3, r1.1.cacheLookup 4) =
        (some ⟨0, 0, 1⟩, some ⟨0, 0, 2⟩, some ⟨0, 0, 2⟩) ∧
      ∃ r2, layoutThenInit tenths (demoGraph [1]) plainEnv 10 demoFresh (demoWorld [] [])
          [1, 3, 2] [2, 3, 1] = .ok r2 ∧
        ∀ k, r1.1.cacheLookup k = r2.1.cacheLookup k :=
  ⟨_, rfl, rfl, layoutThenInit_order_independent tenths (demoGraph [1]) demoRank demoIdDepth
    plainEnv 10 demoFresh (demoWorld [] []) [1, 3, 2] [1, 3, 2] [2, 3, 1] _ (demoGraph_single [1])
    (by decide)
    (fun er w h => by
      have h2 : (Layout tenths (demoGraph [1]) plainEnv demoFresh (demoWorld [] [])
          [1, 3, 2]).map (fun s => cacheKeys s.1.LocationCache) =
          .ok (cacheKeys er.LocationCache) := by
        rw [h]; rfl
      have h3 : (Layout tenths (demoGraph [1]) plainEnv demoFresh (demoWorld [] [])
          [1, 3, 2]).map (fun s => cacheKeys s.1.LocationCache) = .ok [2, 3, 1] := rfl
      rw [h3] at h2
      have h4 : cacheKeys er.LocationCache = [2, 3, 1] := (Except.ok.inj h2).symm
      rw [h4]
      exact ⟨by decide, by decide⟩)
    rfl⟩

end Tierceron
